import Mathlib

/-!
# VIC `modify_Ksat.c`: interpolation helpers and the Ksat temperature modifier

Shallow embedding of `vic_run/src/modify_Ksat.c`.

The file has two layers.

* **Binary64 model.**  A C `double` is a value of `Dbl`: a finite
  sign-magnitude number, an infinity, or a NaN.  The arithmetic operations
  compute the exact rational result and round it to the nearest double, ties
  to even, with gradual underflow, overflow to infinity and the IEEE rules for
  signed zeros, infinities and NaN.  `linear_interp64`, `exp_interp64`,
  `Ksat_denom64`, `Ksat_raw_Factor64` and `modify_Ksat_Factor64` transcribe the
  C expressions operator by operator.
  The library function `exp` is not part of this repository: `Dbl.exp` fixes the
  special values prescribed by the C standard (`exp(±0) = 1`, `exp(-inf) = +0`,
  `exp(+inf) = +inf`, NaN to NaN) and delegates every other argument to a
  parameter `approx`.
* **Exact reading of the regression formula.**  `Ksat_denom`,
  `Ksat_raw_Factor`, `modify_Ksat_Factor` and `modify_Ksat` evaluate the body
  of `modify_Ksat` in a linearly ordered field (over `ℚ` they are executable);
  a division by zero is made explicit by `fdiv`.  They are used for statements
  about tabulated temperatures and bounded ranges.

`options.FROZEN_SOIL` is an external global; it is passed as a `Bool`.
-/


namespace VIC

section Embedding

variable {α : Type} [LinearOrderedField α]

/-- Division of doubles: the quotient when the divisor is non-zero,
    no number (`none`) when the divisor is zero. -/
def fdiv (a b : α) : Option α :=
  if b = 0 then none else some (a / b)

/-- Denominator of the regression formula in `modify_Ksat`:
    `0.006534 - 0.0002282 * Temp + 4.794e-6 * (Temp) * (Temp)
       - 4.143e-8 * (Temp) * (Temp) * (Temp)`. -/
def Ksat_denom (Temp : α) : α :=
  0.006534 - 0.0002282 * Temp + 4.794e-6 * Temp * Temp
    - 4.143e-8 * Temp * Temp * Temp

/-- Value of the local variable `Factor` after the first `if` of `modify_Ksat`
    (before the clamp). -/
def Ksat_raw_Factor (FROZEN_SOIL : Bool) (Temp : α) : Option α :=
  if FROZEN_SOIL then fdiv 0.003557 (Ksat_denom Temp) else some 1

/-- The clamp `if (Factor > 2.) { Factor = 2.; }`. -/
def Ksat_clamp (Factor : α) : α :=
  if Factor > 2 then 2 else Factor

/-- Value of the local variable `Factor` of `modify_Ksat` just before the
    `return` statement. -/
def modify_Ksat_Factor (FROZEN_SOIL : Bool) (Temp : α) : Option α :=
  (Ksat_raw_Factor FROZEN_SOIL Temp).map Ksat_clamp

/-- Embedding of `modify_Ksat`: the body computes `Factor`, clamps it, and
    ends with `return (1.0);`, so the computed `Factor` is discarded. -/
def modify_Ksat (FROZEN_SOIL : Bool) (Temp : α) : α :=
  let _Factor := modify_Ksat_Factor FROZEN_SOIL Temp
  1.0

/-- The reference table in the doc comment of `modify_Ksat`, as pairs
    `(Temp, Factor)`. -/
def Ksat_table : List (α × α) :=
  [(0, 0.560), (5, 0.659), (10, 0.770), (15, 0.878), (20, 1.00),
   (25, 1.12), (30, 1.25), (35, 1.39), (40, 1.52)]

end Embedding

/-! ## IEEE 754 binary64 model -/

inductive Dbl
  | fin (neg : Bool) (mag : ℚ)
  | inf (neg : Bool)
  | nan
  deriving DecidableEq

def ulpExp (a : ℚ) : ℤ := max (Int.log 2 a - 52) (-1074)

def roundEven (y : ℚ) : ℕ :=
  if y - (⌊y⌋₊ : ℚ) < 1 / 2 then ⌊y⌋₊
  else if 1 / 2 < y - (⌊y⌋₊ : ℚ) then ⌊y⌋₊ + 1
  else if ⌊y⌋₊ % 2 = 0 then ⌊y⌋₊ else ⌊y⌋₊ + 1

def roundMag (a : ℚ) : ℚ := (roundEven (a / 2 ^ ulpExp a) : ℚ) * 2 ^ ulpExp a

/-- Rounding of a magnitude with sign `neg`; overflow gives an infinity. -/
def Dbl.round (neg : Bool) (a : ℚ) : Dbl :=
  if (2 : ℚ) ^ 1024 ≤ roundMag a then Dbl.inf neg else Dbl.fin neg (roundMag a)

/-- Signed value of a sign-magnitude pair. -/
def sval (neg : Bool) (a : ℚ) : ℚ := if neg then -a else a

/-- Rounding of an exact signed result `v`; `zneg` is the sign given to an
    exact zero. -/
def Dbl.ofExact (zneg : Bool) (v : ℚ) : Dbl :=
  if v = 0 then Dbl.fin zneg 0 else Dbl.round (decide (v < 0)) |v|

/-- A C floating constant: the double nearest to the decimal literal. -/
def Dbl.lit (q : ℚ) : Dbl := Dbl.ofExact false q

def Dbl.neg : Dbl → Dbl
  | Dbl.fin s a => Dbl.fin (!s) a
  | Dbl.inf s => Dbl.inf (!s)
  | Dbl.nan => Dbl.nan

def Dbl.add : Dbl → Dbl → Dbl
  | Dbl.fin s a, Dbl.fin t b => Dbl.ofExact (s && t) (sval s a + sval t b)
  | Dbl.fin _ _, Dbl.inf t => Dbl.inf t
  | Dbl.inf s, Dbl.fin _ _ => Dbl.inf s
  | Dbl.inf s, Dbl.inf t => if s = t then Dbl.inf s else Dbl.nan
  | Dbl.nan, _ => Dbl.nan
  | _, Dbl.nan => Dbl.nan

def Dbl.sub (x y : Dbl) : Dbl := Dbl.add x (Dbl.neg y)

def Dbl.mul : Dbl → Dbl → Dbl
  | Dbl.fin s a, Dbl.fin t b => Dbl.round (xor s t) (a * b)
  | Dbl.fin s a, Dbl.inf t => if a = 0 then Dbl.nan else Dbl.inf (xor s t)
  | Dbl.inf s, Dbl.fin t b => if b = 0 then Dbl.nan else Dbl.inf (xor s t)
  | Dbl.inf s, Dbl.inf t => Dbl.inf (xor s t)
  | Dbl.nan, _ => Dbl.nan
  | _, Dbl.nan => Dbl.nan

def Dbl.div : Dbl → Dbl → Dbl
  | Dbl.fin s a, Dbl.fin t b =>
      if b = 0 then (if a = 0 then Dbl.nan else Dbl.inf (xor s t))
      else Dbl.round (xor s t) (a / b)
  | Dbl.fin s _, Dbl.inf t => Dbl.fin (xor s t) 0
  | Dbl.inf s, Dbl.fin t _ => Dbl.inf (xor s t)
  | Dbl.inf _, Dbl.inf _ => Dbl.nan
  | Dbl.nan, _ => Dbl.nan
  | _, Dbl.nan => Dbl.nan

/-- The C comparison `x > y`. -/
def Dbl.gt : Dbl → Dbl → Bool
  | Dbl.fin s a, Dbl.fin t b => decide (sval t b < sval s a)
  | Dbl.fin _ _, Dbl.inf t => t
  | Dbl.inf s, Dbl.fin _ _ => !s
  | Dbl.inf s, Dbl.inf t => !s && t
  | Dbl.nan, _ => false
  | _, Dbl.nan => false

/-- The C comparison `x == y`. -/
def Dbl.ceq : Dbl → Dbl → Bool
  | Dbl.fin s a, Dbl.fin t b => decide (sval s a = sval t b)
  | Dbl.inf s, Dbl.inf t => decide (s = t)
  | _, _ => false

/-- The C comparison `x <= y`. -/
def Dbl.le : Dbl → Dbl → Bool
  | Dbl.fin s a, Dbl.fin t b => decide (sval s a ≤ sval t b)
  | Dbl.fin _ _, Dbl.inf t => !t
  | Dbl.inf s, Dbl.fin _ _ => s
  | Dbl.inf s, Dbl.inf t => s || !t
  | Dbl.nan, _ => false
  | _, Dbl.nan => false

/-- The library function `exp`: special values as fixed by the C standard
    (Annex F), every other argument delegated to `approx`. -/
def Dbl.exp (approx : Dbl → Dbl) : Dbl → Dbl
  | Dbl.nan => Dbl.nan
  | Dbl.inf false => Dbl.inf false
  | Dbl.inf true => Dbl.fin false 0
  | Dbl.fin s a => if a = 0 then Dbl.fin false 1 else approx (Dbl.fin s a)

def linear_interp64 (x lx ux ly uy : Dbl) : Dbl :=
  Dbl.add (Dbl.mul (Dbl.div (Dbl.sub x lx) (Dbl.sub ux lx)) (Dbl.sub uy ly)) ly

def exp_interp64 (approx : Dbl → Dbl) (x lx ux ly uy : Dbl) : Dbl :=
  Dbl.add uy (Dbl.mul (Dbl.sub ly uy) (Dbl.exp approx (Dbl.div (Dbl.neg (Dbl.sub x lx)) ux)))

/-- The rational `q` is exactly representable as a finite double. -/
def isDouble (q : ℚ) : Prop := roundMag |q| = |q| ∧ |q| < 2 ^ 1024

/-- The double `d` is finite and its value is `v`. -/
def Dbl.Val (d : Dbl) (v : ℚ) : Prop := ∃ s a, d = Dbl.fin s a ∧ 0 ≤ a ∧ sval s a = v

/-- No operation of `linear_interp` rounds at these (rational) inputs. -/
def linear_exact (x lx ux ly uy : ℚ) : Prop :=
  ux - lx ≠ 0 ∧ isDouble (x - lx) ∧ isDouble (ux - lx) ∧ isDouble ((x - lx) / (ux - lx))
    ∧ isDouble (uy - ly) ∧ isDouble ((x - lx) / (ux - lx) * (uy - ly))
    ∧ isDouble ((x - lx) / (ux - lx) * (uy - ly) + ly)

/-- No operation of `exp_interp` rounds at these (rational) inputs, `e` being
    the value returned by `exp`. -/
def exp_exact (x lx ux ly uy e : ℚ) : Prop :=
  ux ≠ 0 ∧ isDouble (x - lx) ∧ isDouble (-(x - lx) / ux) ∧ isDouble (ly - uy)
    ∧ isDouble ((ly - uy) * e) ∧ isDouble (uy + (ly - uy) * e)

/-- Denominator of the regression formula of `modify_Ksat`, evaluated in
    double precision with the operator precedence of the C expression
    `0.006534 - 0.0002282 * Temp + 4.794e-6 * (Temp) * (Temp)
       - 4.143e-8 * (Temp) * (Temp) * (Temp)`. -/
def Ksat_denom64 (Temp : Dbl) : Dbl :=
  Dbl.sub
    (Dbl.add (Dbl.sub (Dbl.lit 0.006534) (Dbl.mul (Dbl.lit 0.0002282) Temp))
      (Dbl.mul (Dbl.mul (Dbl.lit 4.794e-6) Temp) Temp))
    (Dbl.mul (Dbl.mul (Dbl.mul (Dbl.lit 4.143e-8) Temp) Temp) Temp)

/-- Double-precision value of `Factor` after the first `if` of `modify_Ksat`. -/
def Ksat_raw_Factor64 (FROZEN_SOIL : Bool) (Temp : Dbl) : Dbl :=
  if FROZEN_SOIL then Dbl.div (Dbl.lit 0.003557) (Ksat_denom64 Temp) else Dbl.lit 1

/-- Double-precision value of `Factor` just before the `return` of
    `modify_Ksat`, after `if (Factor > 2.) { Factor = 2.; }`. -/
def modify_Ksat_Factor64 (FROZEN_SOIL : Bool) (Temp : Dbl) : Dbl :=
  if Dbl.gt (Ksat_raw_Factor64 FROZEN_SOIL Temp) (Dbl.lit 2) then Dbl.lit 2
  else Ksat_raw_Factor64 FROZEN_SOIL Temp

/-! ## Facts about the exact-arithmetic reading of the regression formula -/

theorem fdiv_of_ne {α : Type} [LinearOrderedField α] (a : α) {b : α} (hb : b ≠ 0) :
    fdiv a b = some (a / b) := by
  simp [fdiv, hb]

theorem fdiv_zero {α : Type} [LinearOrderedField α] (a : α) :
    fdiv a (0 : α) = none := by
  simp [fdiv]

/-- With `FROZEN_SOIL` enabled and a non-zero denominator the raw factor is
    the quotient of the regression formula. -/
theorem Ksat_raw_Factor_of_ne (Temp : ℝ) (h : Ksat_denom Temp ≠ 0) :
    Ksat_raw_Factor true Temp = some (0.003557 / Ksat_denom Temp) := by
  simp [Ksat_raw_Factor, fdiv_of_ne _ h]

theorem modify_Ksat_Factor_of_ne (Temp : ℝ) (h : Ksat_denom Temp ≠ 0) :
    modify_Ksat_Factor true Temp = some (Ksat_clamp (0.003557 / Ksat_denom Temp)) := by
  simp [modify_Ksat_Factor, Ksat_raw_Factor_of_ne Temp h]

theorem Ksat_clamp_le_two (f : ℝ) : Ksat_clamp f ≤ 2 := by
  unfold Ksat_clamp
  split_ifs with h
  · exact le_refl 2
  · exact not_lt.mp h

theorem Ksat_clamp_of_le {f : ℝ} (h : f ≤ 2) : Ksat_clamp f = f := by
  unfold Ksat_clamp
  exact if_neg (not_lt.mpr h)

theorem Ksat_clamp_of_gt {f : ℝ} (h : 2 < f) : Ksat_clamp f = 2 := by
  unfold Ksat_clamp
  exact if_pos h

theorem Ksat_clamp_mono {f g : ℝ} (h : f ≤ g) : Ksat_clamp f ≤ Ksat_clamp g := by
  unfold Ksat_clamp
  split_ifs with hf hg hg
  · exact le_refl 2
  · exact absurd (lt_of_lt_of_le hf h) hg
  · exact not_lt.mp hf
  · exact h

/-- The denominator polynomial of the regression formula is strictly
    decreasing on the reals. -/
theorem Ksat_denom_strictAnti (a b : ℝ) (h : a < b) : Ksat_denom b < Ksat_denom a := by
  have hq : 0 < 0.0002282 - 4.794e-6 * (a + b) + 4.143e-8 * (a * a + a * b + b * b) := by
    nlinarith [sq_nonneg (a + b - 319600 / 4143), sq_nonneg (a - b)]
  have hpos := mul_pos (sub_pos.mpr h) hq
  unfold Ksat_denom
  nlinarith

theorem Ksat_denom_60 : Ksat_denom (60 : ℝ) = 0.00115152 := by
  unfold Ksat_denom
  norm_num

theorem Ksat_denom_40 : Ksat_denom (40 : ℝ) = 0.00242488 := by
  unfold Ksat_denom
  norm_num

/-- The denominator is positive up to 60 degrees. -/
theorem Ksat_denom_pos_of_le_60 (Temp : ℝ) (h : Temp ≤ 60) : 0 < Ksat_denom Temp := by
  rcases eq_or_lt_of_le h with h60 | h60
  · rw [h60, Ksat_denom_60]
    norm_num
  · have := Ksat_denom_strictAnti Temp 60 h60
    rw [Ksat_denom_60] at this
    linarith

/-! ## Facts about the binary64 model -/

theorem roundEven_near (y : ℚ) (m : ℕ) (h0 : 0 ≤ y) (h1 : (m : ℚ) - 1 / 2 < y)
    (h2 : y < m + 1 / 2) : roundEven y = m := by
  by_cases hm : (m : ℚ) ≤ y
  · have hf : ⌊y⌋₊ = m := by
      rw [Nat.floor_eq_iff h0]
      constructor <;> linarith
    unfold roundEven
    rw [hf, if_pos (by linarith)]
  · push_neg at hm
    obtain ⟨n, rfl⟩ : ∃ n, m = n + 1 := by
      rcases Nat.eq_zero_or_pos m with hz | hp
      · rw [hz] at hm
        simp at hm
        linarith
      · exact ⟨m - 1, by omega⟩
    push_cast at h1 h2 hm
    have hf : ⌊y⌋₊ = n := by
      rw [Nat.floor_eq_iff h0]
      constructor <;> linarith
    unfold roundEven
    rw [hf, if_neg (by linarith), if_pos (by linarith)]

theorem roundEven_tie_down (y : ℚ) (m : ℕ) (hy : y = m + 1 / 2) (hm : m % 2 = 0) :
    roundEven y = m := by
  have h0 : 0 ≤ y := by
    rw [hy]
    positivity
  have hf : ⌊y⌋₊ = m := by
    rw [Nat.floor_eq_iff h0]
    constructor <;> linarith
  unfold roundEven
  rw [hf, if_neg (by linarith), if_neg (by linarith), if_pos hm]

theorem roundEven_tie_up (y : ℚ) (m : ℕ) (hy : y = m + 1 / 2) (hm : m % 2 = 1) :
    roundEven y = m + 1 := by
  have h0 : 0 ≤ y := by
    rw [hy]
    positivity
  have hf : ⌊y⌋₊ = m := by
    rw [Nat.floor_eq_iff h0]
    constructor <;> linarith
  unfold roundEven
  rw [hf, if_neg (by linarith), if_neg (by linarith), if_neg (by omega)]

theorem roundEven_natCast (m : ℕ) : roundEven (m : ℚ) = m :=
  roundEven_near _ m (Nat.cast_nonneg m) (by linarith) (by linarith)

theorem ulpExp_normal (a : ℚ) (k : ℤ) (hk : -1074 ≤ k) (hlo : (2 : ℚ) ^ (k + 52) ≤ a)
    (hhi : a < (2 : ℚ) ^ (k + 53)) : ulpExp a = k := by
  have hpos : 0 < a := lt_of_lt_of_le (by positivity) hlo
  have h1 : k + 52 ≤ Int.log 2 a := by
    have := (Int.zpow_le_iff_le_log (b := 2) (by norm_num) hpos (x := k + 52)).mp
      (by exact_mod_cast hlo)
    exact this
  have h2 : Int.log 2 a < k + 53 := by
    have := (Int.lt_zpow_iff_log_lt (b := 2) (by norm_num) hpos (x := k + 53)).mp
      (by exact_mod_cast hhi)
    exact this
  unfold ulpExp
  have : Int.log 2 a = k + 52 := by omega
  rw [this]
  omega

theorem ulpExp_subnormal (a : ℚ) (hpos : 0 < a) (hhi : a < (2 : ℚ) ^ (-1022 : ℤ)) :
    ulpExp a = -1074 := by
  unfold ulpExp
  have h2 : Int.log 2 a < -1022 := by
    have := (Int.lt_zpow_iff_log_lt (b := 2) (by norm_num) hpos (x := -1022)).mp
      (by exact_mod_cast hhi)
    exact this
  omega

theorem roundMag_zero : roundMag 0 = 0 := by
  unfold roundMag
  simp [roundEven]

/-- Evaluation of rounding: nearest case. -/
theorem roundMag_near (a : ℚ) (k : ℤ) (m : ℕ) (hk : ulpExp a = k) (h0 : 0 ≤ a)
    (h1 : ((m : ℚ) - 1 / 2) * 2 ^ k < a) (h2 : a < ((m : ℚ) + 1 / 2) * 2 ^ k) :
    roundMag a = m * 2 ^ k := by
  have hp : (0 : ℚ) < 2 ^ k := by positivity
  unfold roundMag
  rw [hk, roundEven_near (a / 2 ^ k) m (div_nonneg h0 (le_of_lt hp))
    ((lt_div_iff₀ hp).mpr h1) ((div_lt_iff₀ hp).mpr h2)]

theorem roundMag_tie_down (a : ℚ) (k : ℤ) (m : ℕ) (hk : ulpExp a = k)
    (ha : a = ((m : ℚ) + 1 / 2) * 2 ^ k) (hm : m % 2 = 0) :
    roundMag a = m * 2 ^ k := by
  have hp : (0 : ℚ) < 2 ^ k := by positivity
  unfold roundMag
  rw [hk, roundEven_tie_down (a / 2 ^ k) m (by rw [ha]; field_simp; ring) hm]

theorem roundMag_tie_up (a : ℚ) (k : ℤ) (m : ℕ) (hk : ulpExp a = k)
    (ha : a = ((m : ℚ) + 1 / 2) * 2 ^ k) (hm : m % 2 = 1) :
    roundMag a = (m + 1 : ℕ) * 2 ^ k := by
  have hp : (0 : ℚ) < 2 ^ k := by positivity
  unfold roundMag
  rw [hk, roundEven_tie_up (a / 2 ^ k) m (by rw [ha]; field_simp; ring) hm]

/-- A multiple of the unit in the last place is a fixed point of rounding. -/
theorem roundMag_exact (a : ℚ) (k : ℤ) (m : ℕ) (hk : ulpExp a = k) (ha : a = m * 2 ^ k) :
    roundMag a = a := by
  have hp : (0 : ℚ) < 2 ^ k := by positivity
  have h := roundMag_near a k m hk (by rw [ha]; positivity)
    (by rw [ha]; nlinarith) (by rw [ha]; nlinarith)
  rw [h, ha]

theorem Dbl.round_eq (s : Bool) (a b : ℚ) (h : roundMag a = b) (hlt : b < 2 ^ 1024) :
    Dbl.round s a = Dbl.fin s b := by
  unfold Dbl.round
  rw [h, if_neg (not_le.mpr hlt)]

theorem Dbl.round_inf (s : Bool) (a b : ℚ) (h : roundMag a = b) (hge : 2 ^ 1024 ≤ b) :
    Dbl.round s a = Dbl.inf s := by
  unfold Dbl.round
  rw [h, if_pos hge]

theorem Dbl.ofExact_eq (z : Bool) (v b : ℚ) (hv : v ≠ 0) (h : roundMag |v| = b)
    (hlt : b < 2 ^ 1024) : Dbl.ofExact z v = Dbl.fin (decide (v < 0)) b := by
  unfold Dbl.ofExact
  rw [if_neg hv, Dbl.round_eq _ _ _ h hlt]

theorem Dbl.ofExact_zero (z : Bool) : Dbl.ofExact z 0 = Dbl.fin z 0 := by
  unfold Dbl.ofExact
  rw [if_pos rfl]

theorem sval_abs (v : ℚ) : sval (decide (v < 0)) |v| = v := by
  unfold sval
  by_cases h : v < 0
  · simp [h, abs_of_neg h]
  · simp [h, abs_of_nonneg (not_lt.mp h)]

theorem sval_not (s : Bool) (a : ℚ) : sval (!s) a = -sval s a := by
  cases s <;> simp [sval]

theorem sval_xor (s t : Bool) (a b : ℚ) : sval (xor s t) (a * b) = sval s a * sval t b := by
  cases s <;> cases t <;> simp [sval]

theorem sval_zero (s : Bool) : sval s 0 = 0 := by
  cases s <;> simp [sval]

theorem abs_sval (s : Bool) (a : ℚ) (h : 0 ≤ a) : |sval s a| = a := by
  cases s <;> simp [sval, abs_of_nonneg h]

theorem isDouble_zero : isDouble 0 := by
  unfold isDouble
  rw [abs_zero, roundMag_zero]
  exact ⟨rfl, by positivity⟩

theorem isDouble_neg {q : ℚ} (h : isDouble q) : isDouble (-q) := by
  unfold isDouble at *
  rw [abs_neg]
  exact h

/-- Normal numbers `m * 2 ^ k` with a 53-bit significand are doubles. -/
theorem isDouble_normal (q : ℚ) (k : ℤ) (m : ℕ) (hk : -1074 ≤ k) (hk2 : k ≤ 971)
    (hlo : 2 ^ 52 ≤ m) (hhi : m < 2 ^ 53) (hq : |q| = m * 2 ^ k) : isDouble q := by
  have hp : (0 : ℚ) < 2 ^ k := by positivity
  have hm1 : ((2 : ℚ) ^ 52 : ℚ) ≤ (m : ℚ) := by exact_mod_cast hlo
  have hm2 : (m : ℚ) < (2 : ℚ) ^ 53 := by exact_mod_cast hhi
  have hu : ulpExp |q| = k := by
    apply ulpExp_normal _ _ hk
    · rw [hq, zpow_add₀ (by norm_num : (2 : ℚ) ≠ 0), mul_comm]
      exact mul_le_mul_of_nonneg_right (by exact_mod_cast hm1) (le_of_lt hp)
    · rw [hq, zpow_add₀ (by norm_num : (2 : ℚ) ≠ 0), mul_comm ((2 : ℚ) ^ k)]
      exact mul_lt_mul_of_pos_right (by exact_mod_cast hm2) hp
  refine ⟨roundMag_exact _ k m hu hq, ?_⟩
  rw [hq]
  have hk3 : (2 : ℚ) ^ k ≤ 2 ^ (971 : ℤ) := zpow_le_zpow_right₀ (by norm_num) hk2
  calc (m : ℚ) * 2 ^ k < 2 ^ 53 * 2 ^ k := mul_lt_mul_of_pos_right hm2 hp
    _ ≤ 2 ^ 53 * 2 ^ (971 : ℤ) := mul_le_mul_of_nonneg_left hk3 (by positivity)
    _ = 2 ^ 1024 := by norm_num

theorem Dbl.round_of_isDouble (s : Bool) {a : ℚ} (h0 : 0 ≤ a) (h : isDouble a) :
    Dbl.round s a = Dbl.fin s a := by
  unfold isDouble at h
  rw [abs_of_nonneg h0] at h
  exact Dbl.round_eq s a a h.1 h.2

theorem Dbl.ofExact_val (z : Bool) {v : ℚ} (h : isDouble v) : (Dbl.ofExact z v).Val v := by
  by_cases hv : v = 0
  · rw [hv, Dbl.ofExact_zero]
    exact ⟨z, 0, rfl, le_refl 0, sval_zero z⟩
  · rw [Dbl.ofExact_eq z v |v| hv h.1 h.2]
    exact ⟨_, _, rfl, abs_nonneg v, sval_abs v⟩

theorem Dbl.neg_val {x : Dbl} {vx : ℚ} (hx : x.Val vx) : (Dbl.neg x).Val (-vx) := by
  obtain ⟨s, a, rfl, ha, hv⟩ := hx
  exact ⟨!s, a, rfl, ha, by rw [sval_not, hv]⟩

theorem Dbl.add_val {x y : Dbl} {vx vy : ℚ} (hx : x.Val vx) (hy : y.Val vy)
    (h : isDouble (vx + vy)) : (Dbl.add x y).Val (vx + vy) := by
  obtain ⟨s, a, rfl, -, hv⟩ := hx
  obtain ⟨t, b, rfl, -, hw⟩ := hy
  simp only [Dbl.add]
  rw [hv, hw]
  exact Dbl.ofExact_val _ h

theorem Dbl.sub_val {x y : Dbl} {vx vy : ℚ} (hx : x.Val vx) (hy : y.Val vy)
    (h : isDouble (vx - vy)) : (Dbl.sub x y).Val (vx - vy) := by
  unfold Dbl.sub
  rw [sub_eq_add_neg] at h ⊢
  exact Dbl.add_val hx (Dbl.neg_val hy) h

theorem Dbl.mul_val {x y : Dbl} {vx vy : ℚ} (hx : x.Val vx) (hy : y.Val vy)
    (h : isDouble (vx * vy)) : (Dbl.mul x y).Val (vx * vy) := by
  obtain ⟨s, a, rfl, ha, hv⟩ := hx
  obtain ⟨t, b, rfl, hb, hw⟩ := hy
  have hab : |vx * vy| = a * b := by
    rw [← hv, ← hw, abs_mul, abs_sval s a ha, abs_sval t b hb]
  have h2 : isDouble (a * b) := by
    unfold isDouble at h ⊢
    rw [abs_of_nonneg (mul_nonneg ha hb)]
    rw [hab] at h
    exact h
  simp only [Dbl.mul]
  rw [Dbl.round_of_isDouble _ (mul_nonneg ha hb) h2]
  exact ⟨_, _, rfl, mul_nonneg ha hb, by rw [sval_xor, hv, hw]⟩

theorem sval_xor_div (s t : Bool) (a b : ℚ) : sval (xor s t) (a / b) = sval s a / sval t b := by
  cases s <;> cases t <;> simp [sval, neg_div, div_neg]

theorem Dbl.div_val {x y : Dbl} {vx vy : ℚ} (hx : x.Val vx) (hy : y.Val vy) (hne : vy ≠ 0)
    (h : isDouble (vx / vy)) : (Dbl.div x y).Val (vx / vy) := by
  obtain ⟨s, a, rfl, ha, hv⟩ := hx
  obtain ⟨t, b, rfl, hb, hw⟩ := hy
  have hb0 : b ≠ 0 := by
    intro hb0
    rw [hb0, sval_zero] at hw
    exact hne hw.symm
  have hab : |vx / vy| = a / b := by
    rw [← hv, ← hw, abs_div, abs_sval s a ha, abs_sval t b hb]
  have h2 : isDouble (a / b) := by
    unfold isDouble at h ⊢
    rw [abs_of_nonneg (div_nonneg ha hb)]
    rw [hab] at h
    exact h
  simp only [Dbl.div]
  rw [if_neg hb0, Dbl.round_of_isDouble _ (div_nonneg ha hb) h2]
  exact ⟨_, _, rfl, div_nonneg ha hb, by rw [sval_xor_div, hv, hw]⟩

theorem Dbl.ceq_of_val {x y : Dbl} {v : ℚ} (hx : x.Val v) (hy : y.Val v) :
    Dbl.ceq x y = true := by
  obtain ⟨s, a, rfl, -, hv⟩ := hx
  obtain ⟨t, b, rfl, -, hw⟩ := hy
  simp [Dbl.ceq, hv, hw]

theorem Dbl.val_unique {x : Dbl} {v w : ℚ} (hx : x.Val v) (hy : x.Val w) : v = w := by
  obtain ⟨s, a, rfl, -, hv⟩ := hx
  obtain ⟨t, b, h, -, hw⟩ := hy
  injection h with h1 h2
  rw [← hv, ← hw, h1, h2]

theorem linear_interp64_exact {x lx ux ly uy : Dbl} {vx vlx vux vly vuy : ℚ}
    (hx : x.Val vx) (hlx : lx.Val vlx) (hux : ux.Val vux) (hly : ly.Val vly)
    (huy : uy.Val vuy) (h : linear_exact vx vlx vux vly vuy) :
    (linear_interp64 x lx ux ly uy).Val
      ((vx - vlx) / (vux - vlx) * (vuy - vly) + vly) := by
  obtain ⟨hne, h1, h2, h3, h4, h5, h6⟩ := h
  unfold linear_interp64
  exact Dbl.add_val
    (Dbl.mul_val (Dbl.div_val (Dbl.sub_val hx hlx h1) (Dbl.sub_val hux hlx h2) hne h3)
      (Dbl.sub_val huy hly h4) h5) hly h6

theorem exp_interp64_exact (approx : Dbl → Dbl) {x lx ux ly uy : Dbl}
    {vx vlx vux vly vuy e : ℚ}
    (hx : x.Val vx) (hlx : lx.Val vlx) (hux : ux.Val vux) (hly : ly.Val vly)
    (huy : uy.Val vuy)
    (he : ∀ d : Dbl, d.Val (-(vx - vlx) / vux) → (Dbl.exp approx d).Val e)
    (h : exp_exact vx vlx vux vly vuy e) :
    (exp_interp64 approx x lx ux ly uy).Val (vuy + (vly - vuy) * e) := by
  obtain ⟨hne, h1, h2, h3, h4, h5⟩ := h
  unfold exp_interp64
  exact Dbl.add_val huy
    (Dbl.mul_val (Dbl.sub_val hly huy h3)
      (he _ (Dbl.div_val (Dbl.neg_val (Dbl.sub_val hx hlx h1)) hux hne h2)) h4) h5

theorem Dbl.exp_zero (approx : Dbl → Dbl) {d : Dbl} (h : d.Val 0) :
    Dbl.exp approx d = Dbl.fin false 1 := by
  obtain ⟨s, a, rfl, ha, hv⟩ := h
  have ha0 : a = 0 := by
    have := abs_sval s a ha
    rw [hv, abs_zero] at this
    exact this.symm
  simp [Dbl.exp, ha0]

theorem Dbl.val_fin (s : Bool) (a : ℚ) (h : 0 ≤ a) : (Dbl.fin s a).Val (sval s a) :=
  ⟨s, a, rfl, h, rfl⟩

theorem Dbl.val_pos (a : ℚ) (h : 0 ≤ a) : (Dbl.fin false a).Val a :=
  ⟨false, a, rfl, h, rfl⟩

theorem isDouble_one : isDouble 1 :=
  isDouble_normal 1 (-52) (2 ^ 52) (by norm_num) (by norm_num) (by norm_num) (by norm_num)
    (by norm_num)

theorem isDouble_two : isDouble 2 :=
  isDouble_normal 2 (-51) (2 ^ 52) (by norm_num) (by norm_num) (by norm_num) (by norm_num)
    (by norm_num)

theorem isDouble_three : isDouble 3 :=
  isDouble_normal 3 (-51) (3 * 2 ^ 51) (by norm_num) (by norm_num) (by norm_num) (by norm_num)
    (by norm_num)

theorem isDouble_four : isDouble 4 :=
  isDouble_normal 4 (-50) (2 ^ 52) (by norm_num) (by norm_num) (by norm_num) (by norm_num)
    (by norm_num)

theorem isDouble_five : isDouble 5 :=
  isDouble_normal 5 (-50) (5 * 2 ^ 50) (by norm_num) (by norm_num) (by norm_num) (by norm_num)
    (by norm_num)

theorem isDouble_seven : isDouble 7 :=
  isDouble_normal 7 (-50) (7 * 2 ^ 50) (by norm_num) (by norm_num) (by norm_num) (by norm_num)
    (by norm_num)

theorem isDouble_half : isDouble (1 / 2) :=
  isDouble_normal _ (-53) (2 ^ 52) (by norm_num) (by norm_num) (by norm_num) (by norm_num)
    (by norm_num)

theorem isDouble_1e16 : isDouble (10 ^ 16) :=
  isDouble_normal _ 1 (5 * 10 ^ 15) (by norm_num) (by norm_num) (by norm_num) (by norm_num)
    (by norm_num)

/-- `1 - 1e16` is a tie between `-(1e16 - 2)` and `-1e16`; it rounds to `-1e16`. -/
theorem roundMag_1e16_sub_one : roundMag (10 ^ 16 - 1) = 10 ^ 16 := by
  have hk : ulpExp (10 ^ 16 - 1) = 1 :=
    ulpExp_normal _ 1 (by norm_num) (by norm_num) (by norm_num)
  rw [roundMag_tie_up _ 1 4999999999999999 hk (by norm_num) (by norm_num)]
  norm_num

theorem Dbl.sub_one_1e16 :
    Dbl.sub (Dbl.fin false 1) (Dbl.fin false (10 ^ 16)) = Dbl.fin true (10 ^ 16) := by
  have := Dbl.ofExact_eq (false && true) (1 + -(10 ^ 16)) (10 ^ 16) (by norm_num)
    (by rw [show |(1 : ℚ) + -(10 ^ 16)| = 10 ^ 16 - 1 by norm_num]; exact roundMag_1e16_sub_one)
    (by norm_num)
  simpa [Dbl.sub, Dbl.neg, Dbl.add, sval] using this

theorem Dbl.sub_1e16_one :
    Dbl.sub (Dbl.fin false (10 ^ 16)) (Dbl.fin false 1) = Dbl.fin false (10 ^ 16) := by
  have := Dbl.ofExact_eq (false && true) (10 ^ 16 + -1) (10 ^ 16) (by norm_num)
    (by rw [show |(10 : ℚ) ^ 16 + -1| = 10 ^ 16 - 1 by norm_num]; exact roundMag_1e16_sub_one)
    (by norm_num)
  simpa [Dbl.sub, Dbl.neg, Dbl.add, sval] using this

/-- Evaluation of `linear_interp(2, 0, 2, 1e16, 1)`: the result is `+0`. -/
theorem linear_interp64_absorb :
    linear_interp64 (Dbl.fin false 2) (Dbl.fin false 0) (Dbl.fin false 2)
      (Dbl.fin false (10 ^ 16)) (Dbl.fin false 1) = Dbl.fin false 0 := by
  have e1 : Dbl.sub (Dbl.fin false 2) (Dbl.fin false 0) = Dbl.fin false 2 := by
    have := Dbl.ofExact_eq (false && true) (2 + -0) 2 (by norm_num)
      (by rw [show |(2 : ℚ) + -0| = |2| by norm_num]; exact isDouble_two.1) (by norm_num)
    simpa [Dbl.sub, Dbl.neg, Dbl.add, sval] using this
  have e2 : Dbl.div (Dbl.fin false 2) (Dbl.fin false 2) = Dbl.fin false 1 := by
    have := Dbl.round_eq (xor false false) (2 / 2) 1
      (by rw [show (2 : ℚ) / 2 = |1| by norm_num]; exact isDouble_one.1) (by norm_num)
    simpa [Dbl.div] using this
  have e4 : Dbl.mul (Dbl.fin false 1) (Dbl.fin true (10 ^ 16)) = Dbl.fin true (10 ^ 16) := by
    have := Dbl.round_eq (xor false true) (1 * 10 ^ 16) (10 ^ 16)
      (by rw [show (1 : ℚ) * 10 ^ 16 = |10 ^ 16| by norm_num]; exact isDouble_1e16.1)
      (by norm_num)
    simpa [Dbl.mul] using this
  have e5 : Dbl.add (Dbl.fin true (10 ^ 16)) (Dbl.fin false (10 ^ 16)) = Dbl.fin false 0 := by
    simp [Dbl.add, sval, Dbl.ofExact]
  unfold linear_interp64
  rw [e1, e2, Dbl.sub_one_1e16, e4, e5]

/-- Evaluation of the swapped call `linear_interp(2, 2, 0, 1, 1e16)`: the
    result is `1`. -/
theorem linear_interp64_absorb_swapped :
    linear_interp64 (Dbl.fin false 2) (Dbl.fin false 2) (Dbl.fin false 0)
      (Dbl.fin false 1) (Dbl.fin false (10 ^ 16)) = Dbl.fin false 1 := by
  have e1 : Dbl.sub (Dbl.fin false 2) (Dbl.fin false 2) = Dbl.fin false 0 := by
    simp [Dbl.sub, Dbl.neg, Dbl.add, sval, Dbl.ofExact]
  have e2 : Dbl.sub (Dbl.fin false 0) (Dbl.fin false 2) = Dbl.fin true 2 := by
    have := Dbl.ofExact_eq (false && true) (0 + -2) 2 (by norm_num)
      (by rw [show |(0 : ℚ) + -2| = |2| by norm_num]; exact isDouble_two.1) (by norm_num)
    simpa [Dbl.sub, Dbl.neg, Dbl.add, sval] using this
  have e3 : Dbl.div (Dbl.fin false 0) (Dbl.fin true 2) = Dbl.fin true 0 := by
    have := Dbl.round_eq (xor false true) (0 / 2) 0
      (by rw [zero_div]; exact roundMag_zero) (by norm_num)
    simpa [Dbl.div] using this
  have e4 : Dbl.mul (Dbl.fin true 0) (Dbl.fin false (10 ^ 16)) = Dbl.fin true 0 := by
    have := Dbl.round_eq (xor true false) (0 * 10 ^ 16) 0
      (by rw [zero_mul]; exact roundMag_zero) (by norm_num)
    simpa [Dbl.mul] using this
  have e5 : Dbl.add (Dbl.fin true 0) (Dbl.fin false 1) = Dbl.fin false 1 := by
    have := Dbl.ofExact_eq (true && false) (-0 + 1) 1 (by norm_num)
      (by rw [show |-(0 : ℚ) + 1| = |1| by norm_num]; exact isDouble_one.1) (by norm_num)
    simpa [Dbl.add, sval] using this
  unfold linear_interp64
  rw [e1, e2, e3, Dbl.sub_1e16_one, e4, e5]

theorem Dbl.sub_fin (s : Bool) (a : ℚ) (t : Bool) (b : ℚ) :
    Dbl.sub (Dbl.fin s a) (Dbl.fin t b) = Dbl.ofExact (s && !t) (sval s a - sval t b) := by
  simp only [Dbl.sub, Dbl.neg, Dbl.add, sval_not, sub_eq_add_neg]

theorem isDouble_2p1023 : isDouble (2 ^ 1023) :=
  isDouble_normal _ 971 (2 ^ 52) (by norm_num) (by norm_num) (by norm_num) (by norm_num)
    (by norm_num)

/-- The subtraction `2^1023 - (-2^1023)` overflows to `+inf`. -/
theorem Dbl.sub_overflow :
    Dbl.sub (Dbl.fin false (2 ^ 1023)) (Dbl.fin true (2 ^ 1023)) = Dbl.inf false := by
  have hu : ulpExp ((2 : ℚ) ^ 1024) = 972 :=
    ulpExp_normal _ 972 (by norm_num) (by norm_num) (by norm_num)
  have hr : roundMag ((2 : ℚ) ^ 1024) = 2 ^ 1024 :=
    roundMag_exact _ 972 (2 ^ 52) hu (by norm_num)
  have hv : sval false ((2 : ℚ) ^ 1023) - sval true (2 ^ 1023) = 2 ^ 1024 := by
    unfold sval
    norm_num
  have hne : (2 : ℚ) ^ 1024 ≠ 0 := by positivity
  have hpos : ¬ (2 : ℚ) ^ 1024 < 0 := not_lt.mpr (by positivity)
  rw [Dbl.sub_fin, hv]
  unfold Dbl.ofExact
  rw [if_neg hne, abs_of_pos (by positivity), decide_eq_false hpos]
  exact Dbl.round_inf false _ _ hr (le_refl _)

/-- Evaluation of `linear_interp(2^1023, -2^1023, 0, 0, 1)`: `x - lx` overflows
    and the result is `+inf`. -/
theorem linear_interp64_overflow :
    linear_interp64 (Dbl.fin false (2 ^ 1023)) (Dbl.fin true (2 ^ 1023)) (Dbl.fin false 0)
      (Dbl.fin false 0) (Dbl.fin false 1) = Dbl.inf false := by
  have e1 := Dbl.sub_overflow
  have e2 : Dbl.sub (Dbl.fin false 0) (Dbl.fin true (2 ^ 1023)) = Dbl.fin false (2 ^ 1023) := by
    have hv : sval false (0 : ℚ) - sval true (2 ^ 1023) = 2 ^ 1023 := by
      unfold sval
      norm_num
    have hne : (2 : ℚ) ^ 1023 ≠ 0 := by positivity
    have hpos : ¬ (2 : ℚ) ^ 1023 < 0 := not_lt.mpr (by positivity)
    rw [Dbl.sub_fin, hv, Dbl.ofExact_eq _ _ (2 ^ 1023) hne
      (by rw [abs_of_pos (by positivity)]; have := isDouble_2p1023.1; rwa [abs_of_pos (by positivity)] at this)
      (by norm_num), decide_eq_false hpos]
  have e3 : Dbl.sub (Dbl.fin false 1) (Dbl.fin false 0) = Dbl.fin false 1 := by
    have := Dbl.ofExact_eq (false && true) (1 + -0) 1 (by norm_num)
      (by rw [show |(1 : ℚ) + -0| = |1| by norm_num]; exact isDouble_one.1) (by norm_num)
    simpa [Dbl.sub, Dbl.neg, Dbl.add, sval] using this
  unfold linear_interp64
  rw [e1, e2, e3]
  simp [Dbl.div, Dbl.mul, Dbl.add]

/-- Evaluation of `linear_interp(0, 0, 0, 0, 1)`: `0 / 0` is a NaN. -/
theorem linear_interp64_degenerate :
    linear_interp64 (Dbl.fin false 0) (Dbl.fin false 0) (Dbl.fin false 0)
      (Dbl.fin false 0) (Dbl.fin false 1) = Dbl.nan := by
  have e1 : Dbl.sub (Dbl.fin false 0) (Dbl.fin false 0) = Dbl.fin false 0 := by
    simp [Dbl.sub, Dbl.neg, Dbl.add, sval, Dbl.ofExact]
  unfold linear_interp64
  rw [e1]
  simp [Dbl.div, Dbl.mul, Dbl.add]

theorem Dbl.ceq_nan (d : Dbl) : Dbl.ceq Dbl.nan d = false := by
  cases d <;> rfl

theorem linear_exact_sample_mid : linear_exact 1 0 2 3 7 := by
  refine ⟨by norm_num, ?_, ?_, ?_, ?_, ?_, ?_⟩
  · rw [sub_zero]; exact isDouble_one
  · rw [sub_zero]; exact isDouble_two
  · rw [sub_zero, sub_zero]; exact isDouble_half
  · rw [show (7 : ℚ) - 3 = 4 by norm_num]; exact isDouble_four
  · rw [show ((1 : ℚ) - 0) / (2 - 0) * (7 - 3) = 2 by norm_num]; exact isDouble_two
  · rw [show ((1 : ℚ) - 0) / (2 - 0) * (7 - 3) + 3 = 5 by norm_num]; exact isDouble_five

theorem linear_exact_sample_lo : linear_exact 0 0 2 3 7 := by
  refine ⟨by norm_num, ?_, ?_, ?_, ?_, ?_, ?_⟩
  · rw [sub_zero]; exact isDouble_zero
  · rw [sub_zero]; exact isDouble_two
  · rw [sub_zero, zero_div]; exact isDouble_zero
  · rw [show (7 : ℚ) - 3 = 4 by norm_num]; exact isDouble_four
  · rw [sub_zero, zero_div, zero_mul]; exact isDouble_zero
  · rw [sub_zero, zero_div, zero_mul, zero_add]; exact isDouble_three

theorem linear_exact_sample_hi : linear_exact 2 0 2 3 7 := by
  refine ⟨by norm_num, ?_, ?_, ?_, ?_, ?_, ?_⟩
  · rw [sub_zero]; exact isDouble_two
  · rw [sub_zero]; exact isDouble_two
  · rw [show ((2 : ℚ) - 0) / (2 - 0) = 1 by norm_num]; exact isDouble_one
  · rw [show (7 : ℚ) - 3 = 4 by norm_num]; exact isDouble_four
  · rw [show ((2 : ℚ) - 0) / (2 - 0) * (7 - 3) = 4 by norm_num]; exact isDouble_four
  · rw [show ((2 : ℚ) - 0) / (2 - 0) * (7 - 3) + 3 = 7 by norm_num]; exact isDouble_seven

theorem linear_exact_sample_swapped : linear_exact 1 2 0 7 3 := by
  refine ⟨by norm_num, ?_, ?_, ?_, ?_, ?_, ?_⟩
  · rw [show (1 : ℚ) - 2 = -1 by norm_num]; exact isDouble_neg isDouble_one
  · rw [show (0 : ℚ) - 2 = -2 by norm_num]; exact isDouble_neg isDouble_two
  · rw [show ((1 : ℚ) - 2) / (0 - 2) = 1 / 2 by norm_num]; exact isDouble_half
  · rw [show (3 : ℚ) - 7 = -4 by norm_num]; exact isDouble_neg isDouble_four
  · rw [show ((1 : ℚ) - 2) / (0 - 2) * (3 - 7) = -2 by norm_num]; exact isDouble_neg isDouble_two
  · rw [show ((1 : ℚ) - 2) / (0 - 2) * (3 - 7) + 7 = 5 by norm_num]; exact isDouble_five

theorem Dbl.add_fin (s : Bool) (a : ℚ) (t : Bool) (b : ℚ) :
    Dbl.add (Dbl.fin s a) (Dbl.fin t b) = Dbl.ofExact (s && t) (sval s a + sval t b) := by
  simp only [Dbl.add]

theorem Dbl.mul_fin (s : Bool) (a : ℚ) (t : Bool) (b : ℚ) :
    Dbl.mul (Dbl.fin s a) (Dbl.fin t b) = Dbl.round (xor s t) (a * b) := by
  simp only [Dbl.mul]

theorem Dbl.div_fin (s : Bool) (a : ℚ) (t : Bool) (b : ℚ) (hb : b ≠ 0) :
    Dbl.div (Dbl.fin s a) (Dbl.fin t b) = Dbl.round (xor s t) (a / b) := by
  simp only [Dbl.div, if_neg hb]

theorem Dbl.round_zero (s : Bool) : Dbl.round s 0 = Dbl.fin s 0 :=
  Dbl.round_eq s 0 0 roundMag_zero (by norm_num)

theorem Dbl.exp_fin_zero (approx : Dbl → Dbl) (s : Bool) :
    Dbl.exp approx (Dbl.fin s 0) = Dbl.fin false 1 := by
  simp [Dbl.exp]

theorem Dbl.exp_fin_ne (approx : Dbl → Dbl) (s : Bool) (a : ℚ) (h : a ≠ 0) :
    Dbl.exp approx (Dbl.fin s a) = approx (Dbl.fin s a) := by
  simp [Dbl.exp, h]

/-- Evaluation of `exp_interp(4, 4, 2, 1, 1e16)`: the result is `+0` whatever
    the library's `exp` does away from zero. -/
theorem exp_interp64_absorb (approx : Dbl → Dbl) :
    exp_interp64 approx (Dbl.fin false 4) (Dbl.fin false 4) (Dbl.fin false 2)
      (Dbl.fin false 1) (Dbl.fin false (10 ^ 16)) = Dbl.fin false 0 := by
  have e1 : Dbl.sub (Dbl.fin false 4) (Dbl.fin false 4) = Dbl.fin false 0 := by
    rw [Dbl.sub_fin, sub_self, Dbl.ofExact_zero]
    rfl
  have e2 : Dbl.div (Dbl.fin true 0) (Dbl.fin false 2) = Dbl.fin true 0 := by
    rw [Dbl.div_fin _ _ _ _ (by norm_num), zero_div, Dbl.round_zero]
    rfl
  have e3 : Dbl.mul (Dbl.fin true (10 ^ 16)) (Dbl.fin false 1) = Dbl.fin true (10 ^ 16) := by
    rw [Dbl.mul_fin, mul_one, Dbl.round_of_isDouble _ (by norm_num) isDouble_1e16]
    rfl
  have e4 : Dbl.add (Dbl.fin false (10 ^ 16)) (Dbl.fin true (10 ^ 16)) = Dbl.fin false 0 := by
    rw [Dbl.add_fin]
    have : sval false ((10 : ℚ) ^ 16) + sval true (10 ^ 16) = 0 := by
      unfold sval
      norm_num
    rw [this, Dbl.ofExact_zero]
    rfl
  unfold exp_interp64
  rw [e1]
  have hn : Dbl.neg (Dbl.fin false 0) = Dbl.fin true 0 := rfl
  rw [hn, e2, Dbl.exp_fin_zero, Dbl.sub_one_1e16, e3, e4]

theorem isDouble_2p52 : isDouble (2 ^ 52) :=
  isDouble_normal _ 0 (2 ^ 52) (by norm_num) (by norm_num) (by norm_num) (by norm_num)
    (by norm_num)

/-- Evaluation of `exp_interp(1, 0, 1, 2^52 + 1, 2^52)` when the library
    returns for `exp(-1)` a double `e` with `1/4 ≤ e ≤ 2/5`: the product
    `(ly - uy) * e = e` is absorbed by `uy` and the result is `uy`. -/
theorem exp_interp64_damping_absorb (approx : Dbl → Dbl) (e : ℚ)
    (happ : approx (Dbl.fin true 1) = Dbl.fin false e) (hrep : isDouble e)
    (hlo : 1 / 4 ≤ e) (hhi : e ≤ 2 / 5) :
    exp_interp64 approx (Dbl.fin false 1) (Dbl.fin false 0) (Dbl.fin false 1)
        (Dbl.fin false (2 ^ 52 + 1)) (Dbl.fin false (2 ^ 52)) = Dbl.fin false (2 ^ 52)
      ∧ Dbl.mul (Dbl.sub (Dbl.fin false (2 ^ 52 + 1)) (Dbl.fin false (2 ^ 52)))
          (Dbl.exp approx (Dbl.fin true 1)) = Dbl.fin false e := by
  have he0 : 0 ≤ e := le_trans (by norm_num) hlo
  have e1 : Dbl.sub (Dbl.fin false 1) (Dbl.fin false 0) = Dbl.fin false 1 := by
    have h : sval false (1 : ℚ) - sval false 0 = 1 := by
      unfold sval
      norm_num
    rw [Dbl.sub_fin, h, Dbl.ofExact_eq _ 1 1 (by norm_num) isDouble_one.1 (by norm_num)]
    simp
  have e2 : Dbl.div (Dbl.fin true 1) (Dbl.fin false 1) = Dbl.fin true 1 := by
    rw [Dbl.div_fin _ _ _ _ (by norm_num), div_one,
      Dbl.round_of_isDouble _ (by norm_num) isDouble_one]
    rfl
  have e3 : Dbl.sub (Dbl.fin false (2 ^ 52 + 1)) (Dbl.fin false (2 ^ 52)) = Dbl.fin false 1 := by
    have h : sval false ((2 : ℚ) ^ 52 + 1) - sval false (2 ^ 52) = 1 := by
      unfold sval
      norm_num
    rw [Dbl.sub_fin, h, Dbl.ofExact_eq _ 1 1 (by norm_num) isDouble_one.1 (by norm_num)]
    simp
  have e4 : Dbl.mul (Dbl.fin false 1) (Dbl.fin false e) = Dbl.fin false e := by
    rw [Dbl.mul_fin, one_mul, Dbl.round_of_isDouble _ he0 hrep]
    rfl
  have e5 : Dbl.add (Dbl.fin false (2 ^ 52)) (Dbl.fin false e) = Dbl.fin false (2 ^ 52) := by
    have h : sval false ((2 : ℚ) ^ 52) + sval false e = 2 ^ 52 + e := by
      unfold sval
      simp
    have hpos : (0 : ℚ) < 2 ^ 52 + e := by positivity
    have hu : ulpExp (2 ^ 52 + e) = 0 :=
      ulpExp_normal _ 0 (by norm_num) (by norm_num; linarith) (by norm_num; linarith)
    have hr : roundMag |2 ^ 52 + e| = 2 ^ 52 := by
      rw [abs_of_pos hpos, roundMag_near _ 0 (2 ^ 52) hu (le_of_lt hpos)
        (by norm_num; linarith) (by norm_num; linarith)]
      norm_num
    rw [Dbl.add_fin, h, Dbl.ofExact_eq _ _ _ (ne_of_gt hpos) hr (by norm_num),
      decide_eq_false (not_lt.mpr (le_of_lt hpos))]
  have hn : Dbl.neg (Dbl.fin false 1) = Dbl.fin true 1 := rfl
  have hx : Dbl.exp approx (Dbl.fin true 1) = Dbl.fin false e := by
    rw [Dbl.exp_fin_ne approx true 1 (by norm_num), happ]
  constructor
  · unfold exp_interp64
    rw [e1, hn, e2, hx, e3, e4, e5]
  · rw [e3, hx, e4]

theorem Dbl.exp_of_val_ne (approx : Dbl → Dbl) {d : Dbl} {v : ℚ} (h : d.Val v) (hv : v ≠ 0) :
    Dbl.exp approx d = approx d := by
  obtain ⟨s, a, rfl, -, hs⟩ := h
  have ha : a ≠ 0 := by
    intro h0
    rw [h0, sval_zero] at hs
    exact hv hs.symm
  exact Dbl.exp_fin_ne approx s a ha

theorem exp_exact_sample_ref : exp_exact 4 4 2 4 2 1 := by
  refine ⟨by norm_num, ?_, ?_, ?_, ?_, ?_⟩
  · rw [sub_self]; exact isDouble_zero
  · rw [sub_self, neg_zero, zero_div]; exact isDouble_zero
  · rw [show (4 : ℚ) - 2 = 2 by norm_num]; exact isDouble_two
  · rw [show ((4 : ℚ) - 2) * 1 = 2 by norm_num]; exact isDouble_two
  · rw [show (2 : ℚ) + (4 - 2) * 1 = 4 by norm_num]; exact isDouble_four

theorem exp_exact_sample_deep : exp_exact 6 4 2 4 2 (1 / 2) := by
  refine ⟨by norm_num, ?_, ?_, ?_, ?_, ?_⟩
  · rw [show (6 : ℚ) - 4 = 2 by norm_num]; exact isDouble_two
  · rw [show -((6 : ℚ) - 4) / 2 = -1 by norm_num]; exact isDouble_neg isDouble_one
  · rw [show (4 : ℚ) - 2 = 2 by norm_num]; exact isDouble_two
  · rw [show ((4 : ℚ) - 2) * (1 / 2) = 1 by norm_num]; exact isDouble_one
  · rw [show (2 : ℚ) + (4 - 2) * (1 / 2) = 3 by norm_num]; exact isDouble_three

/-- A stand-in library whose `exp` returns `1/2` at every non-zero argument;
    at zero `Dbl.exp` returns `1`. -/
theorem Dbl.exp_half_at_zero (d : Dbl) (h : d.Val (-((4 : ℚ) - 4) / 2)) :
    (Dbl.exp (fun _ => Dbl.fin false (1 / 2)) d).Val 1 := by
  rw [sub_self, neg_zero, zero_div] at h
  rw [Dbl.exp_zero _ h]
  exact Dbl.val_pos 1 (by norm_num)

theorem Dbl.exp_half_at_deep (d : Dbl) (h : d.Val (-((6 : ℚ) - 4) / 2)) :
    (Dbl.exp (fun _ => Dbl.fin false (1 / 2)) d).Val (1 / 2) := by
  rw [Dbl.exp_of_val_ne _ h (by norm_num)]
  exact Dbl.val_pos (1 / 2) (by norm_num)

theorem Dbl.val_pos_sign {d : Dbl} {v : ℚ} (h : d.Val v) (hv : 0 < v) : d = Dbl.fin false v := by
  obtain ⟨s, a, rfl, ha, hs⟩ := h
  cases s
  · simp only [sval, Bool.false_eq_true, if_false] at hs
    rw [hs]
  · simp only [sval, if_true] at hs
    linarith

theorem Dbl.val_neg_sign {d : Dbl} {v : ℚ} (h : d.Val v) (hv : v < 0) :
    d = Dbl.fin true (-v) := by
  obtain ⟨s, a, rfl, ha, hs⟩ := h
  cases s
  · simp only [sval, Bool.false_eq_true, if_false] at hs
    linarith
  · simp only [sval, if_true] at hs
    rw [← hs, neg_neg]

theorem isDouble_eleven : isDouble 11 :=
  isDouble_normal _ (-49) (11 * 2 ^ 49) (by norm_num) (by norm_num) (by norm_num)
    (by norm_num) (by norm_num)

theorem isDouble_16 : isDouble 16 :=
  isDouble_normal _ (-48) (2 ^ 52) (by norm_num) (by norm_num) (by norm_num) (by norm_num)
    (by norm_num)

theorem isDouble_2p15 : isDouble 32768 :=
  isDouble_normal _ (-37) (2 ^ 52) (by norm_num) (by norm_num) (by norm_num) (by norm_num)
    (by norm_num)

theorem exp_exact_sample_far : exp_exact 16 0 1 32768 0 (1 / 32768) := by
  refine ⟨by norm_num, ?_, ?_, ?_, ?_, ?_⟩
  · rw [sub_zero]; exact isDouble_16
  · rw [sub_zero, div_one]; exact isDouble_neg isDouble_16
  · rw [sub_zero]; exact isDouble_2p15
  · rw [show ((32768 : ℚ) - 0) * (1 / 32768) = 1 by norm_num]; exact isDouble_one
  · rw [show (0 : ℚ) + (32768 - 0) * (1 / 32768) = 1 by norm_num]; exact isDouble_one

theorem Dbl.lit_eq (q : ℚ) (k : ℤ) (m : ℕ) (hq : 0 < q) (hk : -1074 ≤ k) (hk2 : k ≤ 900)
    (hlo : (2 : ℚ) ^ (k + 52) ≤ q) (hhi : q < (2 : ℚ) ^ (k + 53))
    (h1 : ((m : ℚ) - 1 / 2) * 2 ^ k < q) (h2 : q < ((m : ℚ) + 1 / 2) * 2 ^ k) :
    Dbl.lit q = Dbl.fin false (m * 2 ^ k) := by
  have hu := ulpExp_normal q k hk hlo hhi
  have hr := roundMag_near q k m hu (le_of_lt hq) h1 h2
  have hp : (0 : ℚ) < 2 ^ k := by positivity
  have hm : (m : ℚ) < 2 ^ 53 + 1 := by
    have h3 : ((m : ℚ) - 1 / 2) * 2 ^ k < 2 ^ 53 * 2 ^ k := by
      calc ((m : ℚ) - 1 / 2) * 2 ^ k < q := h1
        _ < 2 ^ (k + 53) := hhi
        _ = 2 ^ 53 * 2 ^ k := by rw [zpow_add₀ (by norm_num : (2 : ℚ) ≠ 0)]; ring
    have := lt_of_mul_lt_mul_right h3 (le_of_lt hp)
    linarith
  have hlt : (m : ℚ) * 2 ^ k < 2 ^ 1024 := by
    have hk3 : (2 : ℚ) ^ k ≤ 2 ^ (900 : ℤ) := zpow_le_zpow_right₀ (by norm_num) hk2
    calc (m : ℚ) * 2 ^ k ≤ (2 ^ 53 + 1) * 2 ^ k :=
          mul_le_mul_of_nonneg_right (le_of_lt hm) (le_of_lt hp)
      _ ≤ (2 ^ 53 + 1) * 2 ^ (900 : ℤ) := mul_le_mul_of_nonneg_left hk3 (by positivity)
      _ < 2 ^ 1024 := by norm_num
  unfold Dbl.lit
  rw [Dbl.ofExact_eq false q _ (ne_of_gt hq) (by rw [abs_of_pos hq]; exact hr) hlt,
    decide_eq_false (not_lt.mpr (le_of_lt hq))]

theorem Dbl.lit_c0 : Dbl.lit 0.006534 = Dbl.fin false (7533189111101138 * 2 ^ (-60 : ℤ)) := by
  have := Dbl.lit_eq 0.006534 (-60) 7533189111101138 (by norm_num) (by norm_num) (by norm_num)
    (by norm_num) (by norm_num) (by norm_num) (by norm_num)
  simpa using this

theorem Dbl.lit_c1 : Dbl.lit 0.0002282 = Dbl.fin false (8419093995241039 * 2 ^ (-65 : ℤ)) := by
  have := Dbl.lit_eq 0.0002282 (-65) 8419093995241039 (by norm_num) (by norm_num) (by norm_num)
    (by norm_num) (by norm_num) (by norm_num) (by norm_num)
  simpa using this

theorem Dbl.lit_c2 : Dbl.lit 4.794e-6 = Dbl.fin false (5659756229719270 * 2 ^ (-70 : ℤ)) := by
  have := Dbl.lit_eq 4.794e-6 (-70) 5659756229719270 (by norm_num) (by norm_num) (by norm_num)
    (by norm_num) (by norm_num) (by norm_num) (by norm_num)
  simpa using this

theorem Dbl.lit_c3 : Dbl.lit 4.143e-8 = Dbl.fin false (6260724588329261 * 2 ^ (-77 : ℤ)) := by
  have := Dbl.lit_eq 4.143e-8 (-77) 6260724588329261 (by norm_num) (by norm_num) (by norm_num)
    (by norm_num) (by norm_num) (by norm_num) (by norm_num)
  simpa using this

theorem Dbl.lit_cN : Dbl.lit 0.003557 = Dbl.fin false (8201883583773109 * 2 ^ (-61 : ℤ)) := by
  have := Dbl.lit_eq 0.003557 (-61) 8201883583773109 (by norm_num) (by norm_num) (by norm_num)
    (by norm_num) (by norm_num) (by norm_num) (by norm_num)
  simpa using this

theorem Dbl.lit_one : Dbl.lit 1 = Dbl.fin false 1 := by
  have := Dbl.lit_eq 1 (-52) (2 ^ 52) (by norm_num) (by norm_num) (by norm_num)
    (by norm_num) (by norm_num) (by norm_num) (by norm_num)
  rw [this]
  congr 1
  norm_num

theorem Dbl.lit_two : Dbl.lit 2 = Dbl.fin false 2 := by
  have := Dbl.lit_eq 2 (-51) (2 ^ 52) (by norm_num) (by norm_num) (by norm_num)
    (by norm_num) (by norm_num) (by norm_num) (by norm_num)
  rw [this]
  congr 1
  norm_num

theorem roundMag_normal (m : ℕ) (j : ℤ) (hj : -1074 ≤ j) (hlo : 2 ^ 52 ≤ m) (hhi : m < 2 ^ 53) :
    roundMag ((m : ℚ) * 2 ^ j) = (m : ℚ) * 2 ^ j := by
  have hp : (0 : ℚ) < 2 ^ j := by positivity
  have hm1 : ((2 : ℚ) ^ 52 : ℚ) ≤ (m : ℚ) := by exact_mod_cast hlo
  have hm2 : (m : ℚ) < (2 : ℚ) ^ 53 := by exact_mod_cast hhi
  have hu : ulpExp ((m : ℚ) * 2 ^ j) = j := by
    apply ulpExp_normal _ _ hj
    · rw [zpow_add₀ (by norm_num : (2 : ℚ) ≠ 0), mul_comm]
      exact mul_le_mul_of_nonneg_right (by exact_mod_cast hm1) (le_of_lt hp)
    · rw [zpow_add₀ (by norm_num : (2 : ℚ) ≠ 0), mul_comm ((2 : ℚ) ^ j)]
      exact mul_lt_mul_of_pos_right (by exact_mod_cast hm2) hp
  exact roundMag_exact _ j m hu rfl

theorem scale_zpow (m : ℚ) (k : ℤ) (n : ℕ) : m * 2 ^ k * 2 ^ n = m * 2 ^ (k + n) := by
  rw [mul_assoc, zpow_add₀ (by norm_num : (2 : ℚ) ≠ 0), zpow_natCast]

/-- Multiplication of a normal double by a power of two, in range. -/
theorem Dbl.mul_scale_fin (s t : Bool) (m : ℕ) (k : ℤ) (n : ℕ) (hlo : 2 ^ 52 ≤ m)
    (hhi : m < 2 ^ 53) (hj : -1074 ≤ k + n) (hr : k + n ≤ 971) :
    Dbl.mul (Dbl.fin s ((m : ℚ) * 2 ^ k)) (Dbl.fin t (2 ^ n))
      = Dbl.fin (xor s t) ((m : ℚ) * 2 ^ (k + n)) := by
  have hp : (0 : ℚ) < 2 ^ (k + n) := by positivity
  have hm2 : (m : ℚ) < (2 : ℚ) ^ 53 := by exact_mod_cast hhi
  have hk3 : (2 : ℚ) ^ (k + n) ≤ 2 ^ (971 : ℤ) := zpow_le_zpow_right₀ (by norm_num) hr
  rw [Dbl.mul_fin, scale_zpow]
  apply Dbl.round_eq _ _ _ (roundMag_normal m (k + n) hj hlo hhi)
  calc (m : ℚ) * 2 ^ (k + n) < 2 ^ 53 * 2 ^ (k + n) := mul_lt_mul_of_pos_right hm2 hp
    _ ≤ 2 ^ 53 * 2 ^ (971 : ℤ) := mul_le_mul_of_nonneg_left hk3 (by positivity)
    _ = 2 ^ 1024 := by norm_num

/-- Multiplication of a normal double by a power of two, overflowing. -/
theorem Dbl.mul_scale_inf (s t : Bool) (m : ℕ) (k : ℤ) (n : ℕ) (hlo : 2 ^ 52 ≤ m)
    (hhi : m < 2 ^ 53) (hr : 972 ≤ k + n) :
    Dbl.mul (Dbl.fin s ((m : ℚ) * 2 ^ k)) (Dbl.fin t (2 ^ n)) = Dbl.inf (xor s t) := by
  have hp : (0 : ℚ) < 2 ^ (k + n) := by positivity
  have hm1 : ((2 : ℚ) ^ 52 : ℚ) ≤ (m : ℚ) := by exact_mod_cast hlo
  have hk3 : (2 : ℚ) ^ (972 : ℤ) ≤ 2 ^ (k + n) := zpow_le_zpow_right₀ (by norm_num) hr
  rw [Dbl.mul_fin, scale_zpow]
  apply Dbl.round_inf _ _ _ (roundMag_normal m (k + n) (by omega) hlo hhi)
  calc (2 : ℚ) ^ 1024 = 2 ^ 52 * 2 ^ (972 : ℤ) := by norm_num
    _ ≤ 2 ^ 52 * 2 ^ (k + n) := mul_le_mul_of_nonneg_left hk3 (by positivity)
    _ ≤ (m : ℚ) * 2 ^ (k + n) := mul_le_mul_of_nonneg_right hm1 (le_of_lt hp)

theorem Dbl.round_cases (s : Bool) (a : ℚ) :
    (∃ b : ℚ, Dbl.round s a = Dbl.fin s b) ∨ Dbl.round s a = Dbl.inf s := by
  unfold Dbl.round
  split_ifs
  · exact Or.inr rfl
  · exact Or.inl ⟨_, rfl⟩

theorem Dbl.div_nan (x : Dbl) : Dbl.div x Dbl.nan = Dbl.nan := by
  cases x <;> rfl

theorem Dbl.gt_nan (y : Dbl) : Dbl.gt Dbl.nan y = false := by
  cases y <;> rfl

theorem Dbl.sub_add_inf_inf (A : Dbl) :
    Dbl.sub (Dbl.add A (Dbl.inf false)) (Dbl.inf false) = Dbl.nan := by
  cases A with
  | fin s a => rfl
  | inf s => cases s <;> rfl
  | nan => rfl

theorem Dbl.mul_inf_fin (s t : Bool) (b : ℚ) (hb : b ≠ 0) :
    Dbl.mul (Dbl.inf s) (Dbl.fin t b) = Dbl.inf (xor s t) := by
  simp only [Dbl.mul]
  rw [if_neg hb]

/-- Evaluation of the denominator at `Temp = 2^700`: the quadratic and the
    cubic term both overflow to `+inf` and their difference is a NaN. -/
theorem Ksat_denom64_huge : Ksat_denom64 (Dbl.fin false (2 ^ 700)) = Dbl.nan := by
  have p2 := Dbl.mul_scale_fin false false 5659756229719270 (-70) 700 (by norm_num)
    (by norm_num) (by norm_num) (by norm_num)
  have p3 := Dbl.mul_scale_inf false false 5659756229719270 (-70 + (700 : ℕ)) 700
    (by norm_num) (by norm_num) (by norm_num)
  have p4 := Dbl.mul_scale_fin false false 6260724588329261 (-77) 700 (by norm_num)
    (by norm_num) (by norm_num) (by norm_num)
  have p5 := Dbl.mul_scale_inf false false 6260724588329261 (-77 + (700 : ℕ)) 700
    (by norm_num) (by norm_num) (by norm_num)
  have p6 := Dbl.mul_inf_fin false false ((2 : ℚ) ^ 700) (by positivity)
  simp only [Nat.cast_ofNat, Bool.xor_false] at p2 p3 p4 p5 p6
  unfold Ksat_denom64
  rw [Dbl.lit_c2, Dbl.lit_c3, p2, p3, p4, p5, p6]
  exact Dbl.sub_add_inf_inf _

/-- A positive number minus a non-positive one is positive; adding `+inf`
    gives `+inf` whether or not the difference overflowed. -/
theorem Dbl.sub_pos_add_inf (a b : ℚ) (ha : 0 < a) (hb : 0 ≤ b) :
    Dbl.add (Dbl.sub (Dbl.fin false a) (Dbl.fin true b)) (Dbl.inf false) = Dbl.inf false := by
  have hv : (0 : ℚ) < sval false a - sval true b := by
    unfold sval
    simp only [Bool.false_eq_true, if_false, if_true, sub_neg_eq_add]
    positivity
  rw [Dbl.sub_fin]
  unfold Dbl.ofExact
  rw [if_neg (ne_of_gt hv), decide_eq_false (not_lt.mpr (le_of_lt hv))]
  rcases Dbl.round_cases false |sval false a - sval true b| with ⟨c, hc⟩ | hc
  · rw [hc]
    rfl
  · rw [hc]
    rfl

/-- Evaluation of the denominator at `Temp = -2^700`: every term is positive
    and the sum overflows to `+inf`. -/
theorem Ksat_denom64_huge_neg : Ksat_denom64 (Dbl.fin true (2 ^ 700)) = Dbl.inf false := by
  have p1 := Dbl.mul_scale_fin false true 8419093995241039 (-65) 700 (by norm_num)
    (by norm_num) (by norm_num) (by norm_num)
  have p2 := Dbl.mul_scale_fin false true 5659756229719270 (-70) 700 (by norm_num)
    (by norm_num) (by norm_num) (by norm_num)
  have p3 := Dbl.mul_scale_inf true true 5659756229719270 (-70 + (700 : ℕ)) 700
    (by norm_num) (by norm_num) (by norm_num)
  have p4 := Dbl.mul_scale_fin false true 6260724588329261 (-77) 700 (by norm_num)
    (by norm_num) (by norm_num) (by norm_num)
  have p5 := Dbl.mul_scale_inf true true 6260724588329261 (-77 + (700 : ℕ)) 700
    (by norm_num) (by norm_num) (by norm_num)
  have p6 := Dbl.mul_inf_fin false true ((2 : ℚ) ^ 700) (by positivity)
  simp only [Nat.cast_ofNat, Bool.xor_false, Bool.xor_true, Bool.not_false, Bool.not_true]
    at p1 p2 p3 p4 p5 p6
  unfold Ksat_denom64
  rw [Dbl.lit_c0, Dbl.lit_c1, Dbl.lit_c2, Dbl.lit_c3, p1, p2, p3, p4, p5, p6,
    Dbl.sub_pos_add_inf _ _ (by positivity) (by positivity)]
  rfl

theorem Dbl.sub_pos (a b : ℚ) (h : 0 < a - b) :
    Dbl.sub (Dbl.fin false a) (Dbl.fin false b) = Dbl.round false (a - b) := by
  have hv : sval false a - sval false b = a - b := by
    unfold sval
    simp
  rw [Dbl.sub_fin, hv]
  unfold Dbl.ofExact
  rw [if_neg (ne_of_gt h), decide_eq_false (not_lt.mpr (le_of_lt h)), abs_of_pos h]

theorem Dbl.add_pos (a b : ℚ) (h : 0 < a + b) :
    Dbl.add (Dbl.fin false a) (Dbl.fin false b) = Dbl.round false (a + b) := by
  have hv : sval false a + sval false b = a + b := by
    unfold sval
    simp
  rw [Dbl.add_fin, hv]
  unfold Dbl.ofExact
  rw [if_neg (ne_of_gt h), decide_eq_false (not_lt.mpr (le_of_lt h)), abs_of_pos h]

theorem zpow_bound_of_lt (v : ℚ) (k : ℤ) (hk2 : k ≤ 900) (hhi : v < (2 : ℚ) ^ (k + 53)) :
    v < 2 ^ 1024 := by
  have h : (2 : ℚ) ^ (k + 53) ≤ 2 ^ (953 : ℤ) := zpow_le_zpow_right₀ (by norm_num) (by omega)
  have h2 : (2 : ℚ) ^ (953 : ℤ) < 2 ^ 1024 := by norm_num
  linarith

/-- Certificate for a rounding that is not a tie. -/
theorem Dbl.round_cert_near (v : ℚ) (k : ℤ) (m : ℕ) (hk : -1074 ≤ k) (hk2 : k ≤ 900)
    (hlo : (2 : ℚ) ^ (k + 52) ≤ v) (hhi : v < (2 : ℚ) ^ (k + 53))
    (h1 : ((m : ℚ) - 1 / 2) * 2 ^ k < v) (h2 : v < ((m : ℚ) + 1 / 2) * 2 ^ k)
    (hm : m < 2 ^ 53) :
    Dbl.round false v = Dbl.fin false ((m : ℚ) * 2 ^ k) := by
  have hpos : 0 < v := lt_of_lt_of_le (by positivity) hlo
  have hu := ulpExp_normal v k hk hlo hhi
  have hp : (0 : ℚ) < 2 ^ k := by positivity
  have hm2 : (m : ℚ) < (2 : ℚ) ^ 53 := by exact_mod_cast hm
  apply Dbl.round_eq _ _ _ (roundMag_near v k m hu (le_of_lt hpos) h1 h2)
  apply zpow_bound_of_lt _ k hk2
  rw [zpow_add₀ (by norm_num : (2 : ℚ) ≠ 0), mul_comm ((2 : ℚ) ^ k)]
  exact mul_lt_mul_of_pos_right (by exact_mod_cast hm2) hp

/-- Certificate for a tie that rounds down to the even neighbour. -/
theorem Dbl.round_cert_tie_down (v : ℚ) (k : ℤ) (m : ℕ) (hk : -1074 ≤ k) (hk2 : k ≤ 900)
    (hlo : (2 : ℚ) ^ (k + 52) ≤ v) (hhi : v < (2 : ℚ) ^ (k + 53))
    (hv : v = ((m : ℚ) + 1 / 2) * 2 ^ k) (hpar : m % 2 = 0) (hm : m < 2 ^ 53) :
    Dbl.round false v = Dbl.fin false ((m : ℚ) * 2 ^ k) := by
  have hu := ulpExp_normal v k hk hlo hhi
  have hp : (0 : ℚ) < 2 ^ k := by positivity
  have hm2 : (m : ℚ) < (2 : ℚ) ^ 53 := by exact_mod_cast hm
  apply Dbl.round_eq _ _ _ (roundMag_tie_down v k m hu hv hpar)
  apply zpow_bound_of_lt _ k hk2
  rw [zpow_add₀ (by norm_num : (2 : ℚ) ≠ 0), mul_comm ((2 : ℚ) ^ k)]
  exact mul_lt_mul_of_pos_right (by exact_mod_cast hm2) hp

/-- Certificate for a tie that rounds up to the even neighbour. -/
theorem Dbl.round_cert_tie_up (v : ℚ) (k : ℤ) (m : ℕ) (hk : -1074 ≤ k) (hk2 : k ≤ 900)
    (hlo : (2 : ℚ) ^ (k + 52) ≤ v) (hhi : v < (2 : ℚ) ^ (k + 53))
    (hv : v = ((m : ℚ) + 1 / 2) * 2 ^ k) (hpar : m % 2 = 1) (hm : m + 1 < 2 ^ 53) :
    Dbl.round false v = Dbl.fin false (((m + 1 : ℕ) : ℚ) * 2 ^ k) := by
  have hu := ulpExp_normal v k hk hlo hhi
  have hp : (0 : ℚ) < 2 ^ k := by positivity
  have hm2 : ((m + 1 : ℕ) : ℚ) < (2 : ℚ) ^ 53 := by exact_mod_cast hm
  apply Dbl.round_eq _ _ _ (roundMag_tie_up v k m hu hv hpar)
  apply zpow_bound_of_lt _ k hk2
  rw [zpow_add₀ (by norm_num : (2 : ℚ) ≠ 0), mul_comm ((2 : ℚ) ^ k)]
  exact mul_lt_mul_of_pos_right (by exact_mod_cast hm2) hp

/-- Step-by-step evaluation of the raw `Factor` at `Temp = 10`. -/
theorem Ksat_raw_Factor64_ten :
    Ksat_raw_Factor64 true (Dbl.fin false (5629499534213120 * 2 ^ (-49 : ℤ)))
      = Dbl.fin false (6831303345034981 * 2 ^ (-53 : ℤ)) := by
  have p1 : Dbl.mul (Dbl.fin false (8419093995241039 * 2 ^ (-65 : ℤ))) (Dbl.fin false (5629499534213120 * 2 ^ (-49 : ℤ)))
      = Dbl.fin false (5261933747025649 * 2 ^ (-61 : ℤ)) := by
    have h := Dbl.round_cert_near ((8419093995241039 * 2 ^ (-65 : ℤ)) * (5629499534213120 * 2 ^ (-49 : ℤ))) (-61) 5261933747025649
      (by norm_num) (by norm_num) (by norm_num) (by norm_num) (by norm_num) (by norm_num)
      (by norm_num)
    simp only [Nat.cast_ofNat, Nat.reduceAdd] at h
    rw [Dbl.mul_fin]
    simpa using h
  have hA : Dbl.sub (Dbl.fin false (7533189111101138 * 2 ^ (-60 : ℤ))) (Dbl.fin false (5261933747025649 * 2 ^ (-61 : ℤ)))
      = Dbl.fin false (4902222237588314 * 2 ^ (-60 : ℤ)) := by
    have h := Dbl.round_cert_tie_up ((7533189111101138 * 2 ^ (-60 : ℤ)) - (5261933747025649 * 2 ^ (-61 : ℤ))) (-60) 4902222237588313
      (by norm_num) (by norm_num) (by norm_num) (by norm_num) (by norm_num) (by norm_num)
      (by norm_num)
    simp only [Nat.cast_ofNat, Nat.reduceAdd] at h
    rw [Dbl.sub_pos _ _ (by norm_num)]
    simpa using h
  have p2 : Dbl.mul (Dbl.fin false (5659756229719270 * 2 ^ (-70 : ℤ))) (Dbl.fin false (5629499534213120 * 2 ^ (-49 : ℤ)))
      = Dbl.fin false (7074695287149088 * 2 ^ (-67 : ℤ)) := by
    have h := Dbl.round_cert_tie_up ((5659756229719270 * 2 ^ (-70 : ℤ)) * (5629499534213120 * 2 ^ (-49 : ℤ))) (-67) 7074695287149087
      (by norm_num) (by norm_num) (by norm_num) (by norm_num) (by norm_num) (by norm_num)
      (by norm_num)
    simp only [Nat.cast_ofNat, Nat.reduceAdd] at h
    rw [Dbl.mul_fin]
    simpa using h
  have p3 : Dbl.mul (Dbl.fin false (7074695287149088 * 2 ^ (-67 : ℤ))) (Dbl.fin false (5629499534213120 * 2 ^ (-49 : ℤ)))
      = Dbl.fin false (8843369108936360 * 2 ^ (-64 : ℤ)) := by
    have h := Dbl.round_cert_near ((7074695287149088 * 2 ^ (-67 : ℤ)) * (5629499534213120 * 2 ^ (-49 : ℤ))) (-64) 8843369108936360
      (by norm_num) (by norm_num) (by norm_num) (by norm_num) (by norm_num) (by norm_num)
      (by norm_num)
    simp only [Nat.cast_ofNat, Nat.reduceAdd] at h
    rw [Dbl.mul_fin]
    simpa using h
  have hS : Dbl.add (Dbl.fin false (4902222237588314 * 2 ^ (-60 : ℤ))) (Dbl.fin false (8843369108936360 * 2 ^ (-64 : ℤ)))
      = Dbl.fin false (5454932806896836 * 2 ^ (-60 : ℤ)) := by
    have h := Dbl.round_cert_tie_down ((4902222237588314 * 2 ^ (-60 : ℤ)) + (8843369108936360 * 2 ^ (-64 : ℤ))) (-60) 5454932806896836
      (by norm_num) (by norm_num) (by norm_num) (by norm_num) (by norm_num) (by norm_num)
      (by norm_num)
    simp only [Nat.cast_ofNat, Nat.reduceAdd] at h
    rw [Dbl.add_pos _ _ (by norm_num)]
    simpa using h
  have p4 : Dbl.mul (Dbl.fin false (6260724588329261 * 2 ^ (-77 : ℤ))) (Dbl.fin false (5629499534213120 * 2 ^ (-49 : ℤ)))
      = Dbl.fin false (7825905735411576 * 2 ^ (-74 : ℤ)) := by
    have h := Dbl.round_cert_near ((6260724588329261 * 2 ^ (-77 : ℤ)) * (5629499534213120 * 2 ^ (-49 : ℤ))) (-74) 7825905735411576
      (by norm_num) (by norm_num) (by norm_num) (by norm_num) (by norm_num) (by norm_num)
      (by norm_num)
    simp only [Nat.cast_ofNat, Nat.reduceAdd] at h
    rw [Dbl.mul_fin]
    simpa using h
  have p5 : Dbl.mul (Dbl.fin false (7825905735411576 * 2 ^ (-74 : ℤ))) (Dbl.fin false (5629499534213120 * 2 ^ (-49 : ℤ)))
      = Dbl.fin false (4891191084632235 * 2 ^ (-70 : ℤ)) := by
    have h := Dbl.round_cert_near ((7825905735411576 * 2 ^ (-74 : ℤ)) * (5629499534213120 * 2 ^ (-49 : ℤ))) (-70) 4891191084632235
      (by norm_num) (by norm_num) (by norm_num) (by norm_num) (by norm_num) (by norm_num)
      (by norm_num)
    simp only [Nat.cast_ofNat, Nat.reduceAdd] at h
    rw [Dbl.mul_fin]
    simpa using h
  have p6 : Dbl.mul (Dbl.fin false (4891191084632235 * 2 ^ (-70 : ℤ))) (Dbl.fin false (5629499534213120 * 2 ^ (-49 : ℤ)))
      = Dbl.fin false (6113988855790294 * 2 ^ (-67 : ℤ)) := by
    have h := Dbl.round_cert_near ((4891191084632235 * 2 ^ (-70 : ℤ)) * (5629499534213120 * 2 ^ (-49 : ℤ))) (-67) 6113988855790294
      (by norm_num) (by norm_num) (by norm_num) (by norm_num) (by norm_num) (by norm_num)
      (by norm_num)
    simp only [Nat.cast_ofNat, Nat.reduceAdd] at h
    rw [Dbl.mul_fin]
    simpa using h
  have hD : Dbl.sub (Dbl.fin false (5454932806896836 * 2 ^ (-60 : ℤ))) (Dbl.fin false (6113988855790294 * 2 ^ (-67 : ℤ)))
      = Dbl.fin false (5407167268960974 * 2 ^ (-60 : ℤ)) := by
    have h := Dbl.round_cert_near ((5454932806896836 * 2 ^ (-60 : ℤ)) - (6113988855790294 * 2 ^ (-67 : ℤ))) (-60) 5407167268960974
      (by norm_num) (by norm_num) (by norm_num) (by norm_num) (by norm_num) (by norm_num)
      (by norm_num)
    simp only [Nat.cast_ofNat, Nat.reduceAdd] at h
    rw [Dbl.sub_pos _ _ (by norm_num)]
    simpa using h
  have hR : Dbl.div (Dbl.fin false (8201883583773109 * 2 ^ (-61 : ℤ))) (Dbl.fin false (5407167268960974 * 2 ^ (-60 : ℤ)))
      = Dbl.fin false (6831303345034981 * 2 ^ (-53 : ℤ)) := by
    have h := Dbl.round_cert_near ((8201883583773109 * 2 ^ (-61 : ℤ)) / (5407167268960974 * 2 ^ (-60 : ℤ))) (-53) 6831303345034981
      (by norm_num) (by norm_num) (by norm_num) (by norm_num) (by norm_num) (by norm_num)
      (by norm_num)
    simp only [Nat.cast_ofNat, Nat.reduceAdd] at h
    rw [Dbl.div_fin _ _ _ _ (by norm_num)]
    simpa using h
  unfold Ksat_raw_Factor64 Ksat_denom64
  rw [if_pos rfl, Dbl.lit_c0, Dbl.lit_c1, Dbl.lit_c2, Dbl.lit_c3, Dbl.lit_cN,
    p1, hA, p2, p3, hS, p4, p5, p6, hD, hR]

/-- Step-by-step evaluation of the raw `Factor` at the double next above `10`,
    `Temp = 10 + 2^-49`. -/
theorem Ksat_raw_Factor64_ten_next :
    Ksat_raw_Factor64 true (Dbl.fin false (5629499534213121 * 2 ^ (-49 : ℤ)))
      = Dbl.fin false (6831303345034981 * 2 ^ (-53 : ℤ)) := by
  have p1 : Dbl.mul (Dbl.fin false (8419093995241039 * 2 ^ (-65 : ℤ))) (Dbl.fin false (5629499534213121 * 2 ^ (-49 : ℤ)))
      = Dbl.fin false (5261933747025650 * 2 ^ (-61 : ℤ)) := by
    have h := Dbl.round_cert_near ((8419093995241039 * 2 ^ (-65 : ℤ)) * (5629499534213121 * 2 ^ (-49 : ℤ))) (-61) 5261933747025650
      (by norm_num) (by norm_num) (by norm_num) (by norm_num) (by norm_num) (by norm_num)
      (by norm_num)
    simp only [Nat.cast_ofNat, Nat.reduceAdd] at h
    rw [Dbl.mul_fin]
    simpa using h
  have hA : Dbl.sub (Dbl.fin false (7533189111101138 * 2 ^ (-60 : ℤ))) (Dbl.fin false (5261933747025650 * 2 ^ (-61 : ℤ)))
      = Dbl.fin false (4902222237588313 * 2 ^ (-60 : ℤ)) := by
    have h := Dbl.round_cert_near ((7533189111101138 * 2 ^ (-60 : ℤ)) - (5261933747025650 * 2 ^ (-61 : ℤ))) (-60) 4902222237588313
      (by norm_num) (by norm_num) (by norm_num) (by norm_num) (by norm_num) (by norm_num)
      (by norm_num)
    simp only [Nat.cast_ofNat, Nat.reduceAdd] at h
    rw [Dbl.sub_pos _ _ (by norm_num)]
    simpa using h
  have p2 : Dbl.mul (Dbl.fin false (5659756229719270 * 2 ^ (-70 : ℤ))) (Dbl.fin false (5629499534213121 * 2 ^ (-49 : ℤ)))
      = Dbl.fin false (7074695287149089 * 2 ^ (-67 : ℤ)) := by
    have h := Dbl.round_cert_near ((5659756229719270 * 2 ^ (-70 : ℤ)) * (5629499534213121 * 2 ^ (-49 : ℤ))) (-67) 7074695287149089
      (by norm_num) (by norm_num) (by norm_num) (by norm_num) (by norm_num) (by norm_num)
      (by norm_num)
    simp only [Nat.cast_ofNat, Nat.reduceAdd] at h
    rw [Dbl.mul_fin]
    simpa using h
  have p3 : Dbl.mul (Dbl.fin false (7074695287149089 * 2 ^ (-67 : ℤ))) (Dbl.fin false (5629499534213121 * 2 ^ (-49 : ℤ)))
      = Dbl.fin false (8843369108936363 * 2 ^ (-64 : ℤ)) := by
    have h := Dbl.round_cert_near ((7074695287149089 * 2 ^ (-67 : ℤ)) * (5629499534213121 * 2 ^ (-49 : ℤ))) (-64) 8843369108936363
      (by norm_num) (by norm_num) (by norm_num) (by norm_num) (by norm_num) (by norm_num)
      (by norm_num)
    simp only [Nat.cast_ofNat, Nat.reduceAdd] at h
    rw [Dbl.mul_fin]
    simpa using h
  have hS : Dbl.add (Dbl.fin false (4902222237588313 * 2 ^ (-60 : ℤ))) (Dbl.fin false (8843369108936363 * 2 ^ (-64 : ℤ)))
      = Dbl.fin false (5454932806896836 * 2 ^ (-60 : ℤ)) := by
    have h := Dbl.round_cert_near ((4902222237588313 * 2 ^ (-60 : ℤ)) + (8843369108936363 * 2 ^ (-64 : ℤ))) (-60) 5454932806896836
      (by norm_num) (by norm_num) (by norm_num) (by norm_num) (by norm_num) (by norm_num)
      (by norm_num)
    simp only [Nat.cast_ofNat, Nat.reduceAdd] at h
    rw [Dbl.add_pos _ _ (by norm_num)]
    simpa using h
  have p4 : Dbl.mul (Dbl.fin false (6260724588329261 * 2 ^ (-77 : ℤ))) (Dbl.fin false (5629499534213121 * 2 ^ (-49 : ℤ)))
      = Dbl.fin false (7825905735411578 * 2 ^ (-74 : ℤ)) := by
    have h := Dbl.round_cert_near ((6260724588329261 * 2 ^ (-77 : ℤ)) * (5629499534213121 * 2 ^ (-49 : ℤ))) (-74) 7825905735411578
      (by norm_num) (by norm_num) (by norm_num) (by norm_num) (by norm_num) (by norm_num)
      (by norm_num)
    simp only [Nat.cast_ofNat, Nat.reduceAdd] at h
    rw [Dbl.mul_fin]
    simpa using h
  have p5 : Dbl.mul (Dbl.fin false (7825905735411578 * 2 ^ (-74 : ℤ))) (Dbl.fin false (5629499534213121 * 2 ^ (-49 : ℤ)))
      = Dbl.fin false (4891191084632237 * 2 ^ (-70 : ℤ)) := by
    have h := Dbl.round_cert_near ((7825905735411578 * 2 ^ (-74 : ℤ)) * (5629499534213121 * 2 ^ (-49 : ℤ))) (-70) 4891191084632237
      (by norm_num) (by norm_num) (by norm_num) (by norm_num) (by norm_num) (by norm_num)
      (by norm_num)
    simp only [Nat.cast_ofNat, Nat.reduceAdd] at h
    rw [Dbl.mul_fin]
    simpa using h
  have p6 : Dbl.mul (Dbl.fin false (4891191084632237 * 2 ^ (-70 : ℤ))) (Dbl.fin false (5629499534213121 * 2 ^ (-49 : ℤ)))
      = Dbl.fin false (6113988855790297 * 2 ^ (-67 : ℤ)) := by
    have h := Dbl.round_cert_near ((4891191084632237 * 2 ^ (-70 : ℤ)) * (5629499534213121 * 2 ^ (-49 : ℤ))) (-67) 6113988855790297
      (by norm_num) (by norm_num) (by norm_num) (by norm_num) (by norm_num) (by norm_num)
      (by norm_num)
    simp only [Nat.cast_ofNat, Nat.reduceAdd] at h
    rw [Dbl.mul_fin]
    simpa using h
  have hD : Dbl.sub (Dbl.fin false (5454932806896836 * 2 ^ (-60 : ℤ))) (Dbl.fin false (6113988855790297 * 2 ^ (-67 : ℤ)))
      = Dbl.fin false (5407167268960974 * 2 ^ (-60 : ℤ)) := by
    have h := Dbl.round_cert_near ((5454932806896836 * 2 ^ (-60 : ℤ)) - (6113988855790297 * 2 ^ (-67 : ℤ))) (-60) 5407167268960974
      (by norm_num) (by norm_num) (by norm_num) (by norm_num) (by norm_num) (by norm_num)
      (by norm_num)
    simp only [Nat.cast_ofNat, Nat.reduceAdd] at h
    rw [Dbl.sub_pos _ _ (by norm_num)]
    simpa using h
  have hR : Dbl.div (Dbl.fin false (8201883583773109 * 2 ^ (-61 : ℤ))) (Dbl.fin false (5407167268960974 * 2 ^ (-60 : ℤ)))
      = Dbl.fin false (6831303345034981 * 2 ^ (-53 : ℤ)) := by
    have h := Dbl.round_cert_near ((8201883583773109 * 2 ^ (-61 : ℤ)) / (5407167268960974 * 2 ^ (-60 : ℤ))) (-53) 6831303345034981
      (by norm_num) (by norm_num) (by norm_num) (by norm_num) (by norm_num) (by norm_num)
      (by norm_num)
    simp only [Nat.cast_ofNat, Nat.reduceAdd] at h
    rw [Dbl.div_fin _ _ _ _ (by norm_num)]
    simpa using h
  unfold Ksat_raw_Factor64 Ksat_denom64
  rw [if_pos rfl, Dbl.lit_c0, Dbl.lit_c1, Dbl.lit_c2, Dbl.lit_c3, Dbl.lit_cN,
    p1, hA, p2, p3, hS, p4, p5, p6, hD, hR]

/-- Step-by-step evaluation of the raw `Factor` at `Temp = 26`. -/
theorem Ksat_raw_Factor64_twentysix :
    Ksat_raw_Factor64 true (Dbl.fin false (7318349394477056 * 2 ^ (-48 : ℤ)))
      = Dbl.fin false (5145325556568180 * 2 ^ (-52 : ℤ)) := by
  have p1 : Dbl.mul (Dbl.fin false (8419093995241039 * 2 ^ (-65 : ℤ))) (Dbl.fin false (7318349394477056 * 2 ^ (-48 : ℤ)))
      = Dbl.fin false (6840513871133344 * 2 ^ (-60 : ℤ)) := by
    have h := Dbl.round_cert_near ((8419093995241039 * 2 ^ (-65 : ℤ)) * (7318349394477056 * 2 ^ (-48 : ℤ))) (-60) 6840513871133344
      (by norm_num) (by norm_num) (by norm_num) (by norm_num) (by norm_num) (by norm_num)
      (by norm_num)
    simp only [Nat.cast_ofNat, Nat.reduceAdd] at h
    rw [Dbl.mul_fin]
    simpa using h
  have hA : Dbl.sub (Dbl.fin false (7533189111101138 * 2 ^ (-60 : ℤ))) (Dbl.fin false (6840513871133344 * 2 ^ (-60 : ℤ)))
      = Dbl.fin false (5541401919742352 * 2 ^ (-63 : ℤ)) := by
    have h := Dbl.round_cert_near ((7533189111101138 * 2 ^ (-60 : ℤ)) - (6840513871133344 * 2 ^ (-60 : ℤ))) (-63) 5541401919742352
      (by norm_num) (by norm_num) (by norm_num) (by norm_num) (by norm_num) (by norm_num)
      (by norm_num)
    simp only [Nat.cast_ofNat, Nat.reduceAdd] at h
    rw [Dbl.sub_pos _ _ (by norm_num)]
    simpa using h
  have p2 : Dbl.mul (Dbl.fin false (5659756229719270 * 2 ^ (-70 : ℤ))) (Dbl.fin false (7318349394477056 * 2 ^ (-48 : ℤ)))
      = Dbl.fin false (4598551936646907 * 2 ^ (-65 : ℤ)) := by
    have h := Dbl.round_cert_near ((5659756229719270 * 2 ^ (-70 : ℤ)) * (7318349394477056 * 2 ^ (-48 : ℤ))) (-65) 4598551936646907
      (by norm_num) (by norm_num) (by norm_num) (by norm_num) (by norm_num) (by norm_num)
      (by norm_num)
    simp only [Nat.cast_ofNat, Nat.reduceAdd] at h
    rw [Dbl.mul_fin]
    simpa using h
  have p3 : Dbl.mul (Dbl.fin false (4598551936646907 * 2 ^ (-65 : ℤ))) (Dbl.fin false (7318349394477056 * 2 ^ (-48 : ℤ)))
      = Dbl.fin false (7472646897051224 * 2 ^ (-61 : ℤ)) := by
    have h := Dbl.round_cert_near ((4598551936646907 * 2 ^ (-65 : ℤ)) * (7318349394477056 * 2 ^ (-48 : ℤ))) (-61) 7472646897051224
      (by norm_num) (by norm_num) (by norm_num) (by norm_num) (by norm_num) (by norm_num)
      (by norm_num)
    simp only [Nat.cast_ofNat, Nat.reduceAdd] at h
    rw [Dbl.mul_fin]
    simpa using h
  have hS : Dbl.add (Dbl.fin false (5541401919742352 * 2 ^ (-63 : ℤ))) (Dbl.fin false (7472646897051224 * 2 ^ (-61 : ℤ)))
      = Dbl.fin false (8857997376986812 * 2 ^ (-61 : ℤ)) := by
    have h := Dbl.round_cert_near ((5541401919742352 * 2 ^ (-63 : ℤ)) + (7472646897051224 * 2 ^ (-61 : ℤ))) (-61) 8857997376986812
      (by norm_num) (by norm_num) (by norm_num) (by norm_num) (by norm_num) (by norm_num)
      (by norm_num)
    simp only [Nat.cast_ofNat, Nat.reduceAdd] at h
    rw [Dbl.add_pos _ _ (by norm_num)]
    simpa using h
  have p4 : Dbl.mul (Dbl.fin false (6260724588329261 * 2 ^ (-77 : ℤ))) (Dbl.fin false (7318349394477056 * 2 ^ (-48 : ℤ)))
      = Dbl.fin false (5086838728017525 * 2 ^ (-72 : ℤ)) := by
    have h := Dbl.round_cert_near ((6260724588329261 * 2 ^ (-77 : ℤ)) * (7318349394477056 * 2 ^ (-48 : ℤ))) (-72) 5086838728017525
      (by norm_num) (by norm_num) (by norm_num) (by norm_num) (by norm_num) (by norm_num)
      (by norm_num)
    simp only [Nat.cast_ofNat, Nat.reduceAdd] at h
    rw [Dbl.mul_fin]
    simpa using h
  have p5 : Dbl.mul (Dbl.fin false (5086838728017525 * 2 ^ (-72 : ℤ))) (Dbl.fin false (7318349394477056 * 2 ^ (-48 : ℤ)))
      = Dbl.fin false (8266112933028478 * 2 ^ (-68 : ℤ)) := by
    have h := Dbl.round_cert_near ((5086838728017525 * 2 ^ (-72 : ℤ)) * (7318349394477056 * 2 ^ (-48 : ℤ))) (-68) 8266112933028478
      (by norm_num) (by norm_num) (by norm_num) (by norm_num) (by norm_num) (by norm_num)
      (by norm_num)
    simp only [Nat.cast_ofNat, Nat.reduceAdd] at h
    rw [Dbl.mul_fin]
    simpa using h
  have p6 : Dbl.mul (Dbl.fin false (8266112933028478 * 2 ^ (-68 : ℤ))) (Dbl.fin false (7318349394477056 * 2 ^ (-48 : ℤ)))
      = Dbl.fin false (6716216758085638 * 2 ^ (-63 : ℤ)) := by
    have h := Dbl.round_cert_near ((8266112933028478 * 2 ^ (-68 : ℤ)) * (7318349394477056 * 2 ^ (-48 : ℤ))) (-63) 6716216758085638
      (by norm_num) (by norm_num) (by norm_num) (by norm_num) (by norm_num) (by norm_num)
      (by norm_num)
    simp only [Nat.cast_ofNat, Nat.reduceAdd] at h
    rw [Dbl.mul_fin]
    simpa using h
  have hD : Dbl.sub (Dbl.fin false (8857997376986812 * 2 ^ (-61 : ℤ))) (Dbl.fin false (6716216758085638 * 2 ^ (-63 : ℤ)))
      = Dbl.fin false (7178943187465402 * 2 ^ (-61 : ℤ)) := by
    have h := Dbl.round_cert_tie_down ((8857997376986812 * 2 ^ (-61 : ℤ)) - (6716216758085638 * 2 ^ (-63 : ℤ))) (-61) 7178943187465402
      (by norm_num) (by norm_num) (by norm_num) (by norm_num) (by norm_num) (by norm_num)
      (by norm_num)
    simp only [Nat.cast_ofNat, Nat.reduceAdd] at h
    rw [Dbl.sub_pos _ _ (by norm_num)]
    simpa using h
  have hR : Dbl.div (Dbl.fin false (8201883583773109 * 2 ^ (-61 : ℤ))) (Dbl.fin false (7178943187465402 * 2 ^ (-61 : ℤ)))
      = Dbl.fin false (5145325556568180 * 2 ^ (-52 : ℤ)) := by
    have h := Dbl.round_cert_near ((8201883583773109 * 2 ^ (-61 : ℤ)) / (7178943187465402 * 2 ^ (-61 : ℤ))) (-52) 5145325556568180
      (by norm_num) (by norm_num) (by norm_num) (by norm_num) (by norm_num) (by norm_num)
      (by norm_num)
    simp only [Nat.cast_ofNat, Nat.reduceAdd] at h
    rw [Dbl.div_fin _ _ _ _ (by norm_num)]
    simpa using h
  unfold Ksat_raw_Factor64 Ksat_denom64
  rw [if_pos rfl, Dbl.lit_c0, Dbl.lit_c1, Dbl.lit_c2, Dbl.lit_c3, Dbl.lit_cN,
    p1, hA, p2, p3, hS, p4, p5, p6, hD, hR]

/-- Step-by-step evaluation of the raw `Factor` at the double next above `26`,
    `Temp = 26 + 2^-48`. -/
theorem Ksat_raw_Factor64_twentysix_next :
    Ksat_raw_Factor64 true (Dbl.fin false (7318349394477057 * 2 ^ (-48 : ℤ)))
      = Dbl.fin false (5145325556568179 * 2 ^ (-52 : ℤ)) := by
  have p1 : Dbl.mul (Dbl.fin false (8419093995241039 * 2 ^ (-65 : ℤ))) (Dbl.fin false (7318349394477057 * 2 ^ (-48 : ℤ)))
      = Dbl.fin false (6840513871133345 * 2 ^ (-60 : ℤ)) := by
    have h := Dbl.round_cert_near ((8419093995241039 * 2 ^ (-65 : ℤ)) * (7318349394477057 * 2 ^ (-48 : ℤ))) (-60) 6840513871133345
      (by norm_num) (by norm_num) (by norm_num) (by norm_num) (by norm_num) (by norm_num)
      (by norm_num)
    simp only [Nat.cast_ofNat, Nat.reduceAdd] at h
    rw [Dbl.mul_fin]
    simpa using h
  have hA : Dbl.sub (Dbl.fin false (7533189111101138 * 2 ^ (-60 : ℤ))) (Dbl.fin false (6840513871133345 * 2 ^ (-60 : ℤ)))
      = Dbl.fin false (5541401919742344 * 2 ^ (-63 : ℤ)) := by
    have h := Dbl.round_cert_near ((7533189111101138 * 2 ^ (-60 : ℤ)) - (6840513871133345 * 2 ^ (-60 : ℤ))) (-63) 5541401919742344
      (by norm_num) (by norm_num) (by norm_num) (by norm_num) (by norm_num) (by norm_num)
      (by norm_num)
    simp only [Nat.cast_ofNat, Nat.reduceAdd] at h
    rw [Dbl.sub_pos _ _ (by norm_num)]
    simpa using h
  have p2 : Dbl.mul (Dbl.fin false (5659756229719270 * 2 ^ (-70 : ℤ))) (Dbl.fin false (7318349394477057 * 2 ^ (-48 : ℤ)))
      = Dbl.fin false (4598551936646908 * 2 ^ (-65 : ℤ)) := by
    have h := Dbl.round_cert_near ((5659756229719270 * 2 ^ (-70 : ℤ)) * (7318349394477057 * 2 ^ (-48 : ℤ))) (-65) 4598551936646908
      (by norm_num) (by norm_num) (by norm_num) (by norm_num) (by norm_num) (by norm_num)
      (by norm_num)
    simp only [Nat.cast_ofNat, Nat.reduceAdd] at h
    rw [Dbl.mul_fin]
    simpa using h
  have p3 : Dbl.mul (Dbl.fin false (4598551936646908 * 2 ^ (-65 : ℤ))) (Dbl.fin false (7318349394477057 * 2 ^ (-48 : ℤ)))
      = Dbl.fin false (7472646897051227 * 2 ^ (-61 : ℤ)) := by
    have h := Dbl.round_cert_near ((4598551936646908 * 2 ^ (-65 : ℤ)) * (7318349394477057 * 2 ^ (-48 : ℤ))) (-61) 7472646897051227
      (by norm_num) (by norm_num) (by norm_num) (by norm_num) (by norm_num) (by norm_num)
      (by norm_num)
    simp only [Nat.cast_ofNat, Nat.reduceAdd] at h
    rw [Dbl.mul_fin]
    simpa using h
  have hS : Dbl.add (Dbl.fin false (5541401919742344 * 2 ^ (-63 : ℤ))) (Dbl.fin false (7472646897051227 * 2 ^ (-61 : ℤ)))
      = Dbl.fin false (8857997376986813 * 2 ^ (-61 : ℤ)) := by
    have h := Dbl.round_cert_near ((5541401919742344 * 2 ^ (-63 : ℤ)) + (7472646897051227 * 2 ^ (-61 : ℤ))) (-61) 8857997376986813
      (by norm_num) (by norm_num) (by norm_num) (by norm_num) (by norm_num) (by norm_num)
      (by norm_num)
    simp only [Nat.cast_ofNat, Nat.reduceAdd] at h
    rw [Dbl.add_pos _ _ (by norm_num)]
    simpa using h
  have p4 : Dbl.mul (Dbl.fin false (6260724588329261 * 2 ^ (-77 : ℤ))) (Dbl.fin false (7318349394477057 * 2 ^ (-48 : ℤ)))
      = Dbl.fin false (5086838728017525 * 2 ^ (-72 : ℤ)) := by
    have h := Dbl.round_cert_near ((6260724588329261 * 2 ^ (-77 : ℤ)) * (7318349394477057 * 2 ^ (-48 : ℤ))) (-72) 5086838728017525
      (by norm_num) (by norm_num) (by norm_num) (by norm_num) (by norm_num) (by norm_num)
      (by norm_num)
    simp only [Nat.cast_ofNat, Nat.reduceAdd] at h
    rw [Dbl.mul_fin]
    simpa using h
  have p5 : Dbl.mul (Dbl.fin false (5086838728017525 * 2 ^ (-72 : ℤ))) (Dbl.fin false (7318349394477057 * 2 ^ (-48 : ℤ)))
      = Dbl.fin false (8266112933028479 * 2 ^ (-68 : ℤ)) := by
    have h := Dbl.round_cert_near ((5086838728017525 * 2 ^ (-72 : ℤ)) * (7318349394477057 * 2 ^ (-48 : ℤ))) (-68) 8266112933028479
      (by norm_num) (by norm_num) (by norm_num) (by norm_num) (by norm_num) (by norm_num)
      (by norm_num)
    simp only [Nat.cast_ofNat, Nat.reduceAdd] at h
    rw [Dbl.mul_fin]
    simpa using h
  have p6 : Dbl.mul (Dbl.fin false (8266112933028479 * 2 ^ (-68 : ℤ))) (Dbl.fin false (7318349394477057 * 2 ^ (-48 : ℤ)))
      = Dbl.fin false (6716216758085640 * 2 ^ (-63 : ℤ)) := by
    have h := Dbl.round_cert_near ((8266112933028479 * 2 ^ (-68 : ℤ)) * (7318349394477057 * 2 ^ (-48 : ℤ))) (-63) 6716216758085640
      (by norm_num) (by norm_num) (by norm_num) (by norm_num) (by norm_num) (by norm_num)
      (by norm_num)
    simp only [Nat.cast_ofNat, Nat.reduceAdd] at h
    rw [Dbl.mul_fin]
    simpa using h
  have hD : Dbl.sub (Dbl.fin false (8857997376986813 * 2 ^ (-61 : ℤ))) (Dbl.fin false (6716216758085640 * 2 ^ (-63 : ℤ)))
      = Dbl.fin false (7178943187465403 * 2 ^ (-61 : ℤ)) := by
    have h := Dbl.round_cert_near ((8857997376986813 * 2 ^ (-61 : ℤ)) - (6716216758085640 * 2 ^ (-63 : ℤ))) (-61) 7178943187465403
      (by norm_num) (by norm_num) (by norm_num) (by norm_num) (by norm_num) (by norm_num)
      (by norm_num)
    simp only [Nat.cast_ofNat, Nat.reduceAdd] at h
    rw [Dbl.sub_pos _ _ (by norm_num)]
    simpa using h
  have hR : Dbl.div (Dbl.fin false (8201883583773109 * 2 ^ (-61 : ℤ))) (Dbl.fin false (7178943187465403 * 2 ^ (-61 : ℤ)))
      = Dbl.fin false (5145325556568179 * 2 ^ (-52 : ℤ)) := by
    have h := Dbl.round_cert_near ((8201883583773109 * 2 ^ (-61 : ℤ)) / (7178943187465403 * 2 ^ (-61 : ℤ))) (-52) 5145325556568179
      (by norm_num) (by norm_num) (by norm_num) (by norm_num) (by norm_num) (by norm_num)
      (by norm_num)
    simp only [Nat.cast_ofNat, Nat.reduceAdd] at h
    rw [Dbl.div_fin _ _ _ _ (by norm_num)]
    simpa using h
  unfold Ksat_raw_Factor64 Ksat_denom64
  rw [if_pos rfl, Dbl.lit_c0, Dbl.lit_c1, Dbl.lit_c2, Dbl.lit_c3, Dbl.lit_cN,
    p1, hA, p2, p3, hS, p4, p5, p6, hD, hR]

theorem roundEven_err (y : ℚ) (hy : 0 ≤ y) : |(roundEven y : ℚ) - y| ≤ 1 / 2 := by
  have hf1 : (⌊y⌋₊ : ℚ) ≤ y := Nat.floor_le hy
  have hf2 : y < (⌊y⌋₊ : ℚ) + 1 := Nat.lt_floor_add_one y
  unfold roundEven
  split_ifs with h1 h2 h3
  · rw [abs_le]
    constructor <;> linarith
  · rw [abs_le]
    push_cast
    constructor <;> linarith
  · rw [abs_le]
    push_neg at h1 h2
    constructor <;> linarith
  · rw [abs_le]
    push_neg at h1 h2
    push_cast
    constructor <;> linarith

theorem roundMag_nonneg (a : ℚ) : 0 ≤ roundMag a := by
  unfold roundMag
  positivity

/-- Rounding error of round-to-nearest: a relative error of `2^-53` in the
    normal range, an absolute error of `2^-1075` in the subnormal range. -/
theorem roundMag_err (a : ℚ) (ha : 0 ≤ a) :
    |roundMag a - a| ≤ a / 2 ^ 53 + 1 / 2 ^ 1075 := by
  rcases eq_or_lt_of_le ha with h0 | hpos
  · rw [← h0, roundMag_zero]
    norm_num
  have hp : (0 : ℚ) < 2 ^ ulpExp a := by positivity
  have hy : 0 ≤ a / 2 ^ ulpExp a := div_nonneg ha (le_of_lt hp)
  have he := roundEven_err (a / 2 ^ ulpExp a) hy
  have hrew : roundMag a - a = ((roundEven (a / 2 ^ ulpExp a) : ℚ) - a / 2 ^ ulpExp a)
      * 2 ^ ulpExp a := by
    unfold roundMag
    field_simp
  have hb : |roundMag a - a| ≤ 1 / 2 * 2 ^ ulpExp a := by
    rw [hrew, abs_mul, abs_of_pos hp]
    exact mul_le_mul_of_nonneg_right he (le_of_lt hp)
  have hulp : (2 : ℚ) ^ ulpExp a ≤ a / 2 ^ 52 + 1 / 2 ^ 1074 := by
    unfold ulpExp
    rcases le_total (Int.log 2 a - 52) (-1074) with hc | hc
    · rw [max_eq_right hc]
      have : (0 : ℚ) ≤ a / 2 ^ 52 := by positivity
      have h2 : (2 : ℚ) ^ (-1074 : ℤ) = 1 / 2 ^ 1074 := by
        rw [zpow_neg, one_div]
        norm_cast
      linarith
    · rw [max_eq_left hc]
      have hlog : (2 : ℚ) ^ Int.log 2 a ≤ a := by
        have := Int.zpow_log_le_self (b := 2) (by norm_num) hpos
        exact_mod_cast this
      have h2 : (2 : ℚ) ^ (Int.log 2 a - 52) = 2 ^ Int.log 2 a / 2 ^ 52 := by
        rw [zpow_sub₀ (by norm_num : (2 : ℚ) ≠ 0)]
        norm_cast
      rw [h2]
      have : (0 : ℚ) ≤ 1 / 2 ^ 1074 := by positivity
      have h3 : (2 : ℚ) ^ Int.log 2 a / 2 ^ 52 ≤ a / 2 ^ 52 :=
        div_le_div_of_nonneg_right hlog (by positivity)
      linarith
  calc |roundMag a - a| ≤ 1 / 2 * 2 ^ ulpExp a := hb
    _ ≤ 1 / 2 * (a / 2 ^ 52 + 1 / 2 ^ 1074) := mul_le_mul_of_nonneg_left hulp (by norm_num)
    _ = a / 2 ^ 53 + 1 / 2 ^ 1075 := by ring

/-- Rounding of a magnitude of at most `1/4`: no overflow, absolute error at
    most `2^-54`. -/
theorem Dbl.round_small (s : Bool) (a : ℚ) (ha : 0 ≤ a) (hb : a ≤ 1 / 4) :
    ∃ b : ℚ, Dbl.round s a = Dbl.fin s b ∧ 0 ≤ b ∧ |b - a| ≤ 1 / 2 ^ 54 := by
  have he := roundMag_err a ha
  have h1 : a / 2 ^ 53 + 1 / 2 ^ 1075 ≤ (1 : ℚ) / 2 ^ 54 := by
    have : a / 2 ^ 53 ≤ (1 / 4) / 2 ^ 53 := div_le_div_of_nonneg_right hb (by positivity)
    have h2 : (1 / 4 : ℚ) / 2 ^ 53 + 1 / 2 ^ 1075 ≤ 1 / 2 ^ 54 := by norm_num
    linarith
  have hlt : roundMag a < 2 ^ 1024 := by
    have h3 := (abs_le.mp (le_trans he h1)).2
    have h4 : (1 : ℚ) / 4 + 1 / 2 ^ 54 < 2 ^ 1024 := by norm_num
    linarith
  exact ⟨roundMag a, Dbl.round_eq s a _ rfl hlt, roundMag_nonneg a, le_trans he h1⟩

theorem abs_sval_sub (s : Bool) (a b : ℚ) : |sval s a - sval s b| = |a - b| := by
  cases s
  · simp [sval]
  · simp only [sval, if_true]
    rw [show -a - -b = -(a - b) by ring, abs_neg]

/-- Rounding of an exact result of magnitude at most `1/4`. -/
theorem Dbl.ofExact_small (z : Bool) (v : ℚ) (hv : |v| ≤ 1 / 4) :
    ∃ r : ℚ, (Dbl.ofExact z v).Val r ∧ |r - v| ≤ 1 / 2 ^ 54 := by
  by_cases h0 : v = 0
  · rw [h0, Dbl.ofExact_zero]
    exact ⟨0, ⟨z, 0, rfl, le_refl 0, sval_zero z⟩, by norm_num⟩
  · obtain ⟨b, hb, hb0, hbe⟩ := Dbl.round_small (decide (v < 0)) |v| (abs_nonneg v) hv
    unfold Dbl.ofExact
    rw [if_neg h0, hb]
    refine ⟨sval (decide (v < 0)) b, ⟨_, _, rfl, hb0, rfl⟩, ?_⟩
    have hv2 : sval (decide (v < 0)) b - v
        = sval (decide (v < 0)) b - sval (decide (v < 0)) |v| := by
      rw [sval_abs]
    rw [hv2, abs_sval_sub]
    exact hbe

theorem Dbl.add_small {x y : Dbl} {vx vy : ℚ} (hx : x.Val vx) (hy : y.Val vy)
    (h : |vx + vy| ≤ 1 / 4) :
    ∃ r : ℚ, (Dbl.add x y).Val r ∧ |r - (vx + vy)| ≤ 1 / 2 ^ 54 := by
  obtain ⟨s, a, rfl, -, hv⟩ := hx
  obtain ⟨t, b, rfl, -, hw⟩ := hy
  rw [Dbl.add_fin, hv, hw]
  exact Dbl.ofExact_small _ _ h

theorem Dbl.sub_small {x y : Dbl} {vx vy : ℚ} (hx : x.Val vx) (hy : y.Val vy)
    (h : |vx - vy| ≤ 1 / 4) :
    ∃ r : ℚ, (Dbl.sub x y).Val r ∧ |r - (vx - vy)| ≤ 1 / 2 ^ 54 := by
  obtain ⟨s, a, rfl, -, hv⟩ := hx
  obtain ⟨t, b, rfl, -, hw⟩ := hy
  rw [Dbl.sub_fin, hv, hw]
  exact Dbl.ofExact_small _ _ h

theorem Dbl.mul_small {x y : Dbl} {vx vy : ℚ} (hx : x.Val vx) (hy : y.Val vy)
    (h : |vx * vy| ≤ 1 / 4) :
    ∃ r : ℚ, (Dbl.mul x y).Val r ∧ |r - vx * vy| ≤ 1 / 2 ^ 54 := by
  obtain ⟨s, a, rfl, ha, hv⟩ := hx
  obtain ⟨t, b, rfl, hb, hw⟩ := hy
  have hab : |vx * vy| = a * b := by
    rw [← hv, ← hw, abs_mul, abs_sval s a ha, abs_sval t b hb]
  rw [hab] at h
  obtain ⟨c, hc, hc0, hce⟩ := Dbl.round_small (xor s t) (a * b) (mul_nonneg ha hb) h
  rw [Dbl.mul_fin, hc]
  refine ⟨sval (xor s t) c, ⟨_, _, rfl, hc0, rfl⟩, ?_⟩
  rw [← hv, ← hw, ← sval_xor, abs_sval_sub]
  exact hce

theorem abs_mul_le_of {a t A B : ℚ} (ha : |a| ≤ A) (ht : |t| ≤ B) : |a * t| ≤ A * B := by
  rw [abs_mul]
  exact mul_le_mul ha ht (abs_nonneg t) (le_trans (abs_nonneg a) ha)

theorem abs_le_of_near {r v e B : ℚ} (h : |r - v| ≤ e) (hv : |v| ≤ B) : |r| ≤ B + e := by
  have h1 := abs_le.mp h
  have h2 := abs_le.mp hv
  rw [abs_le]
  constructor <;> linarith

/-- The double nearest to each constant of the regression formula, with its
    distance from the decimal constant. -/
theorem Ksat_constants_val :
    ∃ c0 c1 c2 c3 cN : ℚ,
      (Dbl.lit 0.006534).Val c0 ∧ (Dbl.lit 0.0002282).Val c1 ∧ (Dbl.lit 4.794e-6).Val c2
        ∧ (Dbl.lit 4.143e-8).Val c3 ∧ (Dbl.lit 0.003557).Val cN
        ∧ |c0 - 0.006534| ≤ 1 / 2 ^ 61 ∧ |c1 - 0.0002282| ≤ 1 / 2 ^ 66
        ∧ |c2 - 4.794e-6| ≤ 1 / 2 ^ 71 ∧ |c3 - 4.143e-8| ≤ 1 / 2 ^ 78
        ∧ |cN - 0.003557| ≤ 1 / 2 ^ 62 := by
  refine ⟨7533189111101138 * 2 ^ (-60 : ℤ), 8419093995241039 * 2 ^ (-65 : ℤ),
    5659756229719270 * 2 ^ (-70 : ℤ), 6260724588329261 * 2 ^ (-77 : ℤ),
    8201883583773109 * 2 ^ (-61 : ℤ), ?_, ?_, ?_, ?_, ?_, ?_, ?_, ?_, ?_, ?_⟩
  · rw [Dbl.lit_c0]
    exact Dbl.val_pos _ (by positivity)
  · rw [Dbl.lit_c1]
    exact Dbl.val_pos _ (by positivity)
  · rw [Dbl.lit_c2]
    exact Dbl.val_pos _ (by positivity)
  · rw [Dbl.lit_c3]
    exact Dbl.val_pos _ (by positivity)
  · rw [Dbl.lit_cN]
    exact Dbl.val_pos _ (by positivity)
  · rw [abs_le]
    constructor <;> norm_num
  · rw [abs_le]
    constructor <;> norm_num
  · rw [abs_le]
    constructor <;> norm_num
  · rw [abs_le]
    constructor <;> norm_num
  · rw [abs_le]
    constructor <;> norm_num

/-- Rounding-error analysis of the cubic
    `C0 - C1 * T + C2 * T * T - C3 * T * T * T` evaluated in double precision
    with the association of the C expression, for coefficients and argument
    of the size met in `modify_Ksat`: the result is finite and within
    `10206 * 2^-54` of the exact value. -/
theorem Dbl.cubic_err {C0 C1 C2 C3 T : Dbl} {c0 c1 c2 c3 t : ℚ}
    (h0 : C0.Val c0) (h1 : C1.Val c1) (h2 : C2.Val c2) (h3 : C3.Val c3) (hT : T.Val t)
    (b0 : |c0| ≤ 7 / 1000) (b1 : |c1| ≤ 23 / 100000) (b2 : |c2| ≤ 48 / 10000000)
    (b3 : |c3| ≤ 42 / 1000000000) (ht : |t| ≤ 100) :
    ∃ d : ℚ,
      (Dbl.sub (Dbl.add (Dbl.sub C0 (Dbl.mul C1 T)) (Dbl.mul (Dbl.mul C2 T) T))
        (Dbl.mul (Dbl.mul (Dbl.mul C3 T) T) T)).Val d
        ∧ |d - (c0 - c1 * t + c2 * t * t - c3 * t * t * t)| ≤ 10206 / 2 ^ 54 := by
  have hδ : (1 : ℚ) / 2 ^ 54 ≤ 1 / 1000000 := by norm_num
  -- p1 = C1 * T
  have m1 := abs_mul_le_of b1 ht
  obtain ⟨p1, hp1, e1⟩ := Dbl.mul_small h1 hT (le_trans m1 (by norm_num))
  have n1 := abs_le_of_near e1 m1
  -- A = C0 - p1
  have mA : |c0 - p1| ≤ 4 / 100 := by
    have := abs_sub c0 p1
    linarith
  obtain ⟨A, hA, eA⟩ := Dbl.sub_small h0 hp1 (le_trans mA (by norm_num))
  have nA := abs_le_of_near eA mA
  -- p2 = C2 * T, p3 = p2 * T
  have m2 := abs_mul_le_of b2 ht
  obtain ⟨p2, hp2, e2⟩ := Dbl.mul_small h2 hT (le_trans m2 (by norm_num))
  have n2 := abs_le_of_near e2 m2
  have m3 := abs_mul_le_of n2 ht
  obtain ⟨p3, hp3, e3⟩ := Dbl.mul_small hp2 hT (le_trans m3 (by norm_num))
  have n3 := abs_le_of_near e3 m3
  -- S = A + p3
  have mS : |A + p3| ≤ 10 / 100 := by
    have := abs_add A p3
    linarith
  obtain ⟨S, hS, eS⟩ := Dbl.add_small hA hp3 (le_trans mS (by norm_num))
  have nS := abs_le_of_near eS mS
  -- p4 = C3 * T, p5 = p4 * T, p6 = p5 * T
  have m4 := abs_mul_le_of b3 ht
  obtain ⟨p4, hp4, e4⟩ := Dbl.mul_small h3 hT (le_trans m4 (by norm_num))
  have n4 := abs_le_of_near e4 m4
  have m5 := abs_mul_le_of n4 ht
  obtain ⟨p5, hp5, e5⟩ := Dbl.mul_small hp4 hT (le_trans m5 (by norm_num))
  have n5 := abs_le_of_near e5 m5
  have m6 := abs_mul_le_of n5 ht
  obtain ⟨p6, hp6, e6⟩ := Dbl.mul_small hp5 hT (le_trans m6 (by norm_num))
  have n6 := abs_le_of_near e6 m6
  -- D = S - p6
  have mD : |S - p6| ≤ 15 / 100 := by
    have := abs_sub S p6
    linarith
  obtain ⟨d, hd, eD⟩ := Dbl.sub_small hS hp6 (le_trans mD (by norm_num))
  refine ⟨d, hd, ?_⟩
  -- propagated errors
  have w2 : |(p2 - c2 * t) * t| ≤ 1 / 2 ^ 54 * 100 := abs_mul_le_of e2 ht
  have w4 : |(p4 - c3 * t) * t| ≤ 1 / 2 ^ 54 * 100 := abs_mul_le_of e4 ht
  have w4b : |(p4 - c3 * t) * t * t| ≤ 1 / 2 ^ 54 * 100 * 100 := abs_mul_le_of w4 ht
  have w5 : |(p5 - p4 * t) * t| ≤ 1 / 2 ^ 54 * 100 := abs_mul_le_of e5 ht
  have hsum : d - (c0 - c1 * t + c2 * t * t - c3 * t * t * t)
      = (d - (S - p6)) + (S - (A + p3)) + (A - (c0 - p1)) - (p1 - c1 * t)
        + (p3 - p2 * t) + (p2 - c2 * t) * t
        - (p6 - p5 * t) - (p5 - p4 * t) * t - (p4 - c3 * t) * t * t := by
    ring
  rw [hsum]
  have a1 := abs_le.mp e1
  have a2 := abs_le.mp eA
  have a3 := abs_le.mp e3
  have a4 := abs_le.mp eS
  have a5 := abs_le.mp e6
  have a6 := abs_le.mp eD
  have a7 := abs_le.mp w2
  have a8 := abs_le.mp w4b
  have a9 := abs_le.mp w5
  rw [abs_le]
  constructor <;> linarith

/-- Over the rationals the denominator polynomial decreases with slope at
    least `4e-5`. -/
theorem Ksat_denom_slope (a b : ℚ) (h : a ≤ b) :
    Ksat_denom b + 4e-5 * (b - a) ≤ Ksat_denom a := by
  have hq : 4e-5 ≤ 0.0002282 - 4.794e-6 * (a + b) + 4.143e-8 * (a * a + a * b + b * b) := by
    nlinarith [sq_nonneg (a + b - 319600 / 4143), sq_nonneg (a - b)]
  have hmul := mul_le_mul_of_nonneg_left hq (sub_nonneg.mpr h)
  unfold Ksat_denom
  nlinarith

theorem Ksat_denom_range (t : ℚ) (hlo : -100 ≤ t) (hhi : t ≤ 60) :
    115152 / 100000000 ≤ Ksat_denom t ∧ Ksat_denom t ≤ 118724 / 1000000 := by
  have h60 : Ksat_denom (60 : ℚ) = 115152 / 100000000 := by
    unfold Ksat_denom
    norm_num
  have h100 : Ksat_denom (-100 : ℚ) = 118724 / 1000000 := by
    unfold Ksat_denom
    norm_num
  have s1 := Ksat_denom_slope t 60 hhi
  have s2 := Ksat_denom_slope (-100) t hlo
  rw [h60] at s1
  rw [h100] at s2
  have e1 : (0 : ℚ) ≤ 4e-5 * (60 - t) := mul_nonneg (by norm_num) (sub_nonneg.mpr hhi)
  have e2 : (0 : ℚ) ≤ 4e-5 * (t - -100) := mul_nonneg (by norm_num) (sub_nonneg.mpr hlo)
  constructor <;> linarith

/-- Rounding-error analysis of the denominator of `modify_Ksat`: for a double
    `Temp` of magnitude at most `100` the double-precision denominator is
    finite and within `2^-40` of the exact value of the polynomial. -/
theorem Ksat_denom64_err {T : Dbl} {t : ℚ} (hT : T.Val t) (ht : |t| ≤ 100) :
    ∃ d : ℚ, (Ksat_denom64 T).Val d ∧ |d - Ksat_denom t| ≤ 1 / 2 ^ 40 := by
  obtain ⟨c0, c1, c2, c3, cN, h0, h1, h2, h3, -, k0, k1, k2, k3, -⟩ := Ksat_constants_val
  have b0 : |c0| ≤ 7 / 1000 :=
    le_trans (abs_le_of_near k0 (show |(0.006534 : ℚ)| ≤ 6534 / 1000000 by
      rw [abs_of_pos (by norm_num)]; norm_num)) (by norm_num)
  have b1 : |c1| ≤ 23 / 100000 :=
    le_trans (abs_le_of_near k1 (show |(0.0002282 : ℚ)| ≤ 2282 / 10000000 by
      rw [abs_of_pos (by norm_num)]; norm_num)) (by norm_num)
  have b2 : |c2| ≤ 48 / 10000000 :=
    le_trans (abs_le_of_near k2 (show |(4.794e-6 : ℚ)| ≤ 4794 / 1000000000 by
      rw [abs_of_pos (by norm_num)]; norm_num)) (by norm_num)
  have b3 : |c3| ≤ 42 / 1000000000 :=
    le_trans (abs_le_of_near k3 (show |(4.143e-8 : ℚ)| ≤ 4143 / 100000000000 by
      rw [abs_of_pos (by norm_num)]; norm_num)) (by norm_num)
  obtain ⟨d, hd, he⟩ := Dbl.cubic_err h0 h1 h2 h3 hT b0 b1 b2 b3 ht
  refine ⟨d, hd, ?_⟩
  have w1 : |(c1 - 0.0002282) * t| ≤ 1 / 2 ^ 66 * 100 := abs_mul_le_of k1 ht
  have w2 : |(c2 - 4.794e-6) * t| ≤ 1 / 2 ^ 71 * 100 := abs_mul_le_of k2 ht
  have w2b : |(c2 - 4.794e-6) * t * t| ≤ 1 / 2 ^ 71 * 100 * 100 := abs_mul_le_of w2 ht
  have w3 : |(c3 - 4.143e-8) * t| ≤ 1 / 2 ^ 78 * 100 := abs_mul_le_of k3 ht
  have w3b : |(c3 - 4.143e-8) * t * t| ≤ 1 / 2 ^ 78 * 100 * 100 := abs_mul_le_of w3 ht
  have w3c : |(c3 - 4.143e-8) * t * t * t| ≤ 1 / 2 ^ 78 * 100 * 100 * 100 :=
    abs_mul_le_of w3b ht
  have hsum : d - Ksat_denom t
      = (d - (c0 - c1 * t + c2 * t * t - c3 * t * t * t)) + (c0 - 0.006534)
        - (c1 - 0.0002282) * t + (c2 - 4.794e-6) * t * t
        - (c3 - 4.143e-8) * t * t * t := by
    unfold Ksat_denom
    ring
  rw [hsum]
  have a0 := abs_le.mp he
  have a1 := abs_le.mp k0
  have a2 := abs_le.mp w1
  have a3 := abs_le.mp w2b
  have a4 := abs_le.mp w3c
  have hn : (10206 : ℚ) / 2 ^ 54 + 1 / 2 ^ 61 + 1 / 2 ^ 66 * 100 + 1 / 2 ^ 71 * 100 * 100
      + 1 / 2 ^ 78 * 100 * 100 * 100 ≤ 1 / 2 ^ 40 := by norm_num
  rw [abs_le]
  constructor <;> linarith

/-- Rounding of a magnitude in the normal range: no overflow, a positive
    result, relative error at most `2^-52`. -/
theorem Dbl.round_normal_err (s : Bool) (a : ℚ) (h1 : 1 / 2 ^ 1000 ≤ a) (h2 : a ≤ 2 ^ 1000) :
    ∃ b : ℚ, Dbl.round s a = Dbl.fin s b ∧ 0 < b ∧ |b - a| ≤ a / 2 ^ 52 := by
  have hpos : 0 < a := lt_of_lt_of_le (by positivity) h1
  have he := roundMag_err a (le_of_lt hpos)
  have htiny : (1 : ℚ) / 2 ^ 1075 ≤ a / 2 ^ 53 := by
    have h3 : (1 / 2 ^ 1000 : ℚ) / 2 ^ 53 ≤ a / 2 ^ 53 :=
      div_le_div_of_nonneg_right h1 (by positivity)
    have h4 : (1 : ℚ) / 2 ^ 1075 ≤ (1 / 2 ^ 1000) / 2 ^ 53 := by norm_num
    linarith
  have hb : |roundMag a - a| ≤ a / 2 ^ 52 := by
    have h5 : a / 2 ^ 53 + a / 2 ^ 53 = a / 2 ^ 52 := by ring
    linarith
  have hab := abs_le.mp hb
  have hsmall : a / 2 ^ 52 ≤ a / 2 := by
    apply div_le_div_of_nonneg_left (le_of_lt hpos) (by norm_num) (by norm_num)
  have hlt : roundMag a < 2 ^ 1024 := by
    have h6 : (2 : ℚ) ^ 1000 + 2 ^ 1000 / 2 < 2 ^ 1024 := by norm_num
    have h7 : a / 2 ≤ 2 ^ 1000 / 2 := div_le_div_of_nonneg_right h2 (by norm_num)
    linarith
  refine ⟨roundMag a, Dbl.round_eq s a _ rfl hlt, ?_, hb⟩
  have h8 : a / 2 < a := by linarith
  linarith

/-- Division of two positive doubles whose quotient is in the normal range. -/
theorem Dbl.div_pos_err {x y : Dbl} {vx vy : ℚ} (hx : x.Val vx) (hy : y.Val vy)
    (hxp : 0 < vx) (hyp : 0 < vy) (h1 : 1 / 2 ^ 1000 ≤ vx / vy) (h2 : vx / vy ≤ 2 ^ 1000) :
    ∃ r : ℚ, (Dbl.div x y).Val r ∧ 0 < r ∧ |r - vx / vy| ≤ vx / vy / 2 ^ 52 := by
  rw [Dbl.val_pos_sign hx hxp, Dbl.val_pos_sign hy hyp, Dbl.div_fin _ _ _ _ (ne_of_gt hyp)]
  obtain ⟨b, hb, hb0, hbe⟩ := Dbl.round_normal_err (xor false false) (vx / vy) h1 h2
  rw [hb]
  exact ⟨b, Dbl.val_pos b (le_of_lt hb0), hb0, hbe⟩

/-- Double-precision evaluation of the raw `Factor` for `-100 ≤ Temp ≤ 60`:
    the denominator `d` is a finite double within `2^-40` of the polynomial,
    hence at least `0.00115`, and the raw `Factor` `f` is a finite positive
    double within relative distance `2^-52` of `c / d`, `c` being the double
    nearest to `0.003557`. -/
theorem Ksat_raw_Factor64_err {T : Dbl} {t : ℚ} (hT : T.Val t) (hlo : -100 ≤ t)
    (hhi : t ≤ 60) :
    ∃ c d f : ℚ, (Dbl.lit 0.003557).Val c ∧ |c - 0.003557| ≤ 1 / 2 ^ 62
      ∧ (Ksat_denom64 T).Val d ∧ |d - Ksat_denom t| ≤ 1 / 2 ^ 40
      ∧ 115 / 100000 ≤ d ∧ d ≤ 12 / 100
      ∧ (Ksat_raw_Factor64 true T).Val f ∧ 0 < f ∧ |f - c / d| ≤ c / d / 2 ^ 52 := by
  have ht : |t| ≤ 100 := by
    rw [abs_le]
    constructor <;> linarith
  obtain ⟨-, -, -, -, c, -, -, -, -, hc, -, -, -, -, kc⟩ := Ksat_constants_val
  obtain ⟨d, hd, he⟩ := Ksat_denom64_err hT ht
  obtain ⟨r1, r2⟩ := Ksat_denom_range t hlo hhi
  have a1 := abs_le.mp he
  have a2 := abs_le.mp kc
  have hd1 : 115 / 100000 ≤ d := by
    have : (115152 : ℚ) / 100000000 - 1 / 2 ^ 40 ≥ 115 / 100000 := by norm_num
    linarith
  have hd2 : d ≤ 12 / 100 := by
    have : (118724 : ℚ) / 1000000 + 1 / 2 ^ 40 ≤ 12 / 100 := by norm_num
    linarith
  have hdpos : 0 < d := lt_of_lt_of_le (by norm_num) hd1
  have hc1 : 35 / 10000 ≤ c := by
    have : (0.003557 : ℚ) - 1 / 2 ^ 62 ≥ 35 / 10000 := by norm_num
    linarith
  have hc2 : c ≤ 36 / 10000 := by
    have : (0.003557 : ℚ) + 1 / 2 ^ 62 ≤ 36 / 10000 := by norm_num
    linarith
  have hcpos : 0 < c := lt_of_lt_of_le (by norm_num) hc1
  have hq1 : 1 / 2 ^ 1000 ≤ c / d := by
    rw [le_div_iff₀ hdpos]
    have : (1 : ℚ) / 2 ^ 1000 * d ≤ 1 / 2 ^ 1000 * (12 / 100) :=
      mul_le_mul_of_nonneg_left hd2 (by positivity)
    have h3 : (1 : ℚ) / 2 ^ 1000 * (12 / 100) ≤ 35 / 10000 := by norm_num
    linarith
  have hq2 : c / d ≤ 2 ^ 1000 := by
    rw [div_le_iff₀ hdpos]
    have : (2 : ℚ) ^ 1000 * (115 / 100000) ≤ 2 ^ 1000 * d :=
      mul_le_mul_of_nonneg_left hd1 (by positivity)
    have h3 : (36 : ℚ) / 10000 ≤ 2 ^ 1000 * (115 / 100000) := by norm_num
    linarith
  obtain ⟨f, hf, hf0, hfe⟩ := Dbl.div_pos_err hc hd hcpos hdpos hq1 hq2
  refine ⟨c, d, f, hc, kc, hd, he, hd1, hd2, ?_, hf0, hfe⟩
  unfold Ksat_raw_Factor64
  rw [if_pos rfl]
  exact hf

theorem Dbl.gt_of_val {x y : Dbl} {v w : ℚ} (hx : x.Val v) (hy : y.Val w) :
    Dbl.gt x y = decide (w < v) := by
  obtain ⟨s, a, rfl, -, hv⟩ := hx
  obtain ⟨t, b, rfl, -, hw⟩ := hy
  simp only [Dbl.gt, hv, hw]

/-- The clamp of `modify_Ksat` on a finite raw `Factor`. -/
theorem modify_Ksat_Factor64_val {T : Dbl} {f : ℚ} (h : (Ksat_raw_Factor64 true T).Val f) :
    (modify_Ksat_Factor64 true T).Val (min f 2) := by
  have h2 : (Dbl.fin false 2).Val 2 := Dbl.val_pos 2 (by norm_num)
  unfold modify_Ksat_Factor64
  rw [Dbl.lit_two, Dbl.gt_of_val h h2]
  by_cases hf : 2 < f
  · rw [decide_eq_true hf, if_pos rfl, min_eq_right (le_of_lt hf)]
    exact h2
  · rw [decide_eq_false hf, if_neg (by simp), min_eq_left (not_lt.mp hf)]
    exact h

theorem Ksat_clamp_eq_min (q : ℚ) : Ksat_clamp q = min q 2 := by
  unfold Ksat_clamp
  split_ifs with h
  · exact (min_eq_right (le_of_lt h)).symm
  · exact (min_eq_left (not_lt.mp h)).symm

/-- On `-100 ≤ Temp ≤ 60` the `Factor` computed in double precision is within
    `1e-8` of the `Factor` given by the regression formula in exact
    arithmetic. -/
theorem modify_Ksat_Factor64_accurate {T : Dbl} {t : ℚ} (hT : T.Val t) (hlo : -100 ≤ t)
    (hhi : t ≤ 60) :
    ∃ g fx : ℚ, (modify_Ksat_Factor64 true T).Val g ∧ modify_Ksat_Factor true t = some fx
      ∧ |g - fx| ≤ 1 / 10 ^ 8 := by
  obtain ⟨c, d, f, -, kc, -, kd, l1, u1, hf, -, kf⟩ := Ksat_raw_Factor64_err hT hlo hhi
  obtain ⟨r1, r2⟩ := Ksat_denom_range t hlo hhi
  have hd : 0 < d := lt_of_lt_of_le (by norm_num) l1
  have hD : 0 < Ksat_denom t := lt_of_lt_of_le (by norm_num) r1
  have ac := abs_le.mp kc
  have hc3 : c ≤ 36 / 10000 := by
    have : (0.003557 : ℚ) + 1 / 2 ^ 62 ≤ 36 / 10000 := by norm_num
    linarith
  have hc0 : 0 ≤ c := by
    have : (0 : ℚ) ≤ 0.003557 - 1 / 2 ^ 62 := by norm_num
    linarith
  -- rounding of the quotient
  have hq : c / d ≤ 32 / 10 := by
    rw [div_le_iff₀ hd]
    nlinarith
  have hr : |f - c / d| ≤ 1 / 10 ^ 15 := by
    have h1 : c / d / 2 ^ 52 ≤ 32 / 10 / 2 ^ 52 := div_le_div_of_nonneg_right hq (by positivity)
    have hn : (32 : ℚ) / 10 / 2 ^ 52 ≤ 1 / 10 ^ 15 := by norm_num
    linarith
  -- error inherited from the constant and the denominator
  have key : c / d - 0.003557 / Ksat_denom t
      = ((c - 0.003557) * Ksat_denom t + 0.003557 * (Ksat_denom t - d)) / (d * Ksat_denom t) := by
    field_simp
    ring
  have hDabs : |Ksat_denom t| ≤ 12 / 100 := by
    rw [abs_of_pos hD]
    linarith
  have hn1 : |(c - 0.003557) * Ksat_denom t| ≤ 1 / 2 ^ 62 * (12 / 100) :=
    abs_mul_le_of kc hDabs
  have hn2 : |0.003557 * (Ksat_denom t - d)| ≤ 36 / 10000 * (1 / 2 ^ 40) := by
    refine abs_mul_le_of ?_ ?_
    · rw [abs_of_pos (by norm_num)]
      norm_num
    · rw [abs_sub_comm]
      exact kd
  have hnum : |(c - 0.003557) * Ksat_denom t + 0.003557 * (Ksat_denom t - d)|
      ≤ 33 / 10 ^ 16 := by
    have hn : (1 : ℚ) / 2 ^ 62 * (12 / 100) + 36 / 10000 * (1 / 2 ^ 40) ≤ 33 / 10 ^ 16 := by
      norm_num
    exact le_trans (abs_add _ _) (by linarith)
  have hden : 13 / 10 ^ 7 ≤ d * Ksat_denom t := by
    have : (115 : ℚ) / 100000 * (115152 / 100000000) ≤ d * Ksat_denom t :=
      mul_le_mul l1 r1 (by norm_num) (le_of_lt hd)
    have hn : (13 : ℚ) / 10 ^ 7 ≤ 115 / 100000 * (115152 / 100000000) := by norm_num
    linarith
  have hdD : 0 < d * Ksat_denom t := mul_pos hd hD
  have he : |c / d - 0.003557 / Ksat_denom t| ≤ 3 / 10 ^ 9 := by
    rw [key, abs_div, abs_of_pos hdD, div_le_iff₀ hdD]
    have : (33 : ℚ) / 10 ^ 16 ≤ 3 / 10 ^ 9 * (13 / 10 ^ 7) := by norm_num
    nlinarith
  have htot : |f - 0.003557 / Ksat_denom t| ≤ 1 / 10 ^ 8 := by
    have h3 : f - 0.003557 / Ksat_denom t = (f - c / d) + (c / d - 0.003557 / Ksat_denom t) := by
      ring
    rw [h3]
    have hn : (1 : ℚ) / 10 ^ 15 + 3 / 10 ^ 9 ≤ 1 / 10 ^ 8 := by norm_num
    exact le_trans (abs_add _ _) (by linarith)
  refine ⟨min f 2, Ksat_clamp (0.003557 / Ksat_denom t), modify_Ksat_Factor64_val hf, ?_, ?_⟩
  · simp [modify_Ksat_Factor, Ksat_raw_Factor, fdiv, ne_of_gt hD]
  · rw [Ksat_clamp_eq_min]
    refine le_trans (abs_min_sub_min_le_max _ _ _ _) ?_
    rw [sub_self, abs_zero, max_eq_left (abs_nonneg _)]
    exact htot

/-! ## Claims -/

/-- C1: for every temperature and for both settings of `FROZEN_SOIL`,
    `modify_Ksat` returns exactly `1.0`; the result depends neither on `Temp`
    nor on the flag. -/
theorem modify_Ksat_const (FROZEN_SOIL : Bool) (Temp : ℝ) :
    modify_Ksat FROZEN_SOIL Temp = 1.0
      ∧ ∀ (flag : Bool) (T : ℝ), modify_Ksat flag T = modify_Ksat FROZEN_SOIL Temp := by
  refine ⟨?_, fun flag T => ?_⟩ <;> simp [modify_Ksat]

/-- C2 fails as stated: `linear_interp(2, 0, 2, 1e16, 1)` is evaluated at
    `x = ux` but returns `0`, not `uy = 1` (`uy - ly` rounds to `-1e16`). -/
theorem linear_interp_endpoints_counterexample :
    linear_interp64 (Dbl.fin false 2) (Dbl.fin false 0) (Dbl.fin false 2)
        (Dbl.fin false (10 ^ 16)) (Dbl.fin false 1) = Dbl.fin false 0
      ∧ Dbl.ceq (linear_interp64 (Dbl.fin false 2) (Dbl.fin false 0) (Dbl.fin false 2)
          (Dbl.fin false (10 ^ 16)) (Dbl.fin false 1)) (Dbl.fin false 1) = false := by
  rw [linear_interp64_absorb]
  exact ⟨rfl, by simp [Dbl.ceq, sval]⟩

/-- C2 (amended): for finite doubles with `lx ≠ ux` whose differences
    `ux - lx` and `uy - ly` are computed without rounding, `linear_interp`
    returns `ly` at `x = lx` and `uy` at `x = ux`. -/
theorem linear_interp64_endpoints {lx ux ly uy : Dbl} {vlx vux vly vuy : ℚ}
    (hlx : lx.Val vlx) (hux : ux.Val vux) (hly : ly.Val vly) (huy : uy.Val vuy)
    (hwly : isDouble vly) (hwuy : isDouble vuy) (hne : vlx ≠ vux)
    (hdx : isDouble (vux - vlx)) (hdy : isDouble (vuy - vly)) :
    Dbl.ceq (linear_interp64 lx lx ux ly uy) ly = true
      ∧ Dbl.ceq (linear_interp64 ux lx ux ly uy) uy = true := by
  have hd : vux - vlx ≠ 0 := sub_ne_zero.mpr (Ne.symm hne)
  constructor
  · have h : linear_exact vlx vlx vux vly vuy := by
      refine ⟨hd, ?_, hdx, ?_, hdy, ?_, ?_⟩
      · rw [sub_self]; exact isDouble_zero
      · rw [sub_self, zero_div]; exact isDouble_zero
      · rw [sub_self, zero_div, zero_mul]; exact isDouble_zero
      · rw [sub_self, zero_div, zero_mul, zero_add]; exact hwly
    have hv := linear_interp64_exact hlx hlx hux hly huy h
    rw [sub_self, zero_div, zero_mul, zero_add] at hv
    exact Dbl.ceq_of_val hv hly
  · have h : linear_exact vux vlx vux vly vuy := by
      refine ⟨hd, hdx, hdx, ?_, hdy, ?_, ?_⟩
      · rw [div_self hd]; exact isDouble_one
      · rw [div_self hd, one_mul]; exact hdy
      · rw [div_self hd, one_mul, sub_add_cancel]; exact hwuy
    have hv := linear_interp64_exact hux hlx hux hly huy h
    rw [div_self hd, one_mul, sub_add_cancel] at hv
    exact Dbl.ceq_of_val hv huy

theorem linear_interp64_endpoints_witness :
    Dbl.ceq (linear_interp64 (Dbl.fin false 0) (Dbl.fin false 0) (Dbl.fin false 2)
        (Dbl.fin false 3) (Dbl.fin false 7)) (Dbl.fin false 3) = true
      ∧ Dbl.ceq (linear_interp64 (Dbl.fin false 2) (Dbl.fin false 0) (Dbl.fin false 2)
        (Dbl.fin false 3) (Dbl.fin false 7)) (Dbl.fin false 7) = true :=
  linear_interp64_endpoints (Dbl.val_pos 0 (by norm_num)) (Dbl.val_pos 2 (by norm_num))
    (Dbl.val_pos 3 (by norm_num)) (Dbl.val_pos 7 (by norm_num)) isDouble_three isDouble_seven
    (by norm_num) (by rw [sub_zero]; exact isDouble_two)
    (by rw [show (7 : ℚ) - 3 = 4 by norm_num]; exact isDouble_four)

/-- C3 fails as stated: the line through `(-2^1023, 0)` and `(0, 1)` has the
    value `2` at `x = 2^1023`, but `linear_interp(2^1023, -2^1023, 0, 0, 1)`
    returns `+inf` because `x - lx` overflows. -/
theorem linear_interp_on_line_counterexample :
    ∃ a b : ℚ, a * (-(2 ^ 1023)) + b = 0 ∧ a * 0 + b = 1 ∧ a * 2 ^ 1023 + b = 2
      ∧ linear_interp64 (Dbl.fin false (2 ^ 1023)) (Dbl.fin true (2 ^ 1023)) (Dbl.fin false 0)
          (Dbl.fin false 0) (Dbl.fin false 1) = Dbl.inf false
      ∧ ¬ (Dbl.inf false).Val 2 := by
  refine ⟨1 / 2 ^ 1023, 1, ?_, ?_, ?_, linear_interp64_overflow, ?_⟩
  · field_simp
  · norm_num
  · field_simp
    norm_num
  · rintro ⟨s, a, h, -, -⟩
    exact Dbl.noConfusion h

/-- C3 (amended): when no operation of the evaluation rounds, `linear_interp`
    returns the value at `x` of every affine `f t = a * t + b` through
    `(lx, ly)` and `(ux, uy)`, inside or outside `[lx, ux]`. -/
theorem linear_interp64_on_line {x lx ux ly uy : Dbl} {vx vlx vux vly vuy : ℚ} (a b : ℚ)
    (hx : x.Val vx) (hlx : lx.Val vlx) (hux : ux.Val vux) (hly : ly.Val vly)
    (huy : uy.Val vuy) (h : linear_exact vx vlx vux vly vuy)
    (hl : a * vlx + b = vly) (hu : a * vux + b = vuy) :
    (linear_interp64 x lx ux ly uy).Val (a * vx + b) := by
  have hv := linear_interp64_exact hx hlx hux hly huy h
  have hd : vux - vlx ≠ 0 := h.1
  have he : (vx - vlx) / (vux - vlx) * (vuy - vly) + vly = a * vx + b := by
    rw [← hl, ← hu]
    field_simp
    ring
  rw [he] at hv
  exact hv

theorem linear_interp64_on_line_witness :
    (linear_interp64 (Dbl.fin false 1) (Dbl.fin false 0) (Dbl.fin false 2) (Dbl.fin false 3)
      (Dbl.fin false 7)).Val (2 * 1 + 3) :=
  linear_interp64_on_line 2 3 (Dbl.val_pos 1 (by norm_num)) (Dbl.val_pos 0 (by norm_num))
    (Dbl.val_pos 2 (by norm_num)) (Dbl.val_pos 3 (by norm_num)) (Dbl.val_pos 7 (by norm_num))
    linear_exact_sample_mid (by norm_num) (by norm_num)

/-- C4 fails as stated: with `lx = ux = 0` and `x1 = x2 = 0` (any weight `t`)
    the query point is `0` and `linear_interp(0, 0, 0, 0, 1)` is `0 / 0`, a
    NaN, which compares unequal to every double. -/
theorem linear_interp_affine_counterexample :
    linear_interp64 (Dbl.fin false 0) (Dbl.fin false 0) (Dbl.fin false 0)
        (Dbl.fin false 0) (Dbl.fin false 1) = Dbl.nan
      ∧ ∀ d : Dbl, Dbl.ceq (linear_interp64 (Dbl.fin false 0) (Dbl.fin false 0)
          (Dbl.fin false 0) (Dbl.fin false 0) (Dbl.fin false 1)) d = false := by
  rw [linear_interp64_degenerate]
  exact ⟨rfl, Dbl.ceq_nan⟩

/-- C4 (amended): for `lx ≠ ux`, when the query point `t * x1 + (1 - t) * x2`
    is a double and none of the three evaluations rounds, the value at the
    query point is `t` times the value at `x1` plus `1 - t` times the value
    at `x2`. -/
theorem linear_interp64_affine {xq x1 x2 lx ux ly uy : Dbl} {vlx vux vly vuy : ℚ}
    (t v1 v2 : ℚ) (hq : xq.Val (t * v1 + (1 - t) * v2)) (h1 : x1.Val v1) (h2 : x2.Val v2)
    (hlx : lx.Val vlx) (hux : ux.Val vux) (hly : ly.Val vly) (huy : uy.Val vuy)
    (eq : linear_exact (t * v1 + (1 - t) * v2) vlx vux vly vuy)
    (e1 : linear_exact v1 vlx vux vly vuy) (e2 : linear_exact v2 vlx vux vly vuy) :
    ∃ r r1 r2 : ℚ, (linear_interp64 xq lx ux ly uy).Val r
      ∧ (linear_interp64 x1 lx ux ly uy).Val r1
      ∧ (linear_interp64 x2 lx ux ly uy).Val r2
      ∧ r = t * r1 + (1 - t) * r2 := by
  have hd : vux - vlx ≠ 0 := eq.1
  refine ⟨_, _, _, linear_interp64_exact hq hlx hux hly huy eq,
    linear_interp64_exact h1 hlx hux hly huy e1,
    linear_interp64_exact h2 hlx hux hly huy e2, ?_⟩
  field_simp
  ring

theorem linear_interp64_affine_witness :
    ∃ r r1 r2 : ℚ,
      (linear_interp64 (Dbl.fin false 1) (Dbl.fin false 0) (Dbl.fin false 2) (Dbl.fin false 3)
          (Dbl.fin false 7)).Val r
        ∧ (linear_interp64 (Dbl.fin false 0) (Dbl.fin false 0) (Dbl.fin false 2)
          (Dbl.fin false 3) (Dbl.fin false 7)).Val r1
        ∧ (linear_interp64 (Dbl.fin false 2) (Dbl.fin false 0) (Dbl.fin false 2)
          (Dbl.fin false 3) (Dbl.fin false 7)).Val r2
        ∧ r = 1 / 2 * r1 + (1 - 1 / 2) * r2 :=
  have hq : (1 / 2 : ℚ) * 0 + (1 - 1 / 2) * 2 = 1 := by norm_num
  linear_interp64_affine (1 / 2) 0 2 (by rw [hq]; exact Dbl.val_pos 1 (by norm_num))
    (Dbl.val_pos 0 (by norm_num)) (Dbl.val_pos 2 (by norm_num)) (Dbl.val_pos 0 (by norm_num))
    (Dbl.val_pos 2 (by norm_num)) (Dbl.val_pos 3 (by norm_num)) (Dbl.val_pos 7 (by norm_num))
    (by rw [hq]; exact linear_exact_sample_mid) linear_exact_sample_lo linear_exact_sample_hi

/-- C5 fails as stated: `exp_interp(4, 4, 2, 1, 1e16)` is evaluated at
    `x = lx` with `ux = 2 ≠ 0` but returns `0`, not `ly = 1`, for every
    library `exp` (`ly - uy` rounds to `-1e16`). -/
theorem exp_interp_at_reference_counterexample :
    ¬ ∃ approx : Dbl → Dbl,
        Dbl.ceq (exp_interp64 approx (Dbl.fin false 4) (Dbl.fin false 4) (Dbl.fin false 2)
          (Dbl.fin false 1) (Dbl.fin false (10 ^ 16))) (Dbl.fin false 1) = true := by
  rintro ⟨approx, h⟩
  rw [exp_interp64_absorb] at h
  simp [Dbl.ceq, sval] at h

/-- C5 (amended): for finite doubles with `ux ≠ 0` whose difference `ly - uy`
    is computed without rounding, `exp_interp` evaluated at the reference
    depth `x = lx` returns `ly`, for every library `exp`. -/
theorem exp_interp64_at_reference (approx : Dbl → Dbl) {lx ux ly uy : Dbl}
    {vlx vux vly vuy : ℚ} (hlx : lx.Val vlx) (hux : ux.Val vux) (hly : ly.Val vly)
    (huy : uy.Val vuy) (hne : vux ≠ 0) (hwly : isDouble vly) (hd : isDouble (vly - vuy)) :
    Dbl.ceq (exp_interp64 approx lx lx ux ly uy) ly = true := by
  have he : ∀ d : Dbl, d.Val (-(vlx - vlx) / vux) → (Dbl.exp approx d).Val 1 := by
    intro d hdv
    rw [sub_self, neg_zero, zero_div] at hdv
    rw [Dbl.exp_zero approx hdv]
    exact Dbl.val_pos 1 (by norm_num)
  have hex : exp_exact vlx vlx vux vly vuy 1 := by
    refine ⟨hne, ?_, ?_, hd, ?_, ?_⟩
    · rw [sub_self]; exact isDouble_zero
    · rw [sub_self, neg_zero, zero_div]; exact isDouble_zero
    · rw [mul_one]; exact hd
    · rw [mul_one, add_sub_cancel]; exact hwly
  have hv := exp_interp64_exact approx hlx hlx hux hly huy he hex
  rw [mul_one, add_sub_cancel] at hv
  exact Dbl.ceq_of_val hv hly

theorem exp_interp64_at_reference_witness :
    Dbl.ceq (exp_interp64 (fun _ => Dbl.nan) (Dbl.fin false 4) (Dbl.fin false 4)
      (Dbl.fin false 2) (Dbl.fin false 7) (Dbl.fin false 3)) (Dbl.fin false 7) = true :=
  exp_interp64_at_reference (fun _ => Dbl.nan) (Dbl.val_pos 4 (by norm_num))
    (Dbl.val_pos 2 (by norm_num)) (Dbl.val_pos 7 (by norm_num)) (Dbl.val_pos 3 (by norm_num))
    (by norm_num) isDouble_seven (by rw [show (7 : ℚ) - 3 = 4 by norm_num]; exact isDouble_four)

/-- C6 fails as stated: at `lx = 0`, `ux = 1`, `ly = 2^52 + 1`, `uy = 2^52` and
    `x = lx + ux = 1` the result equals `uy`, so `result - uy` is `0`, whereas
    `(ly - uy) * exp(-1)` is the library's `exp(-1)`; this holds for every
    library whose `exp(-1)` is a double between `1/4` and `2/5` (the true value
    is `0.3679`). -/
theorem exp_interp_damping_depth_counterexample :
    ¬ ∃ (approx : Dbl → Dbl) (e : ℚ),
        approx (Dbl.fin true 1) = Dbl.fin false e ∧ isDouble e ∧ 1 / 4 ≤ e ∧ e ≤ 2 / 5
          ∧ Dbl.ceq
              (Dbl.sub
                (exp_interp64 approx (Dbl.fin false 1) (Dbl.fin false 0) (Dbl.fin false 1)
                  (Dbl.fin false (2 ^ 52 + 1)) (Dbl.fin false (2 ^ 52)))
                (Dbl.fin false (2 ^ 52)))
              (Dbl.mul (Dbl.sub (Dbl.fin false (2 ^ 52 + 1)) (Dbl.fin false (2 ^ 52)))
                (Dbl.exp approx (Dbl.fin true 1))) = true := by
  rintro ⟨approx, e, happ, hrep, hlo, hhi, h⟩
  obtain ⟨h1, h2⟩ := exp_interp64_damping_absorb approx e happ hrep hlo hhi
  rw [h1, h2, Dbl.sub_fin, sub_self, Dbl.ofExact_zero] at h
  have hne : ¬ (0 : ℚ) = e := by
    intro h0
    rw [← h0] at hlo
    norm_num at hlo
  simp [Dbl.ceq, sval, hne] at h

/-- C6 (amended): for finite doubles with `ux ≠ 0` and `x - lx = ux` exactly,
    when `ly - uy`, its product with the library's `exp(-1) = e` and the final
    sum are computed without rounding, the result `r` satisfies
    `r - uy = (ly - uy) * e`. -/
theorem exp_interp64_damping_depth (approx : Dbl → Dbl) {x lx ux ly uy : Dbl}
    {vx vlx vux vly vuy e : ℚ} (hx : x.Val vx) (hlx : lx.Val vlx) (hux : ux.Val vux)
    (hly : ly.Val vly) (huy : uy.Val vuy) (hne : vux ≠ 0) (hxu : vx - vlx = vux)
    (hwux : isDouble vux)
    (he : ∀ d : Dbl, d.Val (-1) → (Dbl.exp approx d).Val e)
    (hd : isDouble (vly - vuy)) (hp : isDouble ((vly - vuy) * e))
    (hs : isDouble (vuy + (vly - vuy) * e)) :
    ∃ r : ℚ, (exp_interp64 approx x lx ux ly uy).Val r ∧ r - vuy = (vly - vuy) * e := by
  have hq : -(vx - vlx) / vux = -1 := by
    rw [hxu, neg_div, div_self hne]
  have hex : exp_exact vx vlx vux vly vuy e := by
    refine ⟨hne, ?_, ?_, hd, hp, hs⟩
    · rw [hxu]; exact hwux
    · rw [hq]; exact isDouble_neg isDouble_one
  have he2 : ∀ d : Dbl, d.Val (-(vx - vlx) / vux) → (Dbl.exp approx d).Val e := by
    rw [hq]
    exact he
  exact ⟨_, exp_interp64_exact approx hx hlx hux hly huy he2 hex, by ring⟩

theorem exp_interp64_damping_depth_witness :
    ∃ r : ℚ,
      (exp_interp64 (fun _ => Dbl.fin false (1 / 2)) (Dbl.fin false 1) (Dbl.fin false 0)
          (Dbl.fin false 1) (Dbl.fin false 4) (Dbl.fin false 2)).Val r
        ∧ r - 2 = (4 - 2) * (1 / 2) :=
  exp_interp64_damping_depth (fun _ => Dbl.fin false (1 / 2)) (Dbl.val_pos 1 (by norm_num))
    (Dbl.val_pos 0 (by norm_num)) (Dbl.val_pos 1 (by norm_num)) (Dbl.val_pos 4 (by norm_num))
    (Dbl.val_pos 2 (by norm_num)) (by norm_num) (by norm_num) isDouble_one
    (fun d hd => by
      rw [Dbl.exp_of_val_ne _ hd (by norm_num)]
      exact Dbl.val_pos (1 / 2) (by norm_num))
    (by rw [show (4 : ℚ) - 2 = 2 by norm_num]; exact isDouble_two)
    (by rw [show ((4 : ℚ) - 2) * (1 / 2) = 1 by norm_num]; exact isDouble_one)
    (by rw [show (2 : ℚ) + (4 - 2) * (1 / 2) = 3 by norm_num]; exact isDouble_three)

/-- C7 fails as stated: `exp_interp(4, 4, 2, 1, 1e16)` has `ux = 2 > 0` and
    `x = 4 ≥ lx = 4`, but the result `0` is below `min(ly, uy) = 1`, for every
    library `exp`. -/
theorem exp_interp_monotone_counterexample :
    (0 : ℚ) < 2 ∧ (4 : ℚ) ≤ 4
      ∧ ¬ ∃ (approx : Dbl → Dbl) (r : ℚ),
          (exp_interp64 approx (Dbl.fin false 4) (Dbl.fin false 4) (Dbl.fin false 2)
            (Dbl.fin false 1) (Dbl.fin false (10 ^ 16))).Val r
            ∧ min (1 : ℚ) (10 ^ 16) ≤ r := by
  refine ⟨by norm_num, le_refl 4, ?_⟩
  rintro ⟨approx, r, hv, hr⟩
  rw [exp_interp64_absorb] at hv
  have h0 := Dbl.val_unique hv (Dbl.val_pos 0 (le_refl 0))
  rw [h0] at hr
  norm_num at hr

/-- C7 (amended): for finite doubles with `ux > 0`, when no operation rounds
    and the library's `exp` is monotone and non-negative at the arguments used
    (and at most `1` at a non-positive argument), `exp_interp` moves
    monotonically from `ly` toward `uy`: for `x1 ≤ x2` the value at `x2` is not
    above the value at `x1` when `ly ≥ uy` and not below it when `ly ≤ uy`
    (strictly below, respectively above, when `ly ≠ uy` and the library's `exp`
    is strictly smaller at the argument of `x2`), and for `x ≥ lx` the value
    lies between `min ly uy` and `max ly uy`, at the distance
    `|ly - uy| * exp(-(x - lx) / ux)` from `uy`. -/
theorem exp_interp64_monotone (approx : Dbl → Dbl) {x1 x2 x lx ux ly uy : Dbl}
    {v1 v2 vx vlx vux vly vuy e1 e2 e : ℚ}
    (h1 : x1.Val v1) (h2 : x2.Val v2) (hx : x.Val vx) (hlx : lx.Val vlx) (hux : ux.Val vux)
    (hly : ly.Val vly) (huy : uy.Val vuy)
    (hpos : 0 < vux) (h12 : v1 ≤ v2) (hxl : vlx ≤ vx)
    (he1 : ∀ d : Dbl, d.Val (-(v1 - vlx) / vux) → (Dbl.exp approx d).Val e1)
    (he2 : ∀ d : Dbl, d.Val (-(v2 - vlx) / vux) → (Dbl.exp approx d).Val e2)
    (he : ∀ d : Dbl, d.Val (-(vx - vlx) / vux) → (Dbl.exp approx d).Val e)
    (hmono : -(v2 - vlx) / vux ≤ -(v1 - vlx) / vux → e2 ≤ e1)
    (hunit : -(vx - vlx) / vux ≤ 0 → 0 ≤ e ∧ e ≤ 1)
    (ex1 : exp_exact v1 vlx vux vly vuy e1) (ex2 : exp_exact v2 vlx vux vly vuy e2)
    (ex : exp_exact vx vlx vux vly vuy e) :
    ∃ r1 r2 r : ℚ,
      (exp_interp64 approx x1 lx ux ly uy).Val r1
        ∧ (exp_interp64 approx x2 lx ux ly uy).Val r2
        ∧ (exp_interp64 approx x lx ux ly uy).Val r
        ∧ (vuy ≤ vly → r2 ≤ r1) ∧ (vly ≤ vuy → r1 ≤ r2)
        ∧ (vuy < vly → e2 < e1 → r2 < r1) ∧ (vly < vuy → e2 < e1 → r1 < r2)
        ∧ min vly vuy ≤ r ∧ r ≤ max vly vuy ∧ |r - vuy| = |vly - vuy| * e := by
  have harg : -(v2 - vlx) / vux ≤ -(v1 - vlx) / vux := by
    apply div_le_div_of_nonneg_right _ (le_of_lt hpos)
    linarith
  have hle := hmono harg
  have hneg : -(vx - vlx) / vux ≤ 0 := by
    apply div_nonpos_of_nonpos_of_nonneg _ (le_of_lt hpos)
    linarith
  obtain ⟨h0, hone⟩ := hunit hneg
  refine ⟨_, _, _, exp_interp64_exact approx h1 hlx hux hly huy he1 ex1,
    exp_interp64_exact approx h2 hlx hux hly huy he2 ex2,
    exp_interp64_exact approx hx hlx hux hly huy he ex, ?_, ?_, ?_, ?_, ?_, ?_, ?_⟩
  · intro hyl
    exact add_le_add_left (mul_le_mul_of_nonneg_left hle (sub_nonneg.mpr hyl)) _
  · intro hyl
    exact add_le_add_left (mul_le_mul_of_nonpos_left hle (sub_nonpos.mpr hyl)) _
  · intro hyl hlt
    exact add_lt_add_left (mul_lt_mul_of_pos_left hlt (sub_pos.mpr hyl)) _
  · intro hyl hlt
    exact add_lt_add_left (mul_lt_mul_of_neg_left hlt (sub_neg.mpr hyl)) _
  · rcases le_total vly vuy with hyl | hyl
    · rw [min_eq_left hyl]
      nlinarith [mul_nonneg (sub_nonneg.mpr hyl) (sub_nonneg.mpr hone)]
    · rw [min_eq_right hyl]
      nlinarith [mul_nonneg (sub_nonneg.mpr hyl) h0]
  · rcases le_total vly vuy with hyl | hyl
    · rw [max_eq_right hyl]
      nlinarith [mul_nonneg (sub_nonneg.mpr hyl) h0]
    · rw [max_eq_left hyl]
      nlinarith [mul_nonneg (sub_nonneg.mpr hyl) (sub_nonneg.mpr hone)]
  · rw [add_sub_cancel_left, abs_mul, abs_of_nonneg h0]

theorem exp_interp64_monotone_witness :
    ∃ r1 r2 r : ℚ,
      (exp_interp64 (fun _ => Dbl.fin false (1 / 2)) (Dbl.fin false 4) (Dbl.fin false 4)
          (Dbl.fin false 2) (Dbl.fin false 4) (Dbl.fin false 2)).Val r1
        ∧ (exp_interp64 (fun _ => Dbl.fin false (1 / 2)) (Dbl.fin false 6) (Dbl.fin false 4)
          (Dbl.fin false 2) (Dbl.fin false 4) (Dbl.fin false 2)).Val r2
        ∧ (exp_interp64 (fun _ => Dbl.fin false (1 / 2)) (Dbl.fin false 4) (Dbl.fin false 4)
          (Dbl.fin false 2) (Dbl.fin false 4) (Dbl.fin false 2)).Val r
        ∧ ((2 : ℚ) ≤ 4 → r2 ≤ r1) ∧ ((4 : ℚ) ≤ 2 → r1 ≤ r2)
        ∧ ((2 : ℚ) < 4 → (1 / 2 : ℚ) < 1 → r2 < r1) ∧ ((4 : ℚ) < 2 → (1 / 2 : ℚ) < 1 → r1 < r2)
        ∧ min (4 : ℚ) 2 ≤ r ∧ r ≤ max (4 : ℚ) 2 ∧ |r - 2| = |(4 : ℚ) - 2| * 1 :=
  exp_interp64_monotone (fun _ => Dbl.fin false (1 / 2)) (Dbl.val_pos 4 (by norm_num))
    (Dbl.val_pos 6 (by norm_num)) (Dbl.val_pos 4 (by norm_num)) (Dbl.val_pos 4 (by norm_num))
    (Dbl.val_pos 2 (by norm_num)) (Dbl.val_pos 4 (by norm_num)) (Dbl.val_pos 2 (by norm_num))
    (by norm_num) (by norm_num) (le_refl 4)
    Dbl.exp_half_at_zero Dbl.exp_half_at_deep Dbl.exp_half_at_zero
    (fun _ => by norm_num) (fun _ => ⟨by norm_num, le_refl 1⟩)
    exp_exact_sample_ref exp_exact_sample_deep exp_exact_sample_ref

/-- C9 fails as stated: `exp_interp(11, 0, 1, 1, 0)` has `ux = 1 > 0` and
    `x = 11 > lx + 10 * ux`, and returns the library's `exp(-11)`; for every
    library whose `exp(-11)` is a double of at least `2^-17` (the true value is
    `1.67e-5`) the distance from `uy = 0` exceeds `2^-52`. -/
theorem exp_interp_eps_counterexample :
    (0 : ℚ) < 1 ∧ (0 : ℚ) + 10 * 1 < 11
      ∧ ¬ ∃ (approx : Dbl → Dbl) (e r : ℚ),
          approx (Dbl.fin true 11) = Dbl.fin false e ∧ isDouble e ∧ 1 / 2 ^ 17 ≤ e
            ∧ (exp_interp64 approx (Dbl.fin false 11) (Dbl.fin false 0) (Dbl.fin false 1)
                (Dbl.fin false 1) (Dbl.fin false 0)).Val r
            ∧ |r - 0| ≤ 1 / 2 ^ 52 := by
  refine ⟨by norm_num, by norm_num, ?_⟩
  rintro ⟨approx, e, r, happ, hrep, hlo, hv, hr⟩
  have he0 : 0 ≤ e := le_trans (by norm_num) hlo
  have he : ∀ d : Dbl, d.Val (-((11 : ℚ) - 0) / 1) → (Dbl.exp approx d).Val e := by
    intro d hd
    have h11 : -((11 : ℚ) - 0) / 1 = -11 := by norm_num
    rw [h11] at hd
    rw [Dbl.exp_of_val_ne approx hd (by norm_num), Dbl.val_neg_sign hd (by norm_num), neg_neg,
      happ]
    exact Dbl.val_pos e he0
  have hex : exp_exact 11 0 1 1 0 e := by
    refine ⟨by norm_num, ?_, ?_, ?_, ?_, ?_⟩
    · rw [sub_zero]; exact isDouble_eleven
    · rw [sub_zero, div_one]; exact isDouble_neg isDouble_eleven
    · rw [sub_zero]; exact isDouble_one
    · rw [sub_zero, one_mul]; exact hrep
    · rw [sub_zero, one_mul, zero_add]; exact hrep
  have hv2 := exp_interp64_exact approx (Dbl.val_pos 11 (by norm_num))
    (Dbl.val_pos 0 (le_refl 0)) (Dbl.val_pos 1 (by norm_num)) (Dbl.val_pos 1 (by norm_num))
    (Dbl.val_pos 0 (le_refl 0)) he hex
  have hre := Dbl.val_unique hv hv2
  have hval : (0 : ℚ) + (1 - 0) * e - 0 = e := by ring
  rw [hre, hval, abs_of_nonneg he0] at hr
  have : (1 : ℚ) / 2 ^ 52 < 1 / 2 ^ 17 := by norm_num
  linarith

/-- C9 (amended): for finite doubles with `ux > 0` and `x > lx + 10 * ux`,
    when no operation rounds and the library's `exp` returns at the computed
    argument (which is below `-10`) a value `e` with `0 ≤ e ≤ 2^-14`, the
    distance of the result from `uy` is at most `2^-14 * |ly - uy|`. -/
theorem exp_interp64_far (approx : Dbl → Dbl) {x lx ux ly uy : Dbl}
    {vx vlx vux vly vuy e : ℚ} (hx : x.Val vx) (hlx : lx.Val vlx) (hux : ux.Val vux)
    (hly : ly.Val vly) (huy : uy.Val vuy) (hpos : 0 < vux) (hfar : vlx + 10 * vux < vx)
    (he : ∀ d : Dbl, d.Val (-(vx - vlx) / vux) → (Dbl.exp approx d).Val e)
    (hsmall : -(vx - vlx) / vux < -10 → 0 ≤ e ∧ e ≤ 1 / 2 ^ 14)
    (hex : exp_exact vx vlx vux vly vuy e) :
    ∃ r : ℚ, (exp_interp64 approx x lx ux ly uy).Val r
      ∧ |r - vuy| ≤ |vly - vuy| / 2 ^ 14 := by
  have harg : -(vx - vlx) / vux < -10 := by
    rw [div_lt_iff₀ hpos]
    linarith
  obtain ⟨h0, h1⟩ := hsmall harg
  refine ⟨_, exp_interp64_exact approx hx hlx hux hly huy he hex, ?_⟩
  rw [add_sub_cancel_left, abs_mul, abs_of_nonneg h0, div_eq_mul_one_div]
  exact mul_le_mul_of_nonneg_left h1 (abs_nonneg _)

theorem exp_interp64_far_witness :
    ∃ r : ℚ,
      (exp_interp64 (fun _ => Dbl.fin false (1 / 32768)) (Dbl.fin false 16) (Dbl.fin false 0)
          (Dbl.fin false 1) (Dbl.fin false 32768) (Dbl.fin false 0)).Val r
        ∧ |r - 0| ≤ |(32768 : ℚ) - 0| / 2 ^ 14 :=
  exp_interp64_far (fun _ => Dbl.fin false (1 / 32768)) (Dbl.val_pos 16 (by norm_num))
    (Dbl.val_pos 0 (le_refl 0)) (Dbl.val_pos 1 (by norm_num)) (Dbl.val_pos 32768 (by norm_num))
    (Dbl.val_pos 0 (le_refl 0)) (by norm_num) (by norm_num)
    (fun d hd => by
      rw [Dbl.exp_of_val_ne _ hd (by norm_num)]
      exact Dbl.val_pos (1 / 32768) (by norm_num))
    (fun _ => ⟨by norm_num, by norm_num⟩) exp_exact_sample_far

/-- C10: evaluation of the code at the table row `Temp = 0`, `Factor = 0.560`
    with `FROZEN_SOIL` enabled: the local `Factor` is within `0.06` of the
    table, but the value returned is `1.0`, which is more than `0.06` away. -/
theorem modify_Ksat_table_row_zero :
    (∃ f : ℝ, modify_Ksat_Factor true (0 : ℝ) = some f ∧ |f - 0.560| ≤ 0.06)
      ∧ modify_Ksat true (0 : ℝ) = 1.0
      ∧ 0.06 < |modify_Ksat true (0 : ℝ) - 0.560| := by
  refine ⟨⟨Ksat_clamp (0.003557 / 0.006534), ?_, ?_⟩, ?_, ?_⟩
  · have hd : Ksat_denom (0 : ℝ) = 0.006534 := by
      simp [Ksat_denom]
    have hne : (0.006534 : ℝ) ≠ 0 := by norm_num
    simp [modify_Ksat_Factor, Ksat_raw_Factor, hd, fdiv_of_ne _ hne]
  · have hc : Ksat_clamp ((0.003557 : ℝ) / 0.006534) = 0.003557 / 0.006534 := by
      unfold Ksat_clamp
      rw [if_neg (by norm_num)]
    rw [hc, abs_le]
    constructor <;> norm_num
  · simp [modify_Ksat]
  · have hm : modify_Ksat true (0 : ℝ) = 1 := by norm_num [modify_Ksat]
    rw [hm, abs_of_pos (by norm_num)]
    norm_num

/-- C11 fails as stated: with `FROZEN_SOIL` enabled and the finite
    `Temp = 2^700` the denominator is `inf - inf`, so the raw `Factor` and the
    `Factor` after the clamp are NaN: `raw ≤ 2` is false, yet `Factor` is not
    `2` and equals no number at all. -/
theorem modify_Ksat_Factor_spec_counterexample :
    Ksat_raw_Factor64 true (Dbl.fin false (2 ^ 700)) = Dbl.nan
      ∧ Dbl.le (Ksat_raw_Factor64 true (Dbl.fin false (2 ^ 700))) (Dbl.fin false 2) = false
      ∧ modify_Ksat_Factor64 true (Dbl.fin false (2 ^ 700)) = Dbl.nan
      ∧ ∀ d : Dbl, Dbl.ceq (modify_Ksat_Factor64 true (Dbl.fin false (2 ^ 700))) d = false := by
  have hraw : Ksat_raw_Factor64 true (Dbl.fin false (2 ^ 700)) = Dbl.nan := by
    unfold Ksat_raw_Factor64
    rw [if_pos rfl, Ksat_denom64_huge, Dbl.div_nan]
  have hF : modify_Ksat_Factor64 true (Dbl.fin false (2 ^ 700)) = Dbl.nan := by
    unfold modify_Ksat_Factor64
    rw [hraw, Dbl.gt_nan]
    rfl
  refine ⟨hraw, ?_, hF, ?_⟩
  · rw [hraw]
    rfl
  · rw [hF]
    exact Dbl.ceq_nan

/-- C11 (amended): the local `Factor` just before the `return` is `1.0` when
    `FROZEN_SOIL` is disabled; when it is enabled, `Factor` is `2` if the
    double-precision value of the regression quotient compares greater than
    `2`, and that value itself otherwise (a NaN included).  In either case
    the comparison `Factor > 2` is false.  For `-100 ≤ Temp ≤ 60` the `Factor`
    computed in double precision is a finite double within `1e-8` of the
    value `raw(Temp)` if `raw(Temp) ≤ 2` and `2` otherwise of the formula in
    exact arithmetic. -/
theorem modify_Ksat_Factor64_spec (FROZEN_SOIL : Bool) (Temp : Dbl) :
    modify_Ksat_Factor64 false Temp = Dbl.fin false 1
      ∧ modify_Ksat_Factor64 true Temp
          = (if Dbl.gt (Ksat_raw_Factor64 true Temp) (Dbl.fin false 2) then Dbl.fin false 2
              else Ksat_raw_Factor64 true Temp)
      ∧ Dbl.gt (modify_Ksat_Factor64 FROZEN_SOIL Temp) (Dbl.fin false 2) = false
      ∧ ∀ t : ℚ, Temp.Val t → -100 ≤ t → t ≤ 60 →
          ∃ g fx : ℚ, (modify_Ksat_Factor64 true Temp).Val g
            ∧ modify_Ksat_Factor true t = some fx ∧ |g - fx| ≤ 1 / 10 ^ 8 := by
  have h12 : Dbl.gt (Dbl.fin false 1) (Dbl.fin false 2) = false := by
    simp [Dbl.gt, sval]
  have h22 : Dbl.gt (Dbl.fin false 2) (Dbl.fin false 2) = false := by
    simp [Dbl.gt, sval]
  refine ⟨?_, ?_, ?_, fun t hT hlo hhi => modify_Ksat_Factor64_accurate hT hlo hhi⟩
  · unfold modify_Ksat_Factor64 Ksat_raw_Factor64
    simp only [Bool.false_eq_true, if_false, Dbl.lit_one, Dbl.lit_two, h12]
  · unfold modify_Ksat_Factor64
    rw [Dbl.lit_two]
  · unfold modify_Ksat_Factor64
    rw [Dbl.lit_two]
    by_cases h : Dbl.gt (Ksat_raw_Factor64 FROZEN_SOIL Temp) (Dbl.fin false 2) = true
    · rw [if_pos h]
      exact h22
    · rw [if_neg h]
      exact Bool.eq_false_iff.mpr h

theorem modify_Ksat_Factor64_spec_witness :
    ∃ g fx : ℚ, (modify_Ksat_Factor64 true (Dbl.fin false 10)).Val g
      ∧ modify_Ksat_Factor true (10 : ℚ) = some fx ∧ |g - fx| ≤ 1 / 10 ^ 8 :=
  (modify_Ksat_Factor64_spec true (Dbl.fin false 10)).2.2.2 10
    (Dbl.val_pos 10 (by norm_num)) (by norm_num) (by norm_num)

/-- C12: with `FROZEN_SOIL` enabled, at every row `(Temp, Factor)` of the
    reference table the raw factor is a number below `2`, the clamp leaves it
    unchanged, and it is within `0.06` of the tabulated `Factor`; at
    `Temp = 20` it is within `0.001` of `1.0`. -/
theorem Ksat_raw_Factor_table (p : ℝ × ℝ) (hp : p ∈ (Ksat_table : List (ℝ × ℝ))) :
    (∃ f : ℝ, Ksat_raw_Factor true p.1 = some f ∧ f < 2
        ∧ modify_Ksat_Factor true p.1 = some f ∧ |f - p.2| ≤ 0.06)
      ∧ ∃ f20 : ℝ, Ksat_raw_Factor true 20 = some f20 ∧ |f20 - 1.0| ≤ 0.001 := by
  have key : ∀ (T F d : ℝ), Ksat_denom T = d → 0 < d → 0.003557 < 2 * d →
      (F - 0.06) * d ≤ 0.003557 → 0.003557 ≤ (F + 0.06) * d →
      ∃ f : ℝ, Ksat_raw_Factor true T = some f ∧ f < 2
        ∧ modify_Ksat_Factor true T = some f ∧ |f - F| ≤ 0.06 := by
    intro T F d hd hpos h2 hlo hhi
    have hne : Ksat_denom T ≠ 0 := by
      rw [hd]
      exact ne_of_gt hpos
    have hlt : 0.003557 / Ksat_denom T < 2 := by
      rw [hd, div_lt_iff₀ hpos]
      exact h2
    refine ⟨_, Ksat_raw_Factor_of_ne T hne, hlt, ?_, ?_⟩
    · rw [modify_Ksat_Factor_of_ne T hne, Ksat_clamp_of_le (le_of_lt hlt)]
    · rw [hd, abs_le]
      constructor
      · rw [le_sub_iff_add_le, le_div_iff₀ hpos]
        linarith
      · rw [sub_le_iff_le_add, div_le_iff₀ hpos]
        linarith
  constructor
  · simp only [Ksat_table, List.mem_cons, List.mem_singleton, List.not_mem_nil, or_false] at hp
    rcases hp with rfl | rfl | rfl | rfl | rfl | rfl | rfl | rfl | rfl
    · exact key 0 _ 0.006534 (by unfold Ksat_denom; norm_num) (by norm_num) (by norm_num)
        (by norm_num) (by norm_num)
    · exact key 5 _ 0.00550767125 (by unfold Ksat_denom; norm_num) (by norm_num)
        (by norm_num) (by norm_num) (by norm_num)
    · exact key 10 _ 0.00468997 (by unfold Ksat_denom; norm_num) (by norm_num)
        (by norm_num) (by norm_num) (by norm_num)
    · exact key 15 _ 0.00404982375 (by unfold Ksat_denom; norm_num) (by norm_num)
        (by norm_num) (by norm_num) (by norm_num)
    · exact key 20 _ 0.00355616 (by unfold Ksat_denom; norm_num) (by norm_num)
        (by norm_num) (by norm_num) (by norm_num)
    · exact key 25 _ 0.00317790625 (by unfold Ksat_denom; norm_num) (by norm_num)
        (by norm_num) (by norm_num) (by norm_num)
    · exact key 30 _ 0.00288399 (by unfold Ksat_denom; norm_num) (by norm_num)
        (by norm_num) (by norm_num) (by norm_num)
    · exact key 35 _ 0.00264333875 (by unfold Ksat_denom; norm_num) (by norm_num)
        (by norm_num) (by norm_num) (by norm_num)
    · exact key 40 _ 0.00242488 (by unfold Ksat_denom; norm_num) (by norm_num)
        (by norm_num) (by norm_num) (by norm_num)
  · have hd : Ksat_denom (20 : ℝ) = 0.00355616 := by
      unfold Ksat_denom
      norm_num
    have hne : Ksat_denom (20 : ℝ) ≠ 0 := by
      rw [hd]
      norm_num
    refine ⟨_, Ksat_raw_Factor_of_ne 20 hne, ?_⟩
    rw [hd, abs_le]
    constructor <;> norm_num

theorem Ksat_raw_Factor_table_witness :
    (∃ f : ℝ, Ksat_raw_Factor true (40 : ℝ) = some f ∧ f < 2
        ∧ modify_Ksat_Factor true (40 : ℝ) = some f ∧ |f - 1.52| ≤ 0.06)
      ∧ ∃ f20 : ℝ, Ksat_raw_Factor true 20 = some f20 ∧ |f20 - 1.0| ≤ 0.001 :=
  Ksat_raw_Factor_table ((40 : ℝ), (1.52 : ℝ)) (by simp [Ksat_table])

/-- C13 fails as stated: with `FROZEN_SOIL` enabled and `Temp = 0` the
    internal `Factor` is `0.003557 / 0.006534`, about `0.5444`, which is more
    than `0.005` away from `0.56`. -/
theorem modify_Ksat_Factor_zero_counterexample :
    ∃ f : ℝ, modify_Ksat_Factor true (0 : ℝ) = some f ∧ ¬ |f - 0.56| ≤ 0.005 := by
  have hd : Ksat_denom (0 : ℝ) = 0.006534 := by
    unfold Ksat_denom
    norm_num
  have hne : Ksat_denom (0 : ℝ) ≠ 0 := by
    rw [hd]
    norm_num
  refine ⟨_, modify_Ksat_Factor_of_ne 0 hne, ?_⟩
  rw [hd, Ksat_clamp_of_le (by norm_num), abs_le, not_and_or]
  left
  norm_num

/-- C13 (amended): with `FROZEN_SOIL` enabled and `Temp = 0` the internal
    `Factor` is `0.003557 / 0.006534`; it is within `0.016` of the table value
    `0.56`, it is below `2.0`, and the clamp does not alter it. -/
theorem modify_Ksat_Factor_zero :
    ∃ f : ℝ, Ksat_raw_Factor true (0 : ℝ) = some f
      ∧ modify_Ksat_Factor true (0 : ℝ) = some f
      ∧ f = 0.003557 / 0.006534 ∧ f < 2.0 ∧ |f - 0.56| ≤ 0.016 := by
  have hd : Ksat_denom (0 : ℝ) = 0.006534 := by
    unfold Ksat_denom
    norm_num
  have hne : Ksat_denom (0 : ℝ) ≠ 0 := by
    rw [hd]
    norm_num
  refine ⟨_, Ksat_raw_Factor_of_ne 0 hne, ?_, ?_, ?_, ?_⟩
  · rw [modify_Ksat_Factor_of_ne 0 hne, hd, Ksat_clamp_of_le (by norm_num)]
  · rw [hd]
  · rw [hd]
    norm_num
  · rw [hd, abs_le]
    constructor <;> norm_num

/-- C14: with `FROZEN_SOIL` enabled the clamp is inactive on the tabulated
    range and active beyond it: for `0 ≤ Temp ≤ 40` the raw factor is a number
    not above `2` and equals the clamped factor, while at `Temp = 60 > 40` the
    raw factor exceeds `2` and the clamped factor is exactly `2.0`. -/
theorem Ksat_clamp_range (Temp : ℝ) (_h0 : 0 ≤ Temp) (h40 : Temp ≤ 40) :
    (∃ f : ℝ, Ksat_raw_Factor true Temp = some f ∧ f ≤ 2
        ∧ modify_Ksat_Factor true Temp = some f)
      ∧ ∃ T : ℝ, 40 < T ∧ ∃ g : ℝ, Ksat_raw_Factor true T = some g ∧ 2 < g
          ∧ modify_Ksat_Factor true T = some 2.0 := by
  constructor
  · have hge : (0.00242488 : ℝ) ≤ Ksat_denom Temp := by
      rcases eq_or_lt_of_le h40 with h | h
      · rw [h, Ksat_denom_40]
      · have := Ksat_denom_strictAnti Temp 40 h
        rw [Ksat_denom_40] at this
        exact le_of_lt this
    have hpos : 0 < Ksat_denom Temp := lt_of_lt_of_le (by norm_num) hge
    have hle : 0.003557 / Ksat_denom Temp ≤ 2 := by
      rw [div_le_iff₀ hpos]
      linarith
    exact ⟨_, Ksat_raw_Factor_of_ne Temp (ne_of_gt hpos), hle, by
      rw [modify_Ksat_Factor_of_ne Temp (ne_of_gt hpos), Ksat_clamp_of_le hle]⟩
  · have hne : Ksat_denom (60 : ℝ) ≠ 0 := by
      rw [Ksat_denom_60]
      norm_num
    have hgt : 2 < 0.003557 / Ksat_denom (60 : ℝ) := by
      rw [Ksat_denom_60]
      norm_num
    refine ⟨60, by norm_num, _, Ksat_raw_Factor_of_ne 60 hne, hgt, ?_⟩
    rw [modify_Ksat_Factor_of_ne 60 hne, Ksat_clamp_of_gt hgt]
    norm_num

theorem Ksat_clamp_range_witness :
    (∃ f : ℝ, Ksat_raw_Factor true (37 : ℝ) = some f ∧ f ≤ 2
        ∧ modify_Ksat_Factor true (37 : ℝ) = some f)
      ∧ ∃ T : ℝ, 40 < T ∧ ∃ g : ℝ, Ksat_raw_Factor true T = some g ∧ 2 < g
          ∧ modify_Ksat_Factor true T = some 2.0 :=
  Ksat_clamp_range 37 (by norm_num) (by norm_num)

/-- C15 fails as stated: `Temp = -2^700` is finite and below `60`, but the
    denominator overflows to `+inf` and the raw `Factor` is `0`, which is not
    strictly positive. -/
theorem Ksat_denom_safe_counterexample :
    Dbl.le (Dbl.fin true (2 ^ 700)) (Dbl.fin false 60) = true
      ∧ Ksat_denom64 (Dbl.fin true (2 ^ 700)) = Dbl.inf false
      ∧ Ksat_raw_Factor64 true (Dbl.fin true (2 ^ 700)) = Dbl.fin false 0
      ∧ Dbl.gt (Ksat_raw_Factor64 true (Dbl.fin true (2 ^ 700))) (Dbl.fin false 0) = false := by
  have hraw : Ksat_raw_Factor64 true (Dbl.fin true (2 ^ 700)) = Dbl.fin false 0 := by
    unfold Ksat_raw_Factor64
    rw [if_pos rfl, Ksat_denom64_huge_neg, Dbl.lit_cN]
    rfl
  refine ⟨?_, Ksat_denom64_huge_neg, hraw, ?_⟩
  · have h : -(2 : ℚ) ^ 700 ≤ 60 := by
      have : (0 : ℚ) ≤ 2 ^ 700 := by positivity
      linarith
    simp only [Dbl.le, sval, if_true, Bool.false_eq_true, if_false, decide_eq_true_eq]
    exact h
  · rw [hraw]
    simp [Dbl.gt, sval]

/-- C15 (amended): for every double `Temp` with `-100 ≤ Temp ≤ 60` the
    denominator computed in double precision is a finite, strictly positive
    double (at least `0.00115`), so the division is not a division by zero, and
    the raw `Factor` is a finite, strictly positive double. -/
theorem Ksat_denom64_safe {T : Dbl} {t : ℚ} (hT : T.Val t) (hlo : -100 ≤ t) (hhi : t ≤ 60) :
    ∃ d f : ℚ, (Ksat_denom64 T).Val d ∧ 115 / 100000 ≤ d
      ∧ Dbl.gt (Ksat_denom64 T) (Dbl.fin false 0) = true
      ∧ (Ksat_raw_Factor64 true T).Val f ∧ 0 < f
      ∧ Dbl.gt (Ksat_raw_Factor64 true T) (Dbl.fin false 0) = true := by
  obtain ⟨c, d, f, -, -, hd, -, hd1, -, hf, hf0, -⟩ := Ksat_raw_Factor64_err hT hlo hhi
  have h0 : (Dbl.fin false 0).Val 0 := Dbl.val_pos 0 (le_refl 0)
  have hdpos : 0 < d := lt_of_lt_of_le (by norm_num) hd1
  refine ⟨d, f, hd, hd1, ?_, hf, hf0, ?_⟩
  · rw [Dbl.gt_of_val hd h0]
    exact decide_eq_true hdpos
  · rw [Dbl.gt_of_val hf h0]
    exact decide_eq_true hf0

theorem Ksat_denom64_safe_witness :
    ∃ d f : ℚ, (Ksat_denom64 (Dbl.fin true 30)).Val d ∧ 115 / 100000 ≤ d
      ∧ Dbl.gt (Ksat_denom64 (Dbl.fin true 30)) (Dbl.fin false 0) = true
      ∧ (Ksat_raw_Factor64 true (Dbl.fin true 30)).Val f ∧ 0 < f
      ∧ Dbl.gt (Ksat_raw_Factor64 true (Dbl.fin true 30)) (Dbl.fin false 0) = true :=
  Ksat_denom64_safe (Dbl.val_fin true 30 (by norm_num))
    (by simp only [sval, if_true]; norm_num) (by simp only [sval, if_true]; norm_num)

/-- C16 fails as stated: `Temp1 = 10` and the next double above it,
    `Temp2 = 10 + 2^-49`, satisfy `Temp1 < Temp2 ≤ 60`, but the raw `Factor`
    is the same double at both, so it is not strictly increasing; `Temp1 = 26`
    and the next double above it, `Temp2 = 26 + 2^-48`, satisfy
    `Temp1 < Temp2 ≤ 60`, but the raw `Factor` drops from
    `1.1424917804188484` to `1.1424917804188481` and, both being below `2`,
    so does the clamped `Factor`: it is not non-decreasing. -/
theorem Ksat_Factor_increasing_counterexample :
    (5629499534213120 * 2 ^ (-49 : ℤ) : ℚ) = 10
      ∧ (5629499534213120 * 2 ^ (-49 : ℤ) : ℚ) < 5629499534213121 * 2 ^ (-49 : ℤ)
      ∧ (5629499534213121 * 2 ^ (-49 : ℤ) : ℚ) ≤ 60
      ∧ Ksat_raw_Factor64 true (Dbl.fin false (5629499534213120 * 2 ^ (-49 : ℤ)))
          = Ksat_raw_Factor64 true (Dbl.fin false (5629499534213121 * 2 ^ (-49 : ℤ)))
      ∧ Dbl.gt (Ksat_raw_Factor64 true (Dbl.fin false (5629499534213121 * 2 ^ (-49 : ℤ))))
          (Ksat_raw_Factor64 true (Dbl.fin false (5629499534213120 * 2 ^ (-49 : ℤ)))) = false
      ∧ (7318349394477056 * 2 ^ (-48 : ℤ) : ℚ) = 26
      ∧ (7318349394477056 * 2 ^ (-48 : ℤ) : ℚ) < 7318349394477057 * 2 ^ (-48 : ℤ)
      ∧ (7318349394477057 * 2 ^ (-48 : ℤ) : ℚ) ≤ 60
      ∧ Dbl.gt (Ksat_raw_Factor64 true (Dbl.fin false (7318349394477056 * 2 ^ (-48 : ℤ))))
          (Ksat_raw_Factor64 true (Dbl.fin false (7318349394477057 * 2 ^ (-48 : ℤ)))) = true
      ∧ Dbl.gt (modify_Ksat_Factor64 true (Dbl.fin false (7318349394477056 * 2 ^ (-48 : ℤ))))
          (modify_Ksat_Factor64 true (Dbl.fin false (7318349394477057 * 2 ^ (-48 : ℤ))))
          = true := by
  have g1 : Dbl.gt (Dbl.fin false (5145325556568180 * 2 ^ (-52 : ℤ))) (Dbl.fin false 2)
      = false := by
    simp only [Dbl.gt, sval]
    norm_num
  have g2 : Dbl.gt (Dbl.fin false (5145325556568179 * 2 ^ (-52 : ℤ))) (Dbl.fin false 2)
      = false := by
    simp only [Dbl.gt, sval]
    norm_num
  have g3 : Dbl.gt (Dbl.fin false (5145325556568180 * 2 ^ (-52 : ℤ)))
      (Dbl.fin false (5145325556568179 * 2 ^ (-52 : ℤ))) = true := by
    simp only [Dbl.gt, sval]
    norm_num
  refine ⟨by norm_num, by norm_num, by norm_num, ?_, ?_, by norm_num, by norm_num,
    by norm_num, ?_, ?_⟩
  · rw [Ksat_raw_Factor64_ten, Ksat_raw_Factor64_ten_next]
  · rw [Ksat_raw_Factor64_ten, Ksat_raw_Factor64_ten_next]
    simp [Dbl.gt]
  · rw [Ksat_raw_Factor64_twentysix, Ksat_raw_Factor64_twentysix_next]
    exact g3
  · unfold modify_Ksat_Factor64
    rw [Ksat_raw_Factor64_twentysix, Ksat_raw_Factor64_twentysix_next, Dbl.lit_two, g1, g2]
    exact g3

/-- C16 (amended): with `FROZEN_SOIL` enabled, for doubles `Temp1`, `Temp2`
    with `-100 ≤ Temp1`, `Temp1 + 2^-16 ≤ Temp2 ≤ 60` (at least `2^-16` degrees
    apart) the raw `Factor` computed in double precision is finite at both and
    strictly larger at `Temp2`, and the clamped `Factor` at `Temp1` is not
    above the clamped `Factor` at `Temp2`. -/
theorem Ksat_Factor64_increasing {T1 T2 : Dbl} {t1 t2 : ℚ} (h1 : T1.Val t1) (h2 : T2.Val t2)
    (hlo : -100 ≤ t1) (hgap : t1 + 1 / 2 ^ 16 ≤ t2) (h60 : t2 ≤ 60) :
    ∃ f1 f2 g1 g2 : ℚ,
      (Ksat_raw_Factor64 true T1).Val f1 ∧ (Ksat_raw_Factor64 true T2).Val f2 ∧ f1 < f2
        ∧ Dbl.gt (Ksat_raw_Factor64 true T2) (Ksat_raw_Factor64 true T1) = true
        ∧ (modify_Ksat_Factor64 true T1).Val g1 ∧ (modify_Ksat_Factor64 true T2).Val g2
        ∧ g1 ≤ g2 := by
  have hpos16 : (0 : ℚ) < 1 / 2 ^ 16 := by positivity
  have h12 : t1 ≤ t2 := by linarith
  obtain ⟨c, d1, f1, hc, kc, -, e1, l1, u1, hf1, -, r1⟩ :=
    Ksat_raw_Factor64_err h1 hlo (le_trans h12 h60)
  obtain ⟨c2, d2, f2, hc2, -, -, e2, l2, u2, hf2, -, r2⟩ :=
    Ksat_raw_Factor64_err h2 (le_trans hlo h12) h60
  have hcc : c2 = c := Dbl.val_unique hc2 hc
  rw [hcc] at r2
  have hs := Ksat_denom_slope t1 t2 h12
  have a1 := abs_le.mp e1
  have a2 := abs_le.mp e2
  have ac := abs_le.mp kc
  have hc1 : 35 / 10000 ≤ c := by
    have : (0.003557 : ℚ) - 1 / 2 ^ 62 ≥ 35 / 10000 := by norm_num
    linarith
  have hc3 : c ≤ 36 / 10000 := by
    have : (0.003557 : ℚ) + 1 / 2 ^ 62 ≤ 36 / 10000 := by norm_num
    linarith
  have hd1 : 0 < d1 := lt_of_lt_of_le (by norm_num) l1
  have hd2 : 0 < d2 := lt_of_lt_of_le (by norm_num) l2
  -- the computed denominators are separated
  have hsep : 6 / 10000000000 ≤ d1 - d2 := by
    have hg : (4e-5 : ℚ) * (1 / 2 ^ 16) ≤ 4e-5 * (t2 - t1) :=
      mul_le_mul_of_nonneg_left (by linarith) (by norm_num)
    have hn : (6 : ℚ) / 10000000000 + 2 / 2 ^ 40 ≤ 4e-5 * (1 / 2 ^ 16) := by norm_num
    linarith
  -- so are the exact quotients
  have hquot : c / d1 + 1 / 10000000000 ≤ c / d2 := by
    rw [div_add' _ _ _ (ne_of_gt hd1), div_le_div_iff₀ hd1 hd2]
    have hprod : d1 * d2 ≤ 12 / 100 * (12 / 100) :=
      mul_le_mul u1 u2 (le_of_lt hd2) (by norm_num)
    have hnum : 35 / 10000 * (6 / 10000000000) ≤ c * (d1 - d2) :=
      mul_le_mul hc1 hsep (by norm_num) (le_trans (by norm_num) hc1)
    nlinarith
  -- the quotients are at most 3.2, so rounding moves them by less than 1e-15
  have hq1 : c / d1 ≤ 32 / 10 := by
    rw [div_le_iff₀ hd1]
    nlinarith
  have hq2 : c / d2 ≤ 32 / 10 := by
    rw [div_le_iff₀ hd2]
    nlinarith
  have hr1 : c / d1 / 2 ^ 52 ≤ 1 / 1000000000000000 := by
    have : c / d1 / 2 ^ 52 ≤ 32 / 10 / 2 ^ 52 := div_le_div_of_nonneg_right hq1 (by positivity)
    have hn : (32 : ℚ) / 10 / 2 ^ 52 ≤ 1 / 1000000000000000 := by norm_num
    linarith
  have hr2 : c / d2 / 2 ^ 52 ≤ 1 / 1000000000000000 := by
    have : c / d2 / 2 ^ 52 ≤ 32 / 10 / 2 ^ 52 := div_le_div_of_nonneg_right hq2 (by positivity)
    have hn : (32 : ℚ) / 10 / 2 ^ 52 ≤ 1 / 1000000000000000 := by norm_num
    linarith
  have b1 := abs_le.mp r1
  have b2 := abs_le.mp r2
  have hlt : f1 < f2 := by linarith
  refine ⟨f1, f2, min f1 2, min f2 2, hf1, hf2, hlt, ?_, modify_Ksat_Factor64_val hf1,
    modify_Ksat_Factor64_val hf2, min_le_min (le_of_lt hlt) (le_refl 2)⟩
  rw [Dbl.gt_of_val hf2 hf1]
  exact decide_eq_true hlt

theorem Ksat_Factor64_increasing_witness :
    ∃ f1 f2 g1 g2 : ℚ,
      (Ksat_raw_Factor64 true (Dbl.fin false 10)).Val f1
        ∧ (Ksat_raw_Factor64 true (Dbl.fin false 55)).Val f2 ∧ f1 < f2
        ∧ Dbl.gt (Ksat_raw_Factor64 true (Dbl.fin false 55))
            (Ksat_raw_Factor64 true (Dbl.fin false 10)) = true
        ∧ (modify_Ksat_Factor64 true (Dbl.fin false 10)).Val g1
        ∧ (modify_Ksat_Factor64 true (Dbl.fin false 55)).Val g2
        ∧ g1 ≤ g2 :=
  Ksat_Factor64_increasing (Dbl.val_pos 10 (by norm_num)) (Dbl.val_pos 55 (by norm_num))
    (by norm_num) (by norm_num) (by norm_num)

/-- C17: the clamp bounds the internal `Factor` only from above: with
    `FROZEN_SOIL` enabled and `Temp = 70` the denominator is negative and the
    `Factor` after the clamp is strictly negative, so the internal `Factor`
    does not always lie in `[0, 2]`. -/
theorem modify_Ksat_Factor_negative :
    Ksat_denom (70 : ℝ) < 0
      ∧ (∃ f : ℝ, modify_Ksat_Factor true (70 : ℝ) = some f ∧ f < 0)
      ∧ ¬ ∀ (Temp f : ℝ), modify_Ksat_Factor true Temp = some f → 0 ≤ f ∧ f ≤ 2 := by
  have hd : Ksat_denom (70 : ℝ) = -0.00015989 := by
    unfold Ksat_denom
    norm_num
  have hne : Ksat_denom (70 : ℝ) ≠ 0 := by
    rw [hd]
    norm_num
  have hneg : (0.003557 : ℝ) / Ksat_denom (70 : ℝ) < 0 := by
    rw [hd]
    norm_num
  have hc : Ksat_clamp ((0.003557 : ℝ) / Ksat_denom (70 : ℝ))
      = 0.003557 / Ksat_denom (70 : ℝ) :=
    Ksat_clamp_of_le (le_trans (le_of_lt hneg) (by norm_num))
  have hF : modify_Ksat_Factor true (70 : ℝ) = some (0.003557 / Ksat_denom (70 : ℝ)) := by
    rw [modify_Ksat_Factor_of_ne 70 hne, hc]
  refine ⟨by rw [hd]; norm_num, ⟨_, hF, hneg⟩, fun hall => ?_⟩
  exact absurd (hall 70 _ hF).1 (not_le.mpr hneg)

/-- C18 fails as stated: `linear_interp(2, 0, 2, 1e16, 1)` returns `0` while
    the call with the reference points swapped, `linear_interp(2, 2, 0, 1, 1e16)`,
    returns `1`. -/
theorem linear_interp_swap_counterexample :
    linear_interp64 (Dbl.fin false 2) (Dbl.fin false 0) (Dbl.fin false 2)
        (Dbl.fin false (10 ^ 16)) (Dbl.fin false 1) = Dbl.fin false 0
      ∧ linear_interp64 (Dbl.fin false 2) (Dbl.fin false 2) (Dbl.fin false 0)
        (Dbl.fin false 1) (Dbl.fin false (10 ^ 16)) = Dbl.fin false 1
      ∧ Dbl.ceq (Dbl.fin false 0) (Dbl.fin false 1) = false :=
  ⟨linear_interp64_absorb, linear_interp64_absorb_swapped, by simp [Dbl.ceq, sval]⟩

/-- C18 (amended): for `lx ≠ ux`, when neither the call nor the call with the
    reference points swapped rounds, both return the same value. -/
theorem linear_interp64_swap {x lx ux ly uy : Dbl} {vx vlx vux vly vuy : ℚ}
    (hx : x.Val vx) (hlx : lx.Val vlx) (hux : ux.Val vux) (hly : ly.Val vly)
    (huy : uy.Val vuy) (h : linear_exact vx vlx vux vly vuy)
    (hs : linear_exact vx vux vlx vuy vly) :
    ∃ r : ℚ, (linear_interp64 x lx ux ly uy).Val r
      ∧ (linear_interp64 x ux lx uy ly).Val r
      ∧ Dbl.ceq (linear_interp64 x lx ux ly uy) (linear_interp64 x ux lx uy ly) = true := by
  have hd : vux - vlx ≠ 0 := h.1
  have hd2 : vlx - vux ≠ 0 := hs.1
  have h1 := linear_interp64_exact hx hlx hux hly huy h
  have h2 := linear_interp64_exact hx hux hlx huy hly hs
  have he : (vx - vux) / (vlx - vux) * (vly - vuy) + vuy
      = (vx - vlx) / (vux - vlx) * (vuy - vly) + vly := by
    field_simp
    ring
  rw [he] at h2
  exact ⟨_, h1, h2, Dbl.ceq_of_val h1 h2⟩

theorem linear_interp64_swap_witness :
    ∃ r : ℚ,
      (linear_interp64 (Dbl.fin false 1) (Dbl.fin false 0) (Dbl.fin false 2) (Dbl.fin false 3)
          (Dbl.fin false 7)).Val r
        ∧ (linear_interp64 (Dbl.fin false 1) (Dbl.fin false 2) (Dbl.fin false 0)
          (Dbl.fin false 7) (Dbl.fin false 3)).Val r
        ∧ Dbl.ceq
          (linear_interp64 (Dbl.fin false 1) (Dbl.fin false 0) (Dbl.fin false 2)
            (Dbl.fin false 3) (Dbl.fin false 7))
          (linear_interp64 (Dbl.fin false 1) (Dbl.fin false 2) (Dbl.fin false 0)
            (Dbl.fin false 7) (Dbl.fin false 3)) = true :=
  linear_interp64_swap (Dbl.val_pos 1 (by norm_num)) (Dbl.val_pos 0 (by norm_num))
    (Dbl.val_pos 2 (by norm_num)) (Dbl.val_pos 3 (by norm_num)) (Dbl.val_pos 7 (by norm_num))
    linear_exact_sample_mid linear_exact_sample_swapped

/-- C19 fails as stated: with `lx = 0 < ux = 2` and `x = 2` inside the
    interval, `linear_interp(2, 0, 2, 1e16, 1)` returns `0`, which is below
    `min(ly, uy) = 1`. -/
theorem linear_interp_bounded_counterexample :
    (0 : ℚ) < 2 ∧ (0 : ℚ) ≤ 2 ∧ (2 : ℚ) ≤ 2
      ∧ (linear_interp64 (Dbl.fin false 2) (Dbl.fin false 0) (Dbl.fin false 2)
          (Dbl.fin false (10 ^ 16)) (Dbl.fin false 1)).Val 0
      ∧ ¬ min ((10 : ℚ) ^ 16) 1 ≤ 0 := by
  rw [linear_interp64_absorb]
  exact ⟨by norm_num, by norm_num, le_refl 2, Dbl.val_pos 0 (le_refl 0), by norm_num⟩

/-- C19 (amended): for `lx < ux` and `lx ≤ x ≤ ux`, when no operation of the
    evaluation rounds, the value of `linear_interp` lies between
    `min ly uy` and `max ly uy`. -/
theorem linear_interp64_bounded {x lx ux ly uy : Dbl} {vx vlx vux vly vuy : ℚ}
    (hx : x.Val vx) (hlx : lx.Val vlx) (hux : ux.Val vux) (hly : ly.Val vly)
    (huy : uy.Val vuy) (h : linear_exact vx vlx vux vly vuy)
    (hlu : vlx < vux) (hl : vlx ≤ vx) (hu : vx ≤ vux) :
    ∃ r : ℚ, (linear_interp64 x lx ux ly uy).Val r
      ∧ min vly vuy ≤ r ∧ r ≤ max vly vuy := by
  have hd : 0 < vux - vlx := sub_pos.mpr hlu
  have ht0 : 0 ≤ (vx - vlx) / (vux - vlx) := div_nonneg (sub_nonneg.mpr hl) (le_of_lt hd)
  have ht1 : (vx - vlx) / (vux - vlx) ≤ 1 := by
    rw [div_le_one hd]
    linarith
  refine ⟨_, linear_interp64_exact hx hlx hux hly huy h, ?_, ?_⟩
  · rcases le_total vly vuy with hyl | hyl
    · rw [min_eq_left hyl]
      nlinarith [mul_nonneg ht0 (sub_nonneg.mpr hyl)]
    · rw [min_eq_right hyl]
      nlinarith [mul_nonneg (sub_nonneg.mpr ht1) (sub_nonneg.mpr hyl)]
  · rcases le_total vly vuy with hyl | hyl
    · rw [max_eq_right hyl]
      nlinarith [mul_nonneg (sub_nonneg.mpr ht1) (sub_nonneg.mpr hyl)]
    · rw [max_eq_left hyl]
      nlinarith [mul_nonneg ht0 (sub_nonneg.mpr hyl)]

theorem linear_interp64_bounded_witness :
    ∃ r : ℚ,
      (linear_interp64 (Dbl.fin false 1) (Dbl.fin false 0) (Dbl.fin false 2) (Dbl.fin false 3)
          (Dbl.fin false 7)).Val r
        ∧ min (3 : ℚ) 7 ≤ r ∧ r ≤ max (3 : ℚ) 7 :=
  linear_interp64_bounded (Dbl.val_pos 1 (by norm_num)) (Dbl.val_pos 0 (by norm_num))
    (Dbl.val_pos 2 (by norm_num)) (Dbl.val_pos 3 (by norm_num)) (Dbl.val_pos 7 (by norm_num))
    linear_exact_sample_mid (by norm_num) (by norm_num) (by norm_num)

end VIC
